import Mathlib

/-!
# Nohmad `StrangeAttractors`: Lorenz and Rössler integrators

A shallow embedding of `src/StrangeAttractors.cpp`.

* The two attractor records and their `process(dt)` member functions are
  embedded field by field and statement by statement.  In-place mutation is
  written as a chain of record updates, in the order of the C++ statements.
* The C++ `float` is embedded as `ℚ`: every arithmetic operation is the exact
  one.  Rounding to single precision, overflow to infinity and NaN are outside
  this model; all statements about `LorenzAttractor`, `RosslerAttractor` and
  `StrangeAttractors` are statements of exact arithmetic.
* Rounding, absorption of a small increment, overflow and NaN are properties of
  the machine arithmetic.  For the claims that depend on them (C5, C11 and C17)
  the two integrators are embedded a second time, as `LorenzAttractor32` and
  `RosslerAttractor32`, over a model `Float32` of IEEE 754 single precision.
* The controller `StrangeAttractors::process` is embedded as a function on the
  module record (knob values, modulation voltages, output ports and the two
  attractors).
-/

/-! ## LorenzAttractor -/

/-- The record `struct LorenzAttractor`: four parameters and three outputs. -/
structure LorenzAttractor where
  sigma : ℚ
  beta : ℚ
  rho : ℚ
  pitch : ℚ
  x : ℚ
  y : ℚ
  z : ℚ
  deriving DecidableEq

namespace LorenzAttractor

def DEFAULT_SIGNMA_VALUE : ℚ := 10.0
def DEFAULT_BETA_VALUE : ℚ := 8.0 / 3.0
def DEFAULT_RHO_VALUE : ℚ := 28.0
def DEFAULT_PITCH_VALUE : ℚ := 0.5

/-- The constructor `LorenzAttractor()`. -/
def ctor : LorenzAttractor :=
  { sigma := DEFAULT_SIGNMA_VALUE, beta := DEFAULT_BETA_VALUE, rho := DEFAULT_RHO_VALUE,
    pitch := DEFAULT_PITCH_VALUE, x := 1.0, y := 1.0, z := 1.0 }

/-- The member function `void process(float dt)`: the three derivatives are
computed first, then `x`, `y`, `z` are updated in place, one after the other. -/
def process (s : LorenzAttractor) (dt : ℚ) : LorenzAttractor :=
  let dx := s.sigma * (s.y - s.x)
  let dy := s.x * (s.rho - s.z) - s.y
  let dz := (s.x * s.y) - (s.beta * s.z)
  let s1 := { s with x := s.x + dx * dt * s.pitch * 375.0 }
  let s2 := { s1 with y := s1.y + dy * dt * s1.pitch * 375.0 }
  let s3 := { s2 with z := s2.z + dz * dt * s2.pitch * 375.0 }
  s3

end LorenzAttractor

/-! ## RosslerAttractor -/

/-- The record `struct RosslerAttractor`: four parameters and three outputs. -/
structure RosslerAttractor where
  a : ℚ
  b : ℚ
  c : ℚ
  pitch : ℚ
  x : ℚ
  y : ℚ
  z : ℚ
  deriving DecidableEq

namespace RosslerAttractor

def DEFAULT_A_VALUE : ℚ := 0.2
def DEFAULT_B_VALUE : ℚ := 0.2
def DEFAULT_C_VALUE : ℚ := 5.7
def DEFAULT_PITCH_VALUE : ℚ := 0.5

/-- The constructor `RosslerAttractor()`. -/
def ctor : RosslerAttractor :=
  { a := DEFAULT_A_VALUE, b := DEFAULT_B_VALUE, c := DEFAULT_C_VALUE,
    pitch := DEFAULT_PITCH_VALUE, x := 1.0, y := 1.0, z := 1.0 }

/-- The member function `void process(float dt)`. -/
def process (s : RosslerAttractor) (dt : ℚ) : RosslerAttractor :=
  let dx := -s.y - s.z
  let dy := s.x + (s.a * s.y)
  let dz := s.b + s.z * (s.x - s.c)
  let s1 := { s with x := s.x + dx * dt * s.pitch * 2910.0 }
  let s2 := { s1 with y := s1.y + dy * dt * s1.pitch * 2910.0 }
  let s3 := { s2 with z := s2.z + dz * dt * s2.pitch * 2910.0 }
  s3

end RosslerAttractor

/-! ## The controller `StrangeAttractors` -/

inductive ParamIds where
  | LORENZ_SIGMA_PARAM
  | LORENZ_BETA_PARAM
  | LORENZ_RHO_PARAM
  | LORENZ_PITCH_PARAM
  | ROSSLER_A_PARAM
  | ROSSLER_B_PARAM
  | ROSSLER_C_PARAM
  | ROSSLER_PITCH_PARAM
  deriving DecidableEq

inductive InputIds where
  | LORENZ_SIGMA_INPUT
  | LORENZ_BETA_INPUT
  | LORENZ_RHO_INPUT
  | LORENZ_PITCH_INPUT
  | ROSSLER_A_INPUT
  | ROSSLER_B_INPUT
  | ROSSLER_C_INPUT
  | ROSSLER_PITCH_INPUT
  deriving DecidableEq

inductive OutputIds where
  | LORENZ_X_OUTPUT
  | LORENZ_Y_OUTPUT
  | ROSSLER_X_OUTPUT
  | ROSSLER_Y_OUTPUT
  deriving DecidableEq

/-- Modelled from the spec: the helper `clamp(x, min, max)` comes from the host
SDK header included through `Nohmad.hpp`, which is not part of the sources.  It
limits `x` to the closed interval between `min` and `max`. -/
def clamp (x a b : ℚ) : ℚ := max (min x b) a

/-- Modelled from the spec: an output port of the host, reduced to what the
controller reads (`isConnected()`) and writes (`setVoltage(v)`). -/
structure Output where
  connected : Bool
  voltage : ℚ
  deriving DecidableEq

/-- The call `outputs[i].setVoltage(v)`: only the voltage of port `i` changes. -/
def setVoltage (outs : OutputIds → Output) (i : OutputIds) (v : ℚ) : OutputIds → Output :=
  fun j => if j = i then { outs j with voltage := v } else outs j

/-- Modelled from the spec: the host argument record `ProcessArgs`, reduced to
the one field the controller reads. -/
structure ProcessArgs where
  sampleRate : ℚ

/-- The module record `struct StrangeAttractors : Module`.  The inherited
members are reduced to what the controller uses: `params i` is
`params[i].getValue()`, `inputs i` is `inputs[i].getVoltage()` (0 V for an
unconnected input) and `outputs i` is the output port `outputs[i]`. -/
structure StrangeAttractors where
  params : ParamIds → ℚ
  inputs : InputIds → ℚ
  outputs : OutputIds → Output
  lorenz : LorenzAttractor
  rossler : RosslerAttractor

namespace StrangeAttractors

def LORENZ_SIGMA_PARAM_MIN : ℚ := 3.0
def LORENZ_SIGMA_PARAM_MAX : ℚ := 30.0
def LORENZ_BETA_PARAM_MIN : ℚ := 0.5
def LORENZ_BETA_PARAM_MAX : ℚ := 3.0
def LORENZ_RHO_PARAM_MIN : ℚ := 13.0
def LORENZ_RHO_PARAM_MAX : ℚ := 80.0
def LORENZ_PITCH_PARAM_MIN : ℚ := 0.001
def LORENZ_PITCH_PARAM_MAX : ℚ := 1.0

def ROSSLER_A_PARAM_MIN : ℚ := 0.0
def ROSSLER_A_PARAM_MAX : ℚ := 0.2
def ROSSLER_B_PARAM_MIN : ℚ := 0.1
def ROSSLER_B_PARAM_MAX : ℚ := 1.0
def ROSSLER_C_PARAM_MIN : ℚ := 3.0
def ROSSLER_C_PARAM_MAX : ℚ := 12.0
def ROSSLER_PITCH_PARAM_MIN : ℚ := 0.001
def ROSSLER_PITCH_PARAM_MAX : ℚ := 1.0

/-- The condition of the first `if` of `process`: one of the two Lorenz
outputs is connected. -/
def lorenzActive (m : StrangeAttractors) : Bool :=
  (m.outputs .LORENZ_X_OUTPUT).connected || (m.outputs .LORENZ_Y_OUTPUT).connected

/-- The condition of the second `if` of `process`: one of the two Rössler
outputs is connected. -/
def rosslerActive (m : StrangeAttractors) : Bool :=
  (m.outputs .ROSSLER_X_OUTPUT).connected || (m.outputs .ROSSLER_Y_OUTPUT).connected

/-- The four assignments to `lorenz.sigma`, `lorenz.beta`, `lorenz.rho` and
`lorenz.pitch` that open the Lorenz branch. -/
def lorenzWriteParams (m : StrangeAttractors) : StrangeAttractors :=
  let m1 := { m with lorenz := { m.lorenz with
      sigma := clamp (m.params .LORENZ_SIGMA_PARAM + m.inputs .LORENZ_SIGMA_INPUT * 0.1)
        LORENZ_SIGMA_PARAM_MIN LORENZ_SIGMA_PARAM_MAX } }
  let m2 := { m1 with lorenz := { m1.lorenz with
      beta := clamp (m1.params .LORENZ_BETA_PARAM + m1.inputs .LORENZ_BETA_INPUT * 0.1)
        LORENZ_BETA_PARAM_MIN LORENZ_BETA_PARAM_MAX } }
  let m3 := { m2 with lorenz := { m2.lorenz with
      rho := clamp (m2.params .LORENZ_RHO_PARAM + m2.inputs .LORENZ_RHO_INPUT * 0.1)
        LORENZ_RHO_PARAM_MIN LORENZ_RHO_PARAM_MAX } }
  let m4 := { m3 with lorenz := { m3.lorenz with
      pitch := clamp (m3.params .LORENZ_PITCH_PARAM + m3.inputs .LORENZ_PITCH_INPUT * 0.1)
        LORENZ_PITCH_PARAM_MIN LORENZ_PITCH_PARAM_MAX } }
  m4

/-- The body of the first `if` of `process`: write the clamped parameters,
call `lorenz.process`, set the two output voltages. -/
def lorenzBranch (m : StrangeAttractors) (args : ProcessArgs) : StrangeAttractors :=
  let m1 := m.lorenzWriteParams
  let m2 := { m1 with lorenz := m1.lorenz.process (1.0 / args.sampleRate) }
  let m3 := { m2 with outputs := setVoltage m2.outputs .LORENZ_X_OUTPUT (5.0 * 0.044 * m2.lorenz.x) }
  let m4 := { m3 with outputs := setVoltage m3.outputs .LORENZ_Y_OUTPUT (5.0 * 0.0328 * m3.lorenz.y) }
  m4

/-- The four assignments to `rossler.a`, `rossler.b`, `rossler.c` and
`rossler.pitch` that open the Rössler branch.  The factor is written `0.1`
here and `0.1f` in the Lorenz branch; in exact arithmetic both are `1/10`. -/
def rosslerWriteParams (m : StrangeAttractors) : StrangeAttractors :=
  let m1 := { m with rossler := { m.rossler with
      a := clamp (m.params .ROSSLER_A_PARAM + m.inputs .ROSSLER_A_INPUT * 0.1)
        ROSSLER_A_PARAM_MIN ROSSLER_A_PARAM_MAX } }
  let m2 := { m1 with rossler := { m1.rossler with
      b := clamp (m1.params .ROSSLER_B_PARAM + m1.inputs .ROSSLER_B_INPUT * 0.1)
        ROSSLER_B_PARAM_MIN ROSSLER_B_PARAM_MAX } }
  let m3 := { m2 with rossler := { m2.rossler with
      c := clamp (m2.params .ROSSLER_C_PARAM + m2.inputs .ROSSLER_C_INPUT * 0.1)
        ROSSLER_C_PARAM_MIN ROSSLER_C_PARAM_MAX } }
  let m4 := { m3 with rossler := { m3.rossler with
      pitch := clamp (m3.params .ROSSLER_PITCH_PARAM + m3.inputs .ROSSLER_PITCH_INPUT * 0.1)
        ROSSLER_PITCH_PARAM_MIN ROSSLER_PITCH_PARAM_MAX } }
  m4

/-- The body of the second `if` of `process`. -/
def rosslerBranch (m : StrangeAttractors) (args : ProcessArgs) : StrangeAttractors :=
  let m1 := m.rosslerWriteParams
  let m2 := { m1 with rossler := m1.rossler.process (1.0 / args.sampleRate) }
  let m3 := { m2 with outputs := setVoltage m2.outputs .ROSSLER_X_OUTPUT (5.0 * 0.054 * m2.rossler.x) }
  let m4 := { m3 with outputs := setVoltage m3.outputs .ROSSLER_Y_OUTPUT (5.0 * 0.0569 * m3.rossler.y) }
  m4

/-- The controller tick `void StrangeAttractors::process(const ProcessArgs &args)`:
the Lorenz `if` first, then the Rössler `if` on the resulting module. -/
def process (m : StrangeAttractors) (args : ProcessArgs) : StrangeAttractors :=
  let m1 := if m.lorenzActive then m.lorenzBranch args else m
  let m2 := if m1.rosslerActive then m1.rosslerBranch args else m1
  m2

end StrangeAttractors

/-! ## The host driving the controller -/

/-- Modelled from the spec: what the host presents to the controller for one
sample tick: the knob values, the modulation voltages, which outputs are
connected, and the tick arguments. -/
structure HostFrame where
  params : ParamIds → ℚ
  inputs : InputIds → ℚ
  connected : OutputIds → Bool
  args : ProcessArgs

/-- Neither Lorenz output is connected in this frame. -/
def HostFrame.lorenzIdle (f : HostFrame) : Bool :=
  !(f.connected .LORENZ_X_OUTPUT || f.connected .LORENZ_Y_OUTPUT)

/-- Neither Rössler output is connected in this frame. -/
def HostFrame.rosslerIdle (f : HostFrame) : Bool :=
  !(f.connected .ROSSLER_X_OUTPUT || f.connected .ROSSLER_Y_OUTPUT)

/-- Modelled from the spec: one sample tick as the host runs it.  The host
installs the frame (knobs, modulation voltages, connections) and then calls
`process` once. -/
def StrangeAttractors.hostTick (m : StrangeAttractors) (f : HostFrame) : StrangeAttractors :=
  StrangeAttractors.process
    { m with
      params := f.params
      inputs := f.inputs
      outputs := fun i => { m.outputs i with connected := f.connected i } }
    f.args

/-- Modelled from the spec: a run of sample ticks, one per frame, in order. -/
def StrangeAttractors.run (m : StrangeAttractors) : List HostFrame → StrangeAttractors
  | [] => m
  | f :: fs => (m.hostTick f).run fs

/-! ## Helpers taken from the wording of the specification -/

/-- Rounding to four decimal places (halves are rounded up). -/
def roundTo4 (q : ℚ) : ℚ := (⌊q * 10000 + 1 / 2⌋ : ℤ) / 10000

/-- The valid parameter ranges of the Lorenz attractor. -/
def LorenzAttractor.ParamsInRange (s : LorenzAttractor) : Prop :=
  (3 ≤ s.sigma ∧ s.sigma ≤ 30) ∧ (0.5 ≤ s.beta ∧ s.beta ≤ 3) ∧
  (13 ≤ s.rho ∧ s.rho ≤ 80) ∧ (0.001 ≤ s.pitch ∧ s.pitch ≤ 1)

instance (s : LorenzAttractor) : Decidable s.ParamsInRange := by
  unfold LorenzAttractor.ParamsInRange; infer_instance

/-- The valid parameter ranges of the Rössler attractor. -/
def RosslerAttractor.ParamsInRange (s : RosslerAttractor) : Prop :=
  (0 ≤ s.a ∧ s.a ≤ 0.2) ∧ (0.1 ≤ s.b ∧ s.b ≤ 1) ∧
  (3 ≤ s.c ∧ s.c ≤ 12) ∧ (0.001 ≤ s.pitch ∧ s.pitch ≤ 1)

instance (s : RosslerAttractor) : Decidable s.ParamsInRange := by
  unfold RosslerAttractor.ParamsInRange; infer_instance

/-- Repeated advance: `n` successive calls of `process dt`. -/
def LorenzAttractor.iterate (s : LorenzAttractor) (dt : ℚ) : Nat → LorenzAttractor
  | 0 => s
  | n + 1 => (s.process dt).iterate dt n

/-- The reflection `(x, y, z) ↦ (-x, -y, z)` of the Lorenz state; the parameters
are kept. -/
def LorenzAttractor.reflect (s : LorenzAttractor) : LorenzAttractor :=
  { s with x := -s.x, y := -s.y }

/-- How a parameter `r` is derived from its knob value and modulation voltage
for the valid interval `[lo, hi]`: the sum `knob + 0.1 * cv` when it lies inside
the interval (so the knob value itself when the modulation voltage is 0 and
the knob is inside), the minimum below the interval, the maximum above it. -/
def DerivedFrom (knob cv lo hi r : ℚ) : Prop :=
  (lo ≤ knob + 0.1 * cv ∧ knob + 0.1 * cv ≤ hi → r = knob + 0.1 * cv) ∧
  (cv = 0 ∧ lo ≤ knob ∧ knob ≤ hi → r = knob) ∧
  (knob + 0.1 * cv < lo → r = lo) ∧
  (hi < knob + 0.1 * cv → r = hi)

/-- The two modules agree on what drives the Lorenz attractor: its record, its
four knobs and its four modulation inputs. -/
def StrangeAttractors.LorenzDriveEq (m m' : StrangeAttractors) : Prop :=
  m.lorenz = m'.lorenz ∧
  (m.params .LORENZ_SIGMA_PARAM = m'.params .LORENZ_SIGMA_PARAM ∧
    m.params .LORENZ_BETA_PARAM = m'.params .LORENZ_BETA_PARAM ∧
    m.params .LORENZ_RHO_PARAM = m'.params .LORENZ_RHO_PARAM ∧
    m.params .LORENZ_PITCH_PARAM = m'.params .LORENZ_PITCH_PARAM) ∧
  (m.inputs .LORENZ_SIGMA_INPUT = m'.inputs .LORENZ_SIGMA_INPUT ∧
    m.inputs .LORENZ_BETA_INPUT = m'.inputs .LORENZ_BETA_INPUT ∧
    m.inputs .LORENZ_RHO_INPUT = m'.inputs .LORENZ_RHO_INPUT ∧
    m.inputs .LORENZ_PITCH_INPUT = m'.inputs .LORENZ_PITCH_INPUT)

/-- The two modules agree on everything that belongs to the Lorenz attractor:
what drives it and its two output ports (connection and present voltage). -/
def StrangeAttractors.LorenzSideEq (m m' : StrangeAttractors) : Prop :=
  m.LorenzDriveEq m' ∧
  m.outputs .LORENZ_X_OUTPUT = m'.outputs .LORENZ_X_OUTPUT ∧
  m.outputs .LORENZ_Y_OUTPUT = m'.outputs .LORENZ_Y_OUTPUT

/-- The two modules agree on what drives the Rössler attractor: its record, its
four knobs and its four modulation inputs. -/
def StrangeAttractors.RosslerDriveEq (m m' : StrangeAttractors) : Prop :=
  m.rossler = m'.rossler ∧
  (m.params .ROSSLER_A_PARAM = m'.params .ROSSLER_A_PARAM ∧
    m.params .ROSSLER_B_PARAM = m'.params .ROSSLER_B_PARAM ∧
    m.params .ROSSLER_C_PARAM = m'.params .ROSSLER_C_PARAM ∧
    m.params .ROSSLER_PITCH_PARAM = m'.params .ROSSLER_PITCH_PARAM) ∧
  (m.inputs .ROSSLER_A_INPUT = m'.inputs .ROSSLER_A_INPUT ∧
    m.inputs .ROSSLER_B_INPUT = m'.inputs .ROSSLER_B_INPUT ∧
    m.inputs .ROSSLER_C_INPUT = m'.inputs .ROSSLER_C_INPUT ∧
    m.inputs .ROSSLER_PITCH_INPUT = m'.inputs .ROSSLER_PITCH_INPUT)

/-- The two modules agree on everything that belongs to the Rössler attractor:
what drives it and its two output ports (connection and present voltage). -/
def StrangeAttractors.RosslerSideEq (m m' : StrangeAttractors) : Prop :=
  m.RosslerDriveEq m' ∧
  m.outputs .ROSSLER_X_OUTPUT = m'.outputs .ROSSLER_X_OUTPUT ∧
  m.outputs .ROSSLER_Y_OUTPUT = m'.outputs .ROSSLER_Y_OUTPUT

/-! ## Single-precision arithmetic

Rounding, overflow to infinity and NaN belong to the C++ `float`; exact rational
arithmetic cannot express them.  Here the integrators are embedded a second
time over a model of IEEE 754 binary32 with round-to-nearest-even: every `+`,
`-` and `*` of the source is one correctly rounded operation (no fused
multiply-add, no extended intermediate precision). -/

/-- A single-precision value in the layout of IEEE 754 binary32: a sign bit
`sign` (`0` or `1`), a significand `m` and an exponent field `e`.  For
`e ≤ 253` the value is the finite number `(-1)^sign * m * 2^(e - 149)`: the
exponent is counted from `2^(-149)`, the smallest positive single-precision
number.  An exponent field of `254` or more encodes an infinity when `m = 0`
and a NaN otherwise, as the all-ones exponent does in the format.  The
operations return canonical values: `m < 2^24`, and `2^23 ≤ m` unless
`e = 0`. -/
structure Float32 where
  sign : Nat
  m : Nat
  e : Nat
  deriving DecidableEq

namespace Float32

/-- The value `a` when `c` is true and `b` otherwise. -/
def pick {α : Type} (c : Bool) (a b : α) : α := Bool.rec b a c

/-- Number of binary digits of `n` for `n < 2 ^ 2 ^ k`, by binary search. -/
def bitLengthAux : Nat → Nat → Nat
  | 0, n => n
  | k + 1, n =>
    bif Nat.ble (Nat.pow 2 (Nat.pow 2 k)) n then
      Nat.pow 2 k + bitLengthAux k (n / Nat.pow 2 (Nat.pow 2 k))
    else bitLengthAux k n

/-- The least `j ≥ k` with `n < 2 ^ 2 ^ j` (the first argument bounds the search). -/
def levels : Nat → Nat → Nat → Nat
  | 0, _, k => k
  | fuel + 1, n, k =>
    bif Nat.ble (Nat.pow 2 (Nat.pow 2 k)) n then levels fuel n (k + 1) else k

/-- Number of binary digits of `n < 2^2`. -/
def bitLength2 (n : Nat) : Nat := pick (Nat.ble 2 n) (Nat.add 1 (Nat.div n 2)) n

/-- Number of binary digits of `n < 2^4`. -/
def bitLength4 (n : Nat) : Nat :=
  pick (Nat.ble 4 n) (Nat.add 2 (bitLength2 (Nat.div n 4))) (bitLength2 n)

/-- Number of binary digits of `n < 2^8`. -/
def bitLength8 (n : Nat) : Nat :=
  pick (Nat.ble 16 n) (Nat.add 4 (bitLength4 (Nat.div n 16))) (bitLength4 n)

/-- Number of binary digits of `n < 2^16`. -/
def bitLength16 (n : Nat) : Nat :=
  pick (Nat.ble 256 n) (Nat.add 8 (bitLength8 (Nat.div n 256))) (bitLength8 n)

/-- Number of binary digits of `n < 2^32`. -/
def bitLength32 (n : Nat) : Nat :=
  pick (Nat.ble 65536 n) (Nat.add 16 (bitLength16 (Nat.div n 65536))) (bitLength16 n)

/-- Number of binary digits of `n < 2^64`. -/
def bitLength64 (n : Nat) : Nat :=
  pick (Nat.ble 4294967296 n) (Nat.add 32 (bitLength32 (Nat.div n 4294967296))) (bitLength32 n)

/-- Number of binary digits of `n` (`0` for `n = 0`). -/
def bitLength (n : Nat) : Nat :=
  pick (Nat.ble 18446744073709551616 n) (bitLengthAux (levels n n 6) n) (bitLength64 n)

/-- The infinity of sign `s`. -/
def inf (s : Nat) : Float32 := ⟨s, 0, 254⟩

/-- The NaN produced by an invalid operation. -/
def nan : Float32 := ⟨0, 1, 254⟩

/-- The result of rounding: the significand `q ≤ 2^24` at the last place
`2^(T - 298)`, the carry `c` being `1` when `q = 2^24`.  A carry moves to the
next exponent, and a value of `2^128` or more is an infinity. -/
def finish (s q T c : Nat) : Float32 :=
  pick (Nat.ble 403 (Nat.add T c)) (inf s)
    ⟨s, Nat.div q (Nat.pow 2 c), Nat.sub (Nat.add T c) 149⟩

/-- Round to nearest, ties to even: `q0` is the truncated significand, `r` the
discarded remainder and `w` the unit in the last place (`1` when nothing is
discarded). -/
def roundShift (s T w q0 r : Nat) : Float32 :=
  finish s
    (Nat.add q0 (Nat.sub 1 (Nat.sub (Nat.add w 1) (Nat.add (Nat.mul 2 r) (Nat.mod q0 2))))) T
    (Nat.sub 1 (Nat.sub 16777216
      (Nat.add q0 (Nat.sub 1 (Nat.sub (Nat.add w 1) (Nat.add (Nat.mul 2 r) (Nat.mod q0 2)))))))

/-- Round `p * 2^(E - 298)` to a significand whose last place is `2^(T - 298)`:
shifted left when `T < E`, truncated with rounding when `E < T`. -/
def roundAt (s p E T : Nat) : Float32 :=
  roundShift s T (Nat.pow 2 (Nat.sub T E))
    (Nat.div (Nat.mul p (Nat.pow 2 (Nat.sub E T))) (Nat.pow 2 (Nat.sub T E)))
    (Nat.mod p (Nat.pow 2 (Nat.sub T E)))

/-- Rounding of a positive magnitude.  With `L` the number of binary digits of
`p`, the last place kept is `2^(T - 298)` where `T = max (E + L - 24) 149`: 24
significant bits, and never below `2^(-149)` (gradual underflow). -/
def roundPos (s p E : Nat) : Float32 :=
  roundAt s p E (Nat.add 149 (Nat.sub (Nat.add E (bitLength p)) 173))

/-- The correctly rounded single-precision value of `(-1)^s * p * 2^(E - 298)`. -/
def round (s p E : Nat) : Float32 :=
  pick (Nat.beq p 0) ⟨s, 0, 0⟩ (roundPos s p E)

/-- Neither an infinity nor a NaN. -/
def isFinite (a : Float32) : Bool := Nat.ble a.e 253

/-- Not a number. -/
def isNaN (a : Float32) : Bool := Nat.ble 254 a.e && !Nat.beq a.m 0

/-- Unary minus. -/
def neg (a : Float32) : Float32 := ⟨Nat.sub 1 a.sign, a.m, a.e⟩

/-- The operator `+` on two finite values.  Both significands are brought to
the smaller of the two exponents; the exact sum or difference is then
rounded.  An exact zero difference is `+0`. -/
def addFinite (a b : Float32) : Float32 :=
  let e := Nat.sub a.e (Nat.sub a.e b.e)
  let x := Nat.mul a.m (Nat.pow 2 (Nat.sub a.e e))
  let y := Nat.mul b.m (Nat.pow 2 (Nat.sub b.e e))
  pick (Nat.beq a.sign b.sign) (round a.sign (Nat.add x y) (Nat.add e 149))
    (pick (Nat.ble y x)
      (round (Nat.mul a.sign (Nat.sub 1 (Nat.sub 1 (Nat.sub x y)))) (Nat.sub x y) (Nat.add e 149))
      (round b.sign (Nat.sub y x) (Nat.add e 149)))

/-- The operator `+` when an operand is an infinity or a NaN. -/
def addSpecial (a b : Float32) : Float32 :=
  bif a.isNaN || b.isNaN then nan
  else bif a.isFinite then inf b.sign
  else bif b.isFinite then inf a.sign
  else bif Nat.beq a.sign b.sign then inf a.sign else nan

/-- The operator `+` on `float`. -/
def add (a b : Float32) : Float32 :=
  pick (Nat.ble (Nat.add a.e (Nat.sub b.e a.e)) 253) (addFinite a b) (addSpecial a b)

/-- The operator `-` on `float`. -/
def sub (a b : Float32) : Float32 := add a (neg b)

/-- The operator `*` on two finite values. -/
def mulFinite (a b : Float32) : Float32 :=
  round (Nat.mod (Nat.add a.sign b.sign) 2) (Nat.mul a.m b.m) (Nat.add a.e b.e)

/-- The operator `*` when an operand is an infinity or a NaN: `0 * inf` is a
NaN. -/
def mulSpecial (a b : Float32) : Float32 :=
  bif a.isNaN || b.isNaN then nan
  else bif (a.isFinite && Nat.beq a.m 0) || (b.isFinite && Nat.beq b.m 0) then nan
  else inf (Nat.mod (Nat.add a.sign b.sign) 2)

/-- The operator `*` on `float`. -/
def mul (a b : Float32) : Float32 :=
  pick (Nat.ble (Nat.add a.e (Nat.sub b.e a.e)) 253) (mulFinite a b) (mulSpecial a b)

/-- The natural number `n` as a single-precision value (exact for `n < 2^24`). -/
def ofNat (n : Nat) : Float32 := round 0 n 298

/-- A value of the single-precision format: a sign bit, a significand below
`2^24` and an exponent field of at most `254`. -/
def Valid (a : Float32) : Prop := a.sign ≤ 1 ∧ a.m < 2 ^ 24 ∧ a.e ≤ 254

instance (a : Float32) : Decidable a.Valid := by
  unfold Valid; infer_instance

/-- The rational value of a finite single-precision value (`0` otherwise). -/
def toRat (a : Float32) : ℚ :=
  if a.e ≤ 253 then (if a.sign = 0 then 1 else -1) * a.m * 2 ^ a.e / 2 ^ 149 else 0

/-- The comparison `<` on `float`: false when an operand is a NaN. -/
def lt (a b : Float32) : Bool :=
  !a.isNaN && !b.isNaN &&
    (bif a.isFinite then
      (bif b.isFinite then decide (a.toRat < b.toRat) else Nat.beq b.sign 0)
    else (!Nat.beq a.sign 0 && (b.isFinite || Nat.beq b.sign 0)))

/-- The comparison `<=` on `float`: false when an operand is a NaN. -/
def le (a b : Float32) : Bool :=
  !a.isNaN && !b.isNaN &&
    (bif a.isFinite then
      (bif b.isFinite then decide (a.toRat ≤ b.toRat) else Nat.beq b.sign 0)
    else (!Nat.beq a.sign 0 || (!b.isFinite && Nat.beq b.sign 0)))

end Float32

/-- The record `struct LorenzAttractor` with single-precision fields. -/
structure LorenzAttractor32 where
  sigma : Float32
  beta : Float32
  rho : Float32
  pitch : Float32
  x : Float32
  y : Float32
  z : Float32
  deriving DecidableEq

namespace LorenzAttractor32

/-- The constructor `LorenzAttractor()`: `10.0f`, `8.0f / 3.0f` (the nearest
single-precision value to `8/3`), `28.0f`, `0.5f` and the seed `1.0f`. -/
def ctor : LorenzAttractor32 :=
  { sigma := Float32.ofNat 10, beta := ⟨0, 11184811, 127⟩,
    rho := Float32.ofNat 28, pitch := ⟨0, 8388608, 125⟩,
    x := Float32.ofNat 1, y := Float32.ofNat 1, z := Float32.ofNat 1 }

/-- The member function `void process(float dt)`, operation by operation. -/
def process (s : LorenzAttractor32) (dt : Float32) : LorenzAttractor32 :=
  let dx := Float32.mul s.sigma (Float32.sub s.y s.x)
  let dy := Float32.sub (Float32.mul s.x (Float32.sub s.rho s.z)) s.y
  let dz := Float32.sub (Float32.mul s.x s.y) (Float32.mul s.beta s.z)
  let s1 := { s with
      x := Float32.add s.x
        (Float32.mul (Float32.mul (Float32.mul dx dt) s.pitch) (Float32.ofNat 375)) }
  let s2 := { s1 with
      y := Float32.add s1.y
        (Float32.mul (Float32.mul (Float32.mul dy dt) s1.pitch) (Float32.ofNat 375)) }
  let s3 := { s2 with
      z := Float32.add s2.z
        (Float32.mul (Float32.mul (Float32.mul dz dt) s2.pitch) (Float32.ofNat 375)) }
  s3

/-- Repeated advance: `n` successive calls of `process dt`. -/
def iterate (s : LorenzAttractor32) (dt : Float32) : Nat → LorenzAttractor32
  | 0 => s
  | n + 1 => (s.process dt).iterate dt n

/-- All of `x`, `y`, `z` are finite. -/
def isFinite (s : LorenzAttractor32) : Bool :=
  s.x.isFinite && s.y.isFinite && s.z.isFinite

/-- Advance `n` times, giving up as soon as a state is not finite. -/
def runFinite (s : LorenzAttractor32) (dt : Float32) : Nat → Option LorenzAttractor32
  | 0 => some s
  | n + 1 => bif (s.process dt).isFinite then (s.process dt).runFinite dt n else none

end LorenzAttractor32

/-- The record `struct RosslerAttractor` with single-precision fields. -/
structure RosslerAttractor32 where
  a : Float32
  b : Float32
  c : Float32
  pitch : Float32
  x : Float32
  y : Float32
  z : Float32
  deriving DecidableEq

namespace RosslerAttractor32

/-- The constructor `RosslerAttractor()`: `0.2f`, `0.2f`, `5.7f` (the nearest
single-precision values), `0.5f` and the seed `1.0f`. -/
def ctor : RosslerAttractor32 :=
  { a := ⟨0, 13421773, 123⟩, b := ⟨0, 13421773, 123⟩,
    c := ⟨0, 11953766, 128⟩, pitch := ⟨0, 8388608, 125⟩,
    x := Float32.ofNat 1, y := Float32.ofNat 1, z := Float32.ofNat 1 }

/-- The member function `void process(float dt)`, operation by operation. -/
def process (s : RosslerAttractor32) (dt : Float32) : RosslerAttractor32 :=
  let dx := Float32.sub (Float32.neg s.y) s.z
  let dy := Float32.add s.x (Float32.mul s.a s.y)
  let dz := Float32.add s.b (Float32.mul s.z (Float32.sub s.x s.c))
  let s1 := { s with
      x := Float32.add s.x
        (Float32.mul (Float32.mul (Float32.mul dx dt) s.pitch) (Float32.ofNat 2910)) }
  let s2 := { s1 with
      y := Float32.add s1.y
        (Float32.mul (Float32.mul (Float32.mul dy dt) s1.pitch) (Float32.ofNat 2910)) }
  let s3 := { s2 with
      z := Float32.add s2.z
        (Float32.mul (Float32.mul (Float32.mul dz dt) s2.pitch) (Float32.ofNat 2910)) }
  s3

/-- Repeated advance: `n` successive calls of `process dt`. -/
def iterate (s : RosslerAttractor32) (dt : Float32) : Nat → RosslerAttractor32
  | 0 => s
  | n + 1 => (s.process dt).iterate dt n

/-- All of `x`, `y`, `z` are finite. -/
def isFinite (s : RosslerAttractor32) : Bool :=
  s.x.isFinite && s.y.isFinite && s.z.isFinite

/-- Advance `n` times, giving up as soon as a state is not finite. -/
def runFinite (s : RosslerAttractor32) (dt : Float32) : Nat → Option RosslerAttractor32
  | 0 => some s
  | n + 1 => bif (s.process dt).isFinite then (s.process dt).runFinite dt n else none

end RosslerAttractor32

/-- The time step of a 44.1 kHz host: `1.0f / 44100.0f`, the nearest
single-precision value to `1/44100`, which is `12466118 * 2^(-39)`. -/
def dt44100 : Float32 := ⟨0, 12466118, 110⟩

/-- The value `a` has sign `s` and magnitude at least `mb * 2^(eb - 149)`: it is
the infinity of sign `s`, or finite of sign `s` with `mb * 2^eb ≤ m * 2^e`. -/
def Float32.AtLeast (s mb eb : Nat) (a : Float32) : Prop :=
  a = Float32.inf s ∨ (a.sign = s ∧ a.e ≤ 253 ∧ mb * 2 ^ eb ≤ a.m * 2 ^ a.e)

/-! The bounds of the eight parameters, the `float` constants of
`struct StrangeAttractors`. -/

namespace StrangeAttractors32

/-- The constant `3.0f`. -/
def LORENZ_SIGMA_PARAM_MIN : Float32 := Float32.ofNat 3
/-- The constant `30.0f`. -/
def LORENZ_SIGMA_PARAM_MAX : Float32 := Float32.ofNat 30
/-- The constant `0.5f`, which is `2^(-1)`. -/
def LORENZ_BETA_PARAM_MIN : Float32 := ⟨0, 8388608, 125⟩
/-- The constant `3.0f`. -/
def LORENZ_BETA_PARAM_MAX : Float32 := Float32.ofNat 3
/-- The constant `13.0f`. -/
def LORENZ_RHO_PARAM_MIN : Float32 := Float32.ofNat 13
/-- The constant `80.0f`. -/
def LORENZ_RHO_PARAM_MAX : Float32 := Float32.ofNat 80
/-- The constant `0.001f`: the nearest single-precision value to `1/1000`, which
is `8589935 * 2^(-33)`. -/
def LORENZ_PITCH_PARAM_MIN : Float32 := ⟨0, 8589935, 116⟩
/-- The constant `1.0f`. -/
def LORENZ_PITCH_PARAM_MAX : Float32 := Float32.ofNat 1

/-- The constant `0.0f`. -/
def ROSSLER_A_PARAM_MIN : Float32 := Float32.ofNat 0
/-- The constant `0.2f`: the nearest single-precision value to `1/5`, which is
`13421773 * 2^(-26)`. -/
def ROSSLER_A_PARAM_MAX : Float32 := ⟨0, 13421773, 123⟩
/-- The constant `0.1f`: the nearest single-precision value to `1/10`, which is
`13421773 * 2^(-27)`. -/
def ROSSLER_B_PARAM_MIN : Float32 := ⟨0, 13421773, 122⟩
/-- The constant `1.0f`. -/
def ROSSLER_B_PARAM_MAX : Float32 := Float32.ofNat 1
/-- The constant `3.0f`. -/
def ROSSLER_C_PARAM_MIN : Float32 := Float32.ofNat 3
/-- The constant `12.0f`. -/
def ROSSLER_C_PARAM_MAX : Float32 := Float32.ofNat 12
/-- The constant `0.001f`. -/
def ROSSLER_PITCH_PARAM_MIN : Float32 := ⟨0, 8589935, 116⟩
/-- The constant `1.0f`. -/
def ROSSLER_PITCH_PARAM_MAX : Float32 := Float32.ofNat 1

end StrangeAttractors32

/-- A finite single-precision value between the bounds `lo` and `hi`, both
included: a value the controller's `clamp(_, lo, hi)` can store. -/
def Float32.InRange (a lo hi : Float32) : Prop :=
  a.isFinite = true ∧ a.Valid ∧ lo.toRat ≤ a.toRat ∧ a.toRat ≤ hi.toRat

/-- The four parameters are single-precision values inside the valid ranges. -/
def LorenzAttractor32.ParamsInRange (s : LorenzAttractor32) : Prop :=
  s.sigma.InRange StrangeAttractors32.LORENZ_SIGMA_PARAM_MIN
    StrangeAttractors32.LORENZ_SIGMA_PARAM_MAX ∧
  s.beta.InRange StrangeAttractors32.LORENZ_BETA_PARAM_MIN
    StrangeAttractors32.LORENZ_BETA_PARAM_MAX ∧
  s.rho.InRange StrangeAttractors32.LORENZ_RHO_PARAM_MIN
    StrangeAttractors32.LORENZ_RHO_PARAM_MAX ∧
  s.pitch.InRange StrangeAttractors32.LORENZ_PITCH_PARAM_MIN
    StrangeAttractors32.LORENZ_PITCH_PARAM_MAX

/-- The four parameters are single-precision values inside the valid ranges. -/
def RosslerAttractor32.ParamsInRange (s : RosslerAttractor32) : Prop :=
  s.a.InRange StrangeAttractors32.ROSSLER_A_PARAM_MIN
    StrangeAttractors32.ROSSLER_A_PARAM_MAX ∧
  s.b.InRange StrangeAttractors32.ROSSLER_B_PARAM_MIN
    StrangeAttractors32.ROSSLER_B_PARAM_MAX ∧
  s.c.InRange StrangeAttractors32.ROSSLER_C_PARAM_MIN
    StrangeAttractors32.ROSSLER_C_PARAM_MAX ∧
  s.pitch.InRange StrangeAttractors32.ROSSLER_PITCH_PARAM_MIN
    StrangeAttractors32.ROSSLER_PITCH_PARAM_MAX

/-- The local `dx` of `LorenzAttractor::process`. -/
def LorenzAttractor32.dx (s : LorenzAttractor32) : Float32 :=
  Float32.mul s.sigma (Float32.sub s.y s.x)

/-- The local `dy` of `LorenzAttractor::process`. -/
def LorenzAttractor32.dy (s : LorenzAttractor32) : Float32 :=
  Float32.sub (Float32.mul s.x (Float32.sub s.rho s.z)) s.y

/-- The local `dz` of `LorenzAttractor::process`. -/
def LorenzAttractor32.dz (s : LorenzAttractor32) : Float32 :=
  Float32.sub (Float32.mul s.x s.y) (Float32.mul s.beta s.z)

/-- The local `dx` of `RosslerAttractor::process`. -/
def RosslerAttractor32.dx (s : RosslerAttractor32) : Float32 :=
  Float32.sub (Float32.neg s.y) s.z

/-- The local `dy` of `RosslerAttractor::process`. -/
def RosslerAttractor32.dy (s : RosslerAttractor32) : Float32 :=
  Float32.add s.x (Float32.mul s.a s.y)

/-- The local `dz` of `RosslerAttractor::process`. -/
def RosslerAttractor32.dz (s : RosslerAttractor32) : Float32 :=
  Float32.add s.b (Float32.mul s.z (Float32.sub s.x s.c))

/-- A Lorenz attractor with default parameters at the finite state
`x = y = 2^70`, `z = 1`. -/
def farLorenz : LorenzAttractor32 :=
  { LorenzAttractor32.ctor with x := ⟨0, 8388608, 196⟩, y := ⟨0, 8388608, 196⟩ }

/-- A Rössler attractor with default parameters at the finite state
`x = z = 2^70`, `y = 1`. -/
def farRossler : RosslerAttractor32 :=
  { RosslerAttractor32.ctor with x := ⟨0, 8388608, 196⟩, z := ⟨0, 8388608, 196⟩ }

/-- The time step `2^(-40)`, a positive single-precision value. -/
def dtTiny : Float32 := ⟨0, 8388608, 86⟩

/-- A time step between `1/192000` and `1/44100`. -/
def Float32.StepInRange (dt : Float32) : Prop :=
  dt.isFinite = true ∧ dt.Valid ∧ 1 / 192000 ≤ dt.toRat ∧ dt.toRat ≤ 1 / 44100

/-- The time step `2^(-26)`. -/
def dtMin : Float32 := ⟨0, 8388608, 100⟩

/-- The time step `2^(-27)`. -/
def dtSmall : Float32 := ⟨0, 8388608, 99⟩

/-- A Lorenz attractor at the seed with `rho = 13.0f` and `pitch = 0.001f`, the
lower ends of their ranges, and the default `sigma` and `beta`. -/
def coldLorenz : LorenzAttractor32 :=
  { LorenzAttractor32.ctor with
    rho := StrangeAttractors32.LORENZ_RHO_PARAM_MIN,
    pitch := StrangeAttractors32.LORENZ_PITCH_PARAM_MIN }

/-- A module with every output connected, every knob above its range and every
modulation voltage strongly negative, so that every sum falls below its range. -/
def sampleModule : StrangeAttractors :=
  { params := fun _ => 100
    inputs := fun _ => -5000
    outputs := fun _ => { connected := true, voltage := 0 }
    lorenz := LorenzAttractor.ctor
    rossler := RosslerAttractor.ctor }

/-- A module with no output connected. -/
def unpluggedModule : StrangeAttractors :=
  { params := fun _ => 1
    inputs := fun _ => 0
    outputs := fun _ => { connected := false, voltage := 0 }
    lorenz := LorenzAttractor.ctor
    rossler := RosslerAttractor.ctor }

/-- Tick arguments at 44.1 kHz. -/
def sampleArgs : ProcessArgs := { sampleRate := 44100 }

/-- A frame with no output connected. -/
def idleFrame : HostFrame :=
  { params := fun _ => 7
    inputs := fun _ => 2
    connected := fun _ => false
    args := { sampleRate := 48000 } }

/-- A frame with every output connected. -/
def activeFrame : HostFrame :=
  { params := fun _ => 1
    inputs := fun _ => 0
    connected := fun _ => true
    args := { sampleRate := 44100 } }

/-- The knob positions installed by the module constructor: the last argument
of each `configParam` call. -/
def defaultKnobs : ParamIds → ℚ
  | .LORENZ_SIGMA_PARAM => LorenzAttractor.DEFAULT_SIGNMA_VALUE
  | .LORENZ_BETA_PARAM => LorenzAttractor.DEFAULT_BETA_VALUE
  | .LORENZ_RHO_PARAM => LorenzAttractor.DEFAULT_RHO_VALUE
  | .LORENZ_PITCH_PARAM => LorenzAttractor.DEFAULT_PITCH_VALUE
  | .ROSSLER_A_PARAM => RosslerAttractor.DEFAULT_A_VALUE
  | .ROSSLER_B_PARAM => RosslerAttractor.DEFAULT_B_VALUE
  | .ROSSLER_C_PARAM => RosslerAttractor.DEFAULT_C_VALUE
  | .ROSSLER_PITCH_PARAM => RosslerAttractor.DEFAULT_PITCH_VALUE

/-- A freshly constructed module with every output connected and no modulation
input connected. -/
def freshModule : StrangeAttractors :=
  { params := defaultKnobs
    inputs := fun _ => 0
    outputs := fun _ => { connected := true, voltage := 0 }
    lorenz := LorenzAttractor.ctor
    rossler := RosslerAttractor.ctor }

/-- The module `freshModule` with everything on the Rössler side changed: the
record, the knobs, the modulation voltages and the connections. -/
def freshModuleOtherRossler : StrangeAttractors :=
  { params := fun p =>
      match p with
      | .ROSSLER_A_PARAM => 0
      | .ROSSLER_B_PARAM => 1
      | .ROSSLER_C_PARAM => 12
      | .ROSSLER_PITCH_PARAM => 1
      | q => defaultKnobs q
    inputs := fun i =>
      match i with
      | .ROSSLER_A_INPUT => 3
      | .ROSSLER_B_INPUT => -3
      | .ROSSLER_C_INPUT => 5
      | .ROSSLER_PITCH_INPUT => -5
      | _ => 0
    outputs := fun o =>
      match o with
      | .ROSSLER_X_OUTPUT => { connected := false, voltage := 2 }
      | .ROSSLER_Y_OUTPUT => { connected := false, voltage := -2 }
      | _ => { connected := true, voltage := 0 }
    lorenz := LorenzAttractor.ctor
    rossler := { a := 0, b := 1, c := 12, pitch := 1, x := 4, y := -5, z := 6 } }

/-- The module `freshModule` with everything on the Lorenz side changed. -/
def freshModuleOtherLorenz : StrangeAttractors :=
  { params := fun p =>
      match p with
      | .LORENZ_SIGMA_PARAM => 3
      | .LORENZ_BETA_PARAM => 3
      | .LORENZ_RHO_PARAM => 80
      | .LORENZ_PITCH_PARAM => 1
      | q => defaultKnobs q
    inputs := fun i =>
      match i with
      | .LORENZ_SIGMA_INPUT => 3
      | .LORENZ_BETA_INPUT => -3
      | .LORENZ_RHO_INPUT => 5
      | .LORENZ_PITCH_INPUT => -5
      | _ => 0
    outputs := fun o =>
      match o with
      | .LORENZ_X_OUTPUT => { connected := false, voltage := 2 }
      | .LORENZ_Y_OUTPUT => { connected := false, voltage := -2 }
      | _ => { connected := true, voltage := 0 }
    lorenz := { sigma := 3, beta := 3, rho := 80, pitch := 1, x := 4, y := -5, z := 6 }
    rossler := RosslerAttractor.ctor }

/-- The module `sampleModule` with other voltages on its output ports and only
one port of each attractor connected. -/
def sampleModuleOtherPorts : StrangeAttractors :=
  { sampleModule with
    outputs := fun o =>
      match o with
      | .LORENZ_X_OUTPUT => { connected := true, voltage := 7 }
      | .LORENZ_Y_OUTPUT => { connected := false, voltage := -7 }
      | .ROSSLER_X_OUTPUT => { connected := false, voltage := 9 }
      | .ROSSLER_Y_OUTPUT => { connected := true, voltage := -9 } }

/-- A Lorenz record at a non-trivial equilibrium: `x = y = 2`, `z = rho - 1 = 4`
and `x * x = beta * (rho - 1)`. -/
def lorenzAtEquilibrium : LorenzAttractor :=
  { sigma := 10, beta := 1, rho := 5, pitch := 0.5, x := 2, y := 2, z := 4 }

/-- The freshly constructed Rössler record moved to the origin. -/
def rosslerAtOrigin : RosslerAttractor :=
  { RosslerAttractor.ctor with x := 0, y := 0, z := 0 }

/-! ## Theorems -/

/-- Claim C1. `LorenzAttractor::process` is one forward-Euler step whose three
derivatives are all evaluated on the pre-state. -/
theorem lorenz_process_forward_euler (s : LorenzAttractor) (dt : ℚ) :
    (s.process dt).x = s.x + s.sigma * (s.y - s.x) * dt * s.pitch * 375 ∧
    (s.process dt).y = s.y + (s.x * (s.rho - s.z) - s.y) * dt * s.pitch * 375 ∧
    (s.process dt).z = s.z + (s.x * s.y - s.beta * s.z) * dt * s.pitch * 375 := by
  refine ⟨?_, ?_, ?_⟩ <;> simp [LorenzAttractor.process] <;> norm_num

/-- Claim C2. `RosslerAttractor::process` is one forward-Euler step whose three
derivatives are all evaluated on the pre-state. -/
theorem rossler_process_forward_euler (s : RosslerAttractor) (dt : ℚ) :
    (s.process dt).x = s.x + (-s.y - s.z) * dt * s.pitch * 2910 ∧
    (s.process dt).y = s.y + (s.x + s.a * s.y) * dt * s.pitch * 2910 ∧
    (s.process dt).z = s.z + (s.b + s.z * (s.x - s.c)) * dt * s.pitch * 2910 := by
  refine ⟨?_, ?_, ?_⟩ <;> simp [RosslerAttractor.process] <;> norm_num

/-! ### Evaluation lemmas -/

theorem lorenz_ctor_process_44100 :
    LorenzAttractor.ctor.process (1 / 44100) =
      { sigma := 10, beta := 8 / 3, rho := 28, pitch := 1 / 2,
        x := 1, y := 1 + 65 / 588, z := 1 - 25 / 3528 } := by
  norm_num [LorenzAttractor.process, LorenzAttractor.ctor,
    LorenzAttractor.DEFAULT_SIGNMA_VALUE, LorenzAttractor.DEFAULT_BETA_VALUE,
    LorenzAttractor.DEFAULT_RHO_VALUE, LorenzAttractor.DEFAULT_PITCH_VALUE]

theorem rossler_ctor_process_44100 :
    RosslerAttractor.ctor.process (1 / 44100) =
      { a := 1 / 5, b := 1 / 5, c := 57 / 10, pitch := 1 / 2,
        x := 1 - 97 / 1470, y := 1 + 97 / 2450, z := 1 - 291 / 1960 } := by
  norm_num [RosslerAttractor.process, RosslerAttractor.ctor,
    RosslerAttractor.DEFAULT_A_VALUE, RosslerAttractor.DEFAULT_B_VALUE,
    RosslerAttractor.DEFAULT_C_VALUE, RosslerAttractor.DEFAULT_PITCH_VALUE]

/-- Rounding to four decimals yields `k / 10000` exactly when the argument lies
in the half-open interval of width `1 / 10000` centred at `k / 10000`. -/
theorem roundTo4_eq_iff (q : ℚ) (k : ℤ) :
    roundTo4 q = (k : ℚ) / 10000 ↔ ((k : ℚ) - 1 / 2 ≤ q * 10000 ∧ q * 10000 < (k : ℚ) + 1 / 2) := by
  unfold roundTo4
  have h10 : (10000 : ℚ) ≠ 0 := by norm_num
  rw [div_left_inj' h10, Int.cast_inj, Int.floor_eq_iff]
  constructor
  · rintro ⟨h1, h2⟩
    exact ⟨by linarith, by linarith⟩
  · rintro ⟨h1, h2⟩
    exact ⟨by linarith, by linarith⟩

/-! ### Claims C3 and C4: the worked example of the specification -/

/-- Claim C3, as stated, fails.  From the freshly constructed Lorenz attractor
one step with `dt = 1/44100` does not give `x = 1`, `y` rounded to four decimals
`1.1106` (increment `0.1106`) and `z` rounded to four decimals `0.9929`: the
value of `y` is `1 + 65/588 = 1.110544…`, which rounds to `1.1105`. -/
theorem lorenz_default_step_refutes_1_1106 :
    ¬ ((LorenzAttractor.ctor.process (1 / 44100)).x = 1.0 ∧
       roundTo4 (LorenzAttractor.ctor.process (1 / 44100)).y = 1.1106 ∧
       roundTo4 ((LorenzAttractor.ctor.process (1 / 44100)).y - LorenzAttractor.ctor.y) = 0.1106 ∧
       roundTo4 (LorenzAttractor.ctor.process (1 / 44100)).z = 0.9929) := by
  rintro ⟨-, hy, -, -⟩
  rw [lorenz_ctor_process_44100] at hy
  have h : roundTo4 (1 + 65 / 588) = ((11106 : ℤ) : ℚ) / 10000 := by
    rw [hy]; norm_num
  have h2 := ((roundTo4_eq_iff _ _).1 h).1
  norm_num at h2

/-- Claim C3, amended.  From the freshly constructed Lorenz attractor one step
with `dt = 1/44100` leaves `x` exactly `1.0`, gives `y` equal to `1.1105` when
rounded to four decimals (increment `0.1105`), and gives `z` equal to `0.9929`
when rounded to four decimals. -/
theorem lorenz_default_step_rounded :
    (LorenzAttractor.ctor.process (1 / 44100)).x = 1.0 ∧
    roundTo4 (LorenzAttractor.ctor.process (1 / 44100)).y = 1.1105 ∧
    roundTo4 ((LorenzAttractor.ctor.process (1 / 44100)).y - LorenzAttractor.ctor.y) = 0.1105 ∧
    roundTo4 (LorenzAttractor.ctor.process (1 / 44100)).z = 0.9929 := by
  rw [lorenz_ctor_process_44100]
  refine ⟨by norm_num, ?_, ?_, ?_⟩
  · rw [(roundTo4_eq_iff (1 + 65 / 588) 11105).2 (by norm_num)]; norm_num
  · have h : (1 + 65 / 588 : ℚ) - LorenzAttractor.ctor.y = 65 / 588 := by
      norm_num [LorenzAttractor.ctor]
    simp only [h]
    rw [(roundTo4_eq_iff (65 / 588) 1105).2 (by norm_num)]; norm_num
  · rw [(roundTo4_eq_iff (1 - 25 / 3528) 9929).2 (by norm_num)]; norm_num

/-- Claim C4, as stated, fails.  From the freshly constructed Rössler attractor
one step with `dt = 1/44100` does not give `x`, `y`, `z` equal to `0.9340`,
`1.0396`, `0.8516` when rounded to four decimals: the value of `z` is
`1 - 291/1960 = 0.851530…`, which rounds to `0.8515`. -/
theorem rossler_default_step_refutes_0_8516 :
    ¬ (roundTo4 (RosslerAttractor.ctor.process (1 / 44100)).x = 0.9340 ∧
       roundTo4 (RosslerAttractor.ctor.process (1 / 44100)).y = 1.0396 ∧
       roundTo4 (RosslerAttractor.ctor.process (1 / 44100)).z = 0.8516) := by
  rintro ⟨-, -, hz⟩
  rw [rossler_ctor_process_44100] at hz
  have h : roundTo4 (1 - 291 / 1960) = ((8516 : ℤ) : ℚ) / 10000 := by
    rw [hz]; norm_num
  have h2 := ((roundTo4_eq_iff _ _).1 h).1
  norm_num at h2

/-- Claim C4, amended.  From the freshly constructed Rössler attractor one step
with `dt = 1/44100` gives `x` equal to `0.9340`, `y` equal to `1.0396` and `z`
equal to `0.8515`, each when rounded to four decimals. -/
theorem rossler_default_step_rounded :
    roundTo4 (RosslerAttractor.ctor.process (1 / 44100)).x = 0.9340 ∧
    roundTo4 (RosslerAttractor.ctor.process (1 / 44100)).y = 1.0396 ∧
    roundTo4 (RosslerAttractor.ctor.process (1 / 44100)).z = 0.8515 := by
  rw [rossler_ctor_process_44100]
  refine ⟨?_, ?_, ?_⟩
  · rw [(roundTo4_eq_iff (1 - 97 / 1470) 9340).2 (by norm_num)]; norm_num
  · rw [(roundTo4_eq_iff (1 + 97 / 2450) 10396).2 (by norm_num)]; norm_num
  · rw [(roundTo4_eq_iff (1 - 291 / 1960) 8515).2 (by norm_num)]; norm_num

/-! ### Claims C5, C9, C10: the integrators in isolation -/

/-- In exact arithmetic `process 0` leaves `x`, `y` and `z` unchanged, for every
state and every parameter setting, for both attractors.  In single precision
this needs finite derivatives; that statement is proved further down. -/
theorem process_zero_dt_state_unchanged_exact (l : LorenzAttractor) (r : RosslerAttractor) :
    ((l.process 0).x = l.x ∧ (l.process 0).y = l.y ∧ (l.process 0).z = l.z) ∧
    ((r.process 0).x = r.x ∧ (r.process 0).y = r.y ∧ (r.process 0).z = r.z) := by
  simp [LorenzAttractor.process, RosslerAttractor.process]

/-- Claim C9. For both attractors `process dt` modifies only `x`, `y`, `z`:
the four parameter fields after the call equal their values before it. -/
theorem process_parameters_unchanged (l : LorenzAttractor) (r : RosslerAttractor) (dt : ℚ) :
    ((l.process dt).sigma = l.sigma ∧ (l.process dt).beta = l.beta ∧
      (l.process dt).rho = l.rho ∧ (l.process dt).pitch = l.pitch) ∧
    ((r.process dt).a = r.a ∧ (r.process dt).b = r.b ∧
      (r.process dt).c = r.c ∧ (r.process dt).pitch = r.pitch) :=
  ⟨⟨rfl, rfl, rfl, rfl⟩, ⟨rfl, rfl, rfl, rfl⟩⟩

/-- Claim C10. The freshly constructed Lorenz attractor has `sigma = 10`,
`beta = 8/3`, `rho = 28`, `pitch = 0.5` and `x = y = z = 1`; the freshly
constructed Rössler attractor has `a = 0.2`, `b = 0.2`, `c = 5.7`,
`pitch = 0.5` and `x = y = z = 1`. -/
theorem constructors_defaults :
    LorenzAttractor.ctor =
      { sigma := 10, beta := 8 / 3, rho := 28, pitch := 0.5, x := 1, y := 1, z := 1 } ∧
    RosslerAttractor.ctor =
      { a := 0.2, b := 0.2, c := 5.7, pitch := 0.5, x := 1, y := 1, z := 1 } := by
  constructor
  · norm_num [LorenzAttractor.ctor, LorenzAttractor.DEFAULT_SIGNMA_VALUE,
      LorenzAttractor.DEFAULT_BETA_VALUE, LorenzAttractor.DEFAULT_RHO_VALUE,
      LorenzAttractor.DEFAULT_PITCH_VALUE]
  · norm_num [RosslerAttractor.ctor, RosslerAttractor.DEFAULT_A_VALUE,
      RosslerAttractor.DEFAULT_B_VALUE, RosslerAttractor.DEFAULT_C_VALUE,
      RosslerAttractor.DEFAULT_PITCH_VALUE]

/-! ### The controller tick, unfolded -/

theorem clamp_mem (x : ℚ) {a b : ℚ} (h : a ≤ b) : a ≤ clamp x a b ∧ clamp x a b ≤ b :=
  ⟨le_max_right _ _, max_le (min_le_right _ _) h⟩

theorem setVoltage_connected (outs : OutputIds → Output) (i j : OutputIds) (v : ℚ) :
    (setVoltage outs i v j).connected = (outs j).connected := by
  unfold setVoltage
  split <;> rfl

theorem setVoltage_same (outs : OutputIds → Output) (i : OutputIds) (v : ℚ) :
    (setVoltage outs i v i).voltage = v := by
  simp [setVoltage]

theorem setVoltage_other (outs : OutputIds → Output) {i j : OutputIds} (v : ℚ) (h : j ≠ i) :
    setVoltage outs i v j = outs j := by
  simp [setVoltage, h]

namespace StrangeAttractors

theorem lorenzBranch_lorenz (m : StrangeAttractors) (args : ProcessArgs) :
    (m.lorenzBranch args).lorenz = m.lorenzWriteParams.lorenz.process (1 / args.sampleRate) := by
  have h : (1.0 : ℚ) = 1 := by norm_num
  simp only [lorenzBranch, h]

theorem lorenzBranch_rossler (m : StrangeAttractors) (args : ProcessArgs) :
    (m.lorenzBranch args).rossler = m.rossler := rfl

theorem rosslerBranch_rossler (m : StrangeAttractors) (args : ProcessArgs) :
    (m.rosslerBranch args).rossler = m.rosslerWriteParams.rossler.process (1 / args.sampleRate) := by
  have h : (1.0 : ℚ) = 1 := by norm_num
  simp only [rosslerBranch, h]

theorem rosslerBranch_lorenz (m : StrangeAttractors) (args : ProcessArgs) :
    (m.rosslerBranch args).lorenz = m.lorenz := rfl

theorem lorenzBranch_rosslerActive (m : StrangeAttractors) (args : ProcessArgs) :
    (m.lorenzBranch args).rosslerActive = m.rosslerActive := by
  simp only [lorenzBranch, rosslerActive, setVoltage_connected]
  rfl

theorem lorenzBranch_rosslerWriteParams (m : StrangeAttractors) (args : ProcessArgs) :
    (m.lorenzBranch args).rosslerWriteParams.rossler = m.rosslerWriteParams.rossler := rfl

/-- The Lorenz attractor after a tick: advanced once from the record with the
freshly written parameters when the Lorenz branch is taken, untouched otherwise. -/
theorem process_lorenz (m : StrangeAttractors) (args : ProcessArgs) :
    (m.process args).lorenz =
      if m.lorenzActive then m.lorenzWriteParams.lorenz.process (1 / args.sampleRate)
      else m.lorenz := by
  unfold process
  by_cases hl : m.lorenzActive = true
  · by_cases hr : (m.lorenzBranch args).rosslerActive = true
    · simp [hl, hr, rosslerBranch_lorenz, lorenzBranch_lorenz]
    · simp [hl, hr, lorenzBranch_lorenz]
  · by_cases hr : m.rosslerActive = true
    · simp [hl, hr, rosslerBranch_lorenz]
    · simp [hl, hr]

/-- The Rössler attractor after a tick: advanced once from the record with the
freshly written parameters when the Rössler branch is taken, untouched otherwise. -/
theorem process_rossler (m : StrangeAttractors) (args : ProcessArgs) :
    (m.process args).rossler =
      if m.rosslerActive then m.rosslerWriteParams.rossler.process (1 / args.sampleRate)
      else m.rossler := by
  unfold process
  by_cases hl : m.lorenzActive = true
  · by_cases hr : m.rosslerActive = true
    · simp [hl, hr, lorenzBranch_rosslerActive, rosslerBranch_rossler,
        lorenzBranch_rosslerWriteParams]
    · simp [hl, hr, lorenzBranch_rosslerActive, lorenzBranch_rossler]
  · by_cases hr : m.rosslerActive = true
    · simp [hl, hr, rosslerBranch_rossler]
    · simp [hl, hr]

theorem lorenzWriteParams_inRange (m : StrangeAttractors) :
    m.lorenzWriteParams.lorenz.ParamsInRange := by
  simp only [lorenzWriteParams, LorenzAttractor.ParamsInRange]
  have h1 := clamp_mem (m.params .LORENZ_SIGMA_PARAM + m.inputs .LORENZ_SIGMA_INPUT * 0.1)
    (show LORENZ_SIGMA_PARAM_MIN ≤ LORENZ_SIGMA_PARAM_MAX by
      norm_num [LORENZ_SIGMA_PARAM_MIN, LORENZ_SIGMA_PARAM_MAX])
  have h2 := clamp_mem (m.params .LORENZ_BETA_PARAM + m.inputs .LORENZ_BETA_INPUT * 0.1)
    (show LORENZ_BETA_PARAM_MIN ≤ LORENZ_BETA_PARAM_MAX by
      norm_num [LORENZ_BETA_PARAM_MIN, LORENZ_BETA_PARAM_MAX])
  have h3 := clamp_mem (m.params .LORENZ_RHO_PARAM + m.inputs .LORENZ_RHO_INPUT * 0.1)
    (show LORENZ_RHO_PARAM_MIN ≤ LORENZ_RHO_PARAM_MAX by
      norm_num [LORENZ_RHO_PARAM_MIN, LORENZ_RHO_PARAM_MAX])
  have h4 := clamp_mem (m.params .LORENZ_PITCH_PARAM + m.inputs .LORENZ_PITCH_INPUT * 0.1)
    (show LORENZ_PITCH_PARAM_MIN ≤ LORENZ_PITCH_PARAM_MAX by
      norm_num [LORENZ_PITCH_PARAM_MIN, LORENZ_PITCH_PARAM_MAX])
  simp only [LORENZ_SIGMA_PARAM_MIN, LORENZ_SIGMA_PARAM_MAX, LORENZ_BETA_PARAM_MIN,
    LORENZ_BETA_PARAM_MAX, LORENZ_RHO_PARAM_MIN, LORENZ_RHO_PARAM_MAX, LORENZ_PITCH_PARAM_MIN,
    LORENZ_PITCH_PARAM_MAX] at h1 h2 h3 h4 ⊢
  norm_num at h1 h2 h3 h4 ⊢
  exact ⟨h1, h2, h3, h4⟩

theorem rosslerWriteParams_inRange (m : StrangeAttractors) :
    m.rosslerWriteParams.rossler.ParamsInRange := by
  simp only [rosslerWriteParams, RosslerAttractor.ParamsInRange]
  have h1 := clamp_mem (m.params .ROSSLER_A_PARAM + m.inputs .ROSSLER_A_INPUT * 0.1)
    (show ROSSLER_A_PARAM_MIN ≤ ROSSLER_A_PARAM_MAX by
      norm_num [ROSSLER_A_PARAM_MIN, ROSSLER_A_PARAM_MAX])
  have h2 := clamp_mem (m.params .ROSSLER_B_PARAM + m.inputs .ROSSLER_B_INPUT * 0.1)
    (show ROSSLER_B_PARAM_MIN ≤ ROSSLER_B_PARAM_MAX by
      norm_num [ROSSLER_B_PARAM_MIN, ROSSLER_B_PARAM_MAX])
  have h3 := clamp_mem (m.params .ROSSLER_C_PARAM + m.inputs .ROSSLER_C_INPUT * 0.1)
    (show ROSSLER_C_PARAM_MIN ≤ ROSSLER_C_PARAM_MAX by
      norm_num [ROSSLER_C_PARAM_MIN, ROSSLER_C_PARAM_MAX])
  have h4 := clamp_mem (m.params .ROSSLER_PITCH_PARAM + m.inputs .ROSSLER_PITCH_INPUT * 0.1)
    (show ROSSLER_PITCH_PARAM_MIN ≤ ROSSLER_PITCH_PARAM_MAX by
      norm_num [ROSSLER_PITCH_PARAM_MIN, ROSSLER_PITCH_PARAM_MAX])
  simp only [ROSSLER_A_PARAM_MIN, ROSSLER_A_PARAM_MAX, ROSSLER_B_PARAM_MIN,
    ROSSLER_B_PARAM_MAX, ROSSLER_C_PARAM_MIN, ROSSLER_C_PARAM_MAX, ROSSLER_PITCH_PARAM_MIN,
    ROSSLER_PITCH_PARAM_MAX] at h1 h2 h3 h4 ⊢
  norm_num at h1 h2 h3 h4 ⊢
  exact ⟨h1, h2, h3, h4⟩

theorem lorenzBranch_outputs (m : StrangeAttractors) (args : ProcessArgs) :
    ((m.lorenzBranch args).outputs .LORENZ_X_OUTPUT).voltage
      = 5 * 0.044 * (m.lorenzBranch args).lorenz.x ∧
    ((m.lorenzBranch args).outputs .LORENZ_Y_OUTPUT).voltage
      = 5 * 0.0328 * (m.lorenzBranch args).lorenz.y := by
  have h5 : (5.0 : ℚ) = 5 := by norm_num
  simp [lorenzBranch, setVoltage, h5]

theorem rosslerBranch_outputs (m : StrangeAttractors) (args : ProcessArgs) :
    ((m.rosslerBranch args).outputs .ROSSLER_X_OUTPUT).voltage
      = 5 * 0.054 * (m.rosslerBranch args).rossler.x ∧
    ((m.rosslerBranch args).outputs .ROSSLER_Y_OUTPUT).voltage
      = 5 * 0.0569 * (m.rosslerBranch args).rossler.y := by
  have h5 : (5.0 : ℚ) = 5 := by norm_num
  simp [rosslerBranch, setVoltage, h5]

theorem rosslerBranch_outputs_lorenz (m : StrangeAttractors) (args : ProcessArgs) :
    (m.rosslerBranch args).outputs .LORENZ_X_OUTPUT = m.outputs .LORENZ_X_OUTPUT ∧
    (m.rosslerBranch args).outputs .LORENZ_Y_OUTPUT = m.outputs .LORENZ_Y_OUTPUT := by
  simp [rosslerBranch, rosslerWriteParams, setVoltage]

theorem process_lorenz_outputs (m : StrangeAttractors) (args : ProcessArgs)
    (h : m.lorenzActive = true) :
    ((m.process args).outputs .LORENZ_X_OUTPUT).voltage = 5 * 0.044 * (m.process args).lorenz.x ∧
    ((m.process args).outputs .LORENZ_Y_OUTPUT).voltage
      = 5 * 0.0328 * (m.process args).lorenz.y := by
  unfold process
  by_cases hr : (m.lorenzBranch args).rosslerActive = true
  · simp only [h, hr, if_true, rosslerBranch_lorenz, (rosslerBranch_outputs_lorenz _ _).1,
      (rosslerBranch_outputs_lorenz _ _).2]
    exact lorenzBranch_outputs m args
  · simp only [h, hr, if_true, if_false]
    exact lorenzBranch_outputs m args

theorem process_rossler_outputs (m : StrangeAttractors) (args : ProcessArgs)
    (h : m.rosslerActive = true) :
    ((m.process args).outputs .ROSSLER_X_OUTPUT).voltage = 5 * 0.054 * (m.process args).rossler.x ∧
    ((m.process args).outputs .ROSSLER_Y_OUTPUT).voltage
      = 5 * 0.0569 * (m.process args).rossler.y := by
  unfold process
  by_cases hl : m.lorenzActive = true
  · have hr : (m.lorenzBranch args).rosslerActive = true := by
      rw [lorenzBranch_rosslerActive]; exact h
    simp only [hl, hr, if_true]
    exact rosslerBranch_outputs _ args
  · have hl2 : m.lorenzActive = false := by simpa using hl
    simp only [hl2, h, if_true, Bool.false_eq_true, if_false]
    exact rosslerBranch_outputs _ args

/-! ### Runs of host ticks -/

theorem hostTick_lorenz_idle (m : StrangeAttractors) (f : HostFrame)
    (h : f.lorenzIdle = true) : (m.hostTick f).lorenz = m.lorenz := by
  unfold hostTick
  rw [process_lorenz]
  have : ¬ (lorenzActive
      { m with
        params := f.params
        inputs := f.inputs
        outputs := fun i => { m.outputs i with connected := f.connected i } } = true) := by
    simpa [lorenzActive, HostFrame.lorenzIdle] using h
  rw [if_neg this]

theorem hostTick_rossler_idle (m : StrangeAttractors) (f : HostFrame)
    (h : f.rosslerIdle = true) : (m.hostTick f).rossler = m.rossler := by
  unfold hostTick
  rw [process_rossler]
  have : ¬ (rosslerActive
      { m with
        params := f.params
        inputs := f.inputs
        outputs := fun i => { m.outputs i with connected := f.connected i } } = true) := by
    simpa [rosslerActive, HostFrame.rosslerIdle] using h
  rw [if_neg this]

theorem hostTick_lorenz_congr (m m' : StrangeAttractors) (f : HostFrame)
    (h : m.lorenz = m'.lorenz) : (m.hostTick f).lorenz = (m'.hostTick f).lorenz := by
  unfold hostTick
  rw [process_lorenz, process_lorenz]
  simp [lorenzActive, lorenzWriteParams, h]

theorem hostTick_rossler_congr (m m' : StrangeAttractors) (f : HostFrame)
    (h : m.rossler = m'.rossler) : (m.hostTick f).rossler = (m'.hostTick f).rossler := by
  unfold hostTick
  rw [process_rossler, process_rossler]
  simp [rosslerActive, rosslerWriteParams, h]

theorem run_append_singleton (m : StrangeAttractors) (fs : List HostFrame) (f : HostFrame) :
    m.run (fs ++ [f]) = (m.run fs).hostTick f := by
  induction fs generalizing m with
  | nil => rfl
  | cons g gs ih => simp [run, ih]

theorem run_lorenz_idle (m : StrangeAttractors) (fs : List HostFrame)
    (h : ∀ g ∈ fs, g.lorenzIdle = true) : (m.run fs).lorenz = m.lorenz := by
  induction fs generalizing m with
  | nil => rfl
  | cons g gs ih =>
    have hg := h g (List.mem_cons_self g gs)
    have hgs : ∀ k ∈ gs, k.lorenzIdle = true := fun k hk => h k (List.mem_cons_of_mem g hk)
    simp only [run]
    rw [ih _ hgs, hostTick_lorenz_idle m g hg]

theorem run_rossler_idle (m : StrangeAttractors) (fs : List HostFrame)
    (h : ∀ g ∈ fs, g.rosslerIdle = true) : (m.run fs).rossler = m.rossler := by
  induction fs generalizing m with
  | nil => rfl
  | cons g gs ih =>
    have hg := h g (List.mem_cons_self g gs)
    have hgs : ∀ k ∈ gs, k.rosslerIdle = true := fun k hk => h k (List.mem_cons_of_mem g hk)
    simp only [run]
    rw [ih _ hgs, hostTick_rossler_idle m g hg]

end StrangeAttractors

/-! ### Claims C6, C7, C8: the controller tick -/

/-- Claim C6. On every tick in which an attractor is active, whatever the knob
values and modulation voltages, the attractor record on which `process` is
invoked has its four parameters inside their valid closed intervals, the
attractor after the tick is the result of that invocation, and its parameters
are inside the intervals as well. -/
theorem controller_active_tick_params_in_range (m : StrangeAttractors) (args : ProcessArgs) :
    (m.lorenzActive = true →
      m.lorenzWriteParams.lorenz.ParamsInRange ∧
      (m.process args).lorenz = m.lorenzWriteParams.lorenz.process (1 / args.sampleRate) ∧
      (m.process args).lorenz.ParamsInRange) ∧
    (m.rosslerActive = true →
      m.rosslerWriteParams.rossler.ParamsInRange ∧
      (m.process args).rossler = m.rosslerWriteParams.rossler.process (1 / args.sampleRate) ∧
      (m.process args).rossler.ParamsInRange) := by
  constructor
  · intro h
    have hp := StrangeAttractors.process_lorenz m args
    rw [if_pos h] at hp
    refine ⟨StrangeAttractors.lorenzWriteParams_inRange m, hp, ?_⟩
    rw [hp]
    exact StrangeAttractors.lorenzWriteParams_inRange m
  · intro h
    have hp := StrangeAttractors.process_rossler m args
    rw [if_pos h] at hp
    refine ⟨StrangeAttractors.rosslerWriteParams_inRange m, hp, ?_⟩
    rw [hp]
    exact StrangeAttractors.rosslerWriteParams_inRange m

/-- Witness for claim C6: a tick with all outputs connected, knobs at 100 and
modulation at -5000 V. -/
theorem controller_active_tick_params_in_range_witness :
    sampleModule.lorenzActive = true ∧ sampleModule.rosslerActive = true ∧
    (sampleModule.process sampleArgs).lorenz.ParamsInRange ∧
    (sampleModule.process sampleArgs).rossler.ParamsInRange :=
  ⟨rfl, rfl,
    ((controller_active_tick_params_in_range sampleModule sampleArgs).1 rfl).2.2,
    ((controller_active_tick_params_in_range sampleModule sampleArgs).2 rfl).2.2⟩

/-- Claim C7. A tick in which neither output of an attractor is connected
leaves the whole attractor record unchanged; consequently any number of idle
ticks (the frames of `idle`) followed by one tick `f` leaves the attractor in
exactly the state that the tick `f` alone produces. -/
theorem idle_ticks_freeze_attractor (m : StrangeAttractors) (args : ProcessArgs)
    (idle : List HostFrame) (f : HostFrame) :
    (m.lorenzActive = false → (m.process args).lorenz = m.lorenz) ∧
    (m.rosslerActive = false → (m.process args).rossler = m.rossler) ∧
    ((∀ g ∈ idle, g.lorenzIdle = true) →
      (m.run (idle ++ [f])).lorenz = (m.run [f]).lorenz) ∧
    ((∀ g ∈ idle, g.rosslerIdle = true) →
      (m.run (idle ++ [f])).rossler = (m.run [f]).rossler) := by
  refine ⟨?_, ?_, ?_, ?_⟩
  · intro h
    rw [StrangeAttractors.process_lorenz, h]
    simp
  · intro h
    rw [StrangeAttractors.process_rossler, h]
    simp
  · intro h
    rw [StrangeAttractors.run_append_singleton]
    exact StrangeAttractors.hostTick_lorenz_congr _ _ f (StrangeAttractors.run_lorenz_idle m idle h)
  · intro h
    rw [StrangeAttractors.run_append_singleton]
    exact StrangeAttractors.hostTick_rossler_congr _ _ f
      (StrangeAttractors.run_rossler_idle m idle h)

/-- Witness for claim C7: three idle frames followed by an active one, from a
module with nothing connected. -/
theorem idle_ticks_freeze_attractor_witness :
    unpluggedModule.lorenzActive = false ∧ unpluggedModule.rosslerActive = false ∧
    (∀ g ∈ [idleFrame, idleFrame, idleFrame], g.lorenzIdle = true) ∧
    (∀ g ∈ [idleFrame, idleFrame, idleFrame], g.rosslerIdle = true) ∧
    (unpluggedModule.process sampleArgs).lorenz = unpluggedModule.lorenz ∧
    (unpluggedModule.process sampleArgs).rossler = unpluggedModule.rossler ∧
    (unpluggedModule.run ([idleFrame, idleFrame, idleFrame] ++ [activeFrame])).lorenz
      = (unpluggedModule.run [activeFrame]).lorenz ∧
    (unpluggedModule.run ([idleFrame, idleFrame, idleFrame] ++ [activeFrame])).rossler
      = (unpluggedModule.run [activeFrame]).rossler :=
  have hl : ∀ g ∈ [idleFrame, idleFrame, idleFrame], g.lorenzIdle = true := by decide
  have hr : ∀ g ∈ [idleFrame, idleFrame, idleFrame], g.rosslerIdle = true := by decide
  have t := idle_ticks_freeze_attractor unpluggedModule sampleArgs
    [idleFrame, idleFrame, idleFrame] activeFrame
  ⟨rfl, rfl, hl, hr, t.1 rfl, t.2.1 rfl, t.2.2.1 hl, t.2.2.2 hr⟩

/-- Claim C8. On a tick in which an attractor is active, the attractor is
advanced exactly once, with `dt = 1 / sampleRate`, from the record that holds
the freshly clamped parameters and the previous `x`, `y`, `z`; the two output
voltages are the scaled post-advance `x` and `y`. -/
theorem controller_active_tick_advances_once (m : StrangeAttractors) (args : ProcessArgs) :
    (m.lorenzActive = true →
      (m.process args).lorenz =
        LorenzAttractor.process
          { sigma := clamp (m.params .LORENZ_SIGMA_PARAM + m.inputs .LORENZ_SIGMA_INPUT * 0.1) 3 30
            beta := clamp (m.params .LORENZ_BETA_PARAM + m.inputs .LORENZ_BETA_INPUT * 0.1) 0.5 3
            rho := clamp (m.params .LORENZ_RHO_PARAM + m.inputs .LORENZ_RHO_INPUT * 0.1) 13 80
            pitch :=
              clamp (m.params .LORENZ_PITCH_PARAM + m.inputs .LORENZ_PITCH_INPUT * 0.1) 0.001 1
            x := m.lorenz.x
            y := m.lorenz.y
            z := m.lorenz.z }
          (1 / args.sampleRate) ∧
      ((m.process args).outputs .LORENZ_X_OUTPUT).voltage
        = 5 * 0.044 * (m.process args).lorenz.x ∧
      ((m.process args).outputs .LORENZ_Y_OUTPUT).voltage
        = 5 * 0.0328 * (m.process args).lorenz.y) ∧
    (m.rosslerActive = true →
      (m.process args).rossler =
        RosslerAttractor.process
          { a := clamp (m.params .ROSSLER_A_PARAM + m.inputs .ROSSLER_A_INPUT * 0.1) 0 0.2
            b := clamp (m.params .ROSSLER_B_PARAM + m.inputs .ROSSLER_B_INPUT * 0.1) 0.1 1
            c := clamp (m.params .ROSSLER_C_PARAM + m.inputs .ROSSLER_C_INPUT * 0.1) 3 12
            pitch :=
              clamp (m.params .ROSSLER_PITCH_PARAM + m.inputs .ROSSLER_PITCH_INPUT * 0.1) 0.001 1
            x := m.rossler.x
            y := m.rossler.y
            z := m.rossler.z }
          (1 / args.sampleRate) ∧
      ((m.process args).outputs .ROSSLER_X_OUTPUT).voltage
        = 5 * 0.054 * (m.process args).rossler.x ∧
      ((m.process args).outputs .ROSSLER_Y_OUTPUT).voltage
        = 5 * 0.0569 * (m.process args).rossler.y) := by
  constructor
  · intro h
    refine ⟨?_, StrangeAttractors.process_lorenz_outputs m args h⟩
    rw [StrangeAttractors.process_lorenz, if_pos h]
    congr 1
    norm_num [StrangeAttractors.lorenzWriteParams, StrangeAttractors.LORENZ_SIGMA_PARAM_MIN,
      StrangeAttractors.LORENZ_SIGMA_PARAM_MAX, StrangeAttractors.LORENZ_BETA_PARAM_MIN,
      StrangeAttractors.LORENZ_BETA_PARAM_MAX, StrangeAttractors.LORENZ_RHO_PARAM_MIN,
      StrangeAttractors.LORENZ_RHO_PARAM_MAX, StrangeAttractors.LORENZ_PITCH_PARAM_MIN,
      StrangeAttractors.LORENZ_PITCH_PARAM_MAX]
  · intro h
    refine ⟨?_, StrangeAttractors.process_rossler_outputs m args h⟩
    rw [StrangeAttractors.process_rossler, if_pos h]
    congr 1
    norm_num [StrangeAttractors.rosslerWriteParams, StrangeAttractors.ROSSLER_A_PARAM_MIN,
      StrangeAttractors.ROSSLER_A_PARAM_MAX, StrangeAttractors.ROSSLER_B_PARAM_MIN,
      StrangeAttractors.ROSSLER_B_PARAM_MAX, StrangeAttractors.ROSSLER_C_PARAM_MIN,
      StrangeAttractors.ROSSLER_C_PARAM_MAX, StrangeAttractors.ROSSLER_PITCH_PARAM_MIN,
      StrangeAttractors.ROSSLER_PITCH_PARAM_MAX]

/-- Witness for claim C8: a tick at 44.1 kHz with all outputs connected. -/
theorem controller_active_tick_advances_once_witness :
    sampleModule.lorenzActive = true ∧ sampleModule.rosslerActive = true ∧
    ((sampleModule.process sampleArgs).outputs .LORENZ_X_OUTPUT).voltage
      = 5 * 0.044 * (sampleModule.process sampleArgs).lorenz.x ∧
    ((sampleModule.process sampleArgs).outputs .LORENZ_Y_OUTPUT).voltage
      = 5 * 0.0328 * (sampleModule.process sampleArgs).lorenz.y ∧
    ((sampleModule.process sampleArgs).outputs .ROSSLER_X_OUTPUT).voltage
      = 5 * 0.054 * (sampleModule.process sampleArgs).rossler.x ∧
    ((sampleModule.process sampleArgs).outputs .ROSSLER_Y_OUTPUT).voltage
      = 5 * 0.0569 * (sampleModule.process sampleArgs).rossler.y :=
  ⟨rfl, rfl,
    ((controller_active_tick_advances_once sampleModule sampleArgs).1 rfl).2.1,
    ((controller_active_tick_advances_once sampleModule sampleArgs).1 rfl).2.2,
    ((controller_active_tick_advances_once sampleModule sampleArgs).2 rfl).2.1,
    ((controller_active_tick_advances_once sampleModule sampleArgs).2 rfl).2.2⟩

/-! ### Claims C13, C15, C18, C19: algebra of the Lorenz and Rössler steps -/

/-- Claim C13. Pitch uniformly scales the time derivative: for both attractors
`process dt` with pitch `p` produces the same `x`, `y`, `z` as `process (dt * p)`
with pitch `1`, and each state increment is `p` times the increment at pitch `1`. -/
theorem pitch_scales_time_step (l : LorenzAttractor) (r : RosslerAttractor) (dt p : ℚ) :
    ((({ l with pitch := p }).process dt).x = (({ l with pitch := 1 }).process (dt * p)).x ∧
     (({ l with pitch := p }).process dt).y = (({ l with pitch := 1 }).process (dt * p)).y ∧
     (({ l with pitch := p }).process dt).z = (({ l with pitch := 1 }).process (dt * p)).z) ∧
    ((({ r with pitch := p }).process dt).x = (({ r with pitch := 1 }).process (dt * p)).x ∧
     (({ r with pitch := p }).process dt).y = (({ r with pitch := 1 }).process (dt * p)).y ∧
     (({ r with pitch := p }).process dt).z = (({ r with pitch := 1 }).process (dt * p)).z) ∧
    ((({ l with pitch := p }).process dt).x - l.x
        = p * ((({ l with pitch := 1 }).process dt).x - l.x) ∧
     (({ l with pitch := p }).process dt).y - l.y
        = p * ((({ l with pitch := 1 }).process dt).y - l.y) ∧
     (({ l with pitch := p }).process dt).z - l.z
        = p * ((({ l with pitch := 1 }).process dt).z - l.z)) ∧
    ((({ r with pitch := p }).process dt).x - r.x
        = p * ((({ r with pitch := 1 }).process dt).x - r.x) ∧
     (({ r with pitch := p }).process dt).y - r.y
        = p * ((({ r with pitch := 1 }).process dt).y - r.y) ∧
     (({ r with pitch := p }).process dt).z - r.z
        = p * ((({ r with pitch := 1 }).process dt).z - r.z)) := by
  simp only [LorenzAttractor.process, RosslerAttractor.process]
  refine ⟨⟨?_, ?_, ?_⟩, ⟨?_, ?_, ?_⟩, ⟨?_, ?_, ?_⟩, ⟨?_, ?_, ?_⟩⟩ <;> ring

/-- Claim C15. The Lorenz system has zero derivative at the origin: for every
`sigma`, `beta`, `rho`, `pitch` and `dt`, `process` applied to the state
`(0, 0, 0)` returns the state `(0, 0, 0)`, and so does any number of steps. -/
theorem lorenz_origin_is_fixed (sigma beta rho pitch dt : ℚ) (n : Nat) :
    (sigma * ((0 : ℚ) - 0) = 0 ∧ (0 : ℚ) * (rho - 0) - 0 = 0 ∧ (0 : ℚ) * 0 - beta * 0 = 0) ∧
    LorenzAttractor.process
        { sigma := sigma, beta := beta, rho := rho, pitch := pitch, x := 0, y := 0, z := 0 } dt
      = { sigma := sigma, beta := beta, rho := rho, pitch := pitch, x := 0, y := 0, z := 0 } ∧
    LorenzAttractor.iterate
        { sigma := sigma, beta := beta, rho := rho, pitch := pitch, x := 0, y := 0, z := 0 } dt n
      = { sigma := sigma, beta := beta, rho := rho, pitch := pitch, x := 0, y := 0, z := 0 } := by
  have step : LorenzAttractor.process
        { sigma := sigma, beta := beta, rho := rho, pitch := pitch, x := 0, y := 0, z := 0 } dt
      = { sigma := sigma, beta := beta, rho := rho, pitch := pitch, x := 0, y := 0, z := 0 } := by
    simp [LorenzAttractor.process]
  refine ⟨by simp, step, ?_⟩
  induction n with
  | zero => rfl
  | succ k ih => rw [LorenzAttractor.iterate, step, ih]

/-- Claim C18. The Lorenz step commutes with the reflection
`(x, y, z) ↦ (-x, -y, z)`; and a state on the z-axis stays on the z-axis with
`z' = z * (1 - beta * dt * pitch * 375)`. -/
theorem lorenz_reflection_symmetry (s : LorenzAttractor) (dt : ℚ) :
    s.reflect.process dt = (s.process dt).reflect ∧
    ((s.reflect.process dt).x = -(s.process dt).x ∧
      (s.reflect.process dt).y = -(s.process dt).y ∧
      (s.reflect.process dt).z = (s.process dt).z) ∧
    LorenzAttractor.process { s with x := 0, y := 0 } dt
      = { s with x := 0, y := 0, z := s.z * (1 - s.beta * dt * s.pitch * 375) } := by
  have h : s.reflect.process dt = (s.process dt).reflect := by
    simp only [LorenzAttractor.process, LorenzAttractor.reflect, LorenzAttractor.mk.injEq]
    refine ⟨trivial, trivial, trivial, trivial, ?_, ?_, ?_⟩ <;> ring
  refine ⟨h, ?_, ?_⟩
  · rw [h]
    exact ⟨rfl, rfl, rfl⟩
  · simp only [LorenzAttractor.process, LorenzAttractor.mk.injEq]
    refine ⟨trivial, trivial, trivial, trivial, ?_, ?_, ?_⟩ <;> norm_num
    ring

/-- Claim C19. The non-trivial Lorenz equilibria are fixed points of the step:
if `x = y`, `x * x = beta * (rho - 1)` and `z = rho - 1`, then `process dt`
leaves `x`, `y`, `z` unchanged; conversely, when `sigma`, `dt` and `pitch` are
all non-zero, `process dt` leaves the state unchanged only if `x = y`,
`x * (rho - 1 - z) = 0` and `x * x = beta * z`. -/
theorem lorenz_equilibria_fixed_points (s : LorenzAttractor) (dt : ℚ) :
    (s.x = s.y ∧ s.x * s.x = s.beta * (s.rho - 1) ∧ s.z = s.rho - 1 →
      (s.process dt).x = s.x ∧ (s.process dt).y = s.y ∧ (s.process dt).z = s.z) ∧
    (s.sigma ≠ 0 ∧ dt ≠ 0 ∧ s.pitch ≠ 0 →
      ((s.process dt).x = s.x ∧ (s.process dt).y = s.y ∧ (s.process dt).z = s.z) →
      s.x = s.y ∧ s.x * (s.rho - 1 - s.z) = 0 ∧ s.x * s.x = s.beta * s.z) := by
  constructor
  · rintro ⟨hxy, hxx, hz⟩
    simp only [LorenzAttractor.process]
    refine ⟨?_, ?_, ?_⟩
    · rw [← hxy]; simp
    · have h : s.x * (s.rho - s.z) - s.y = 0 := by rw [hz, ← hxy]; ring
      rw [h]; simp
    · have h : s.x * s.y - s.beta * s.z = 0 := by rw [← hxy, hxx, hz]; ring
      rw [h]; simp
  · rintro ⟨hs, hdt, hp⟩ ⟨hx, hy, hz⟩
    simp only [LorenzAttractor.process] at hx hy hz
    have h375 : (375.0 : ℚ) ≠ 0 := by norm_num
    have hk : dt * s.pitch * 375.0 ≠ 0 := mul_ne_zero (mul_ne_zero hdt hp) h375
    have ex : s.sigma * (s.y - s.x) * (dt * s.pitch * 375.0) = 0 := by linarith
    have ey : (s.x * (s.rho - s.z) - s.y) * (dt * s.pitch * 375.0) = 0 := by linarith
    have ez : (s.x * s.y - s.beta * s.z) * (dt * s.pitch * 375.0) = 0 := by linarith
    have dx : s.sigma * (s.y - s.x) = 0 := (mul_eq_zero.1 ex).resolve_right hk
    have dy : s.x * (s.rho - s.z) - s.y = 0 := (mul_eq_zero.1 ey).resolve_right hk
    have dz : s.x * s.y - s.beta * s.z = 0 := (mul_eq_zero.1 ez).resolve_right hk
    have hxy : s.x = s.y := by
      have := (mul_eq_zero.1 dx).resolve_left hs
      linarith
    refine ⟨hxy, ?_, ?_⟩
    · rw [← hxy] at dy; linarith
    · rw [← hxy] at dz; linarith

/-- Witness for claim C19: the equilibrium `x = y = 2`, `z = 4` of the system
with `beta = 1`, `rho = 5`, stepped with `dt = 1/44100`. -/
theorem lorenz_equilibria_fixed_points_witness :
    (lorenzAtEquilibrium.x = lorenzAtEquilibrium.y ∧
      lorenzAtEquilibrium.x * lorenzAtEquilibrium.x
        = lorenzAtEquilibrium.beta * (lorenzAtEquilibrium.rho - 1) ∧
      lorenzAtEquilibrium.z = lorenzAtEquilibrium.rho - 1) ∧
    (lorenzAtEquilibrium.sigma ≠ 0 ∧ (1 / 44100 : ℚ) ≠ 0 ∧ lorenzAtEquilibrium.pitch ≠ 0) ∧
    ((lorenzAtEquilibrium.process (1 / 44100)).x = lorenzAtEquilibrium.x ∧
      (lorenzAtEquilibrium.process (1 / 44100)).y = lorenzAtEquilibrium.y ∧
      (lorenzAtEquilibrium.process (1 / 44100)).z = lorenzAtEquilibrium.z) ∧
    (lorenzAtEquilibrium.x = lorenzAtEquilibrium.y ∧
      lorenzAtEquilibrium.x * (lorenzAtEquilibrium.rho - 1 - lorenzAtEquilibrium.z) = 0 ∧
      lorenzAtEquilibrium.x * lorenzAtEquilibrium.x
        = lorenzAtEquilibrium.beta * lorenzAtEquilibrium.z) :=
  have h1 : lorenzAtEquilibrium.x = lorenzAtEquilibrium.y ∧
      lorenzAtEquilibrium.x * lorenzAtEquilibrium.x
        = lorenzAtEquilibrium.beta * (lorenzAtEquilibrium.rho - 1) ∧
      lorenzAtEquilibrium.z = lorenzAtEquilibrium.rho - 1 := by
    norm_num [lorenzAtEquilibrium]
  have h2 : lorenzAtEquilibrium.sigma ≠ 0 ∧ (1 / 44100 : ℚ) ≠ 0 ∧
      lorenzAtEquilibrium.pitch ≠ 0 := by
    norm_num [lorenzAtEquilibrium]
  have fixed := (lorenz_equilibria_fixed_points lorenzAtEquilibrium (1 / 44100)).1 h1
  ⟨h1, h2, fixed, (lorenz_equilibria_fixed_points lorenzAtEquilibrium (1 / 44100)).2 h2 fixed⟩

/-! ### Claims C16 and C17: the origin and the seed -/

/-- Claim C16, as stated, fails.  With the default parameters (inside the
valid ranges) and `dt = 1/44100 > 0`, the Rössler `process` applied to the
state `(0, 0, 0)` does not return `(0, 0, 0)`: the derivative of `z` there is
`b = 0.2`, and `z` moves to `97/14700`. -/
theorem rossler_origin_is_not_fixed :
    rosslerAtOrigin.ParamsInRange ∧ (0 : ℚ) < 1 / 44100 ∧
    (rosslerAtOrigin.x = 0 ∧ rosslerAtOrigin.y = 0 ∧ rosslerAtOrigin.z = 0) ∧
    rosslerAtOrigin.b + rosslerAtOrigin.z * (rosslerAtOrigin.x - rosslerAtOrigin.c) = 0.2 ∧
    (rosslerAtOrigin.process (1 / 44100)).z = 97 / 14700 ∧
    ¬ ((rosslerAtOrigin.process (1 / 44100)).x = 0 ∧
       (rosslerAtOrigin.process (1 / 44100)).y = 0 ∧
       (rosslerAtOrigin.process (1 / 44100)).z = 0) := by
  have hz : (rosslerAtOrigin.process (1 / 44100)).z = 97 / 14700 := by
    norm_num [RosslerAttractor.process, rosslerAtOrigin, RosslerAttractor.ctor,
      RosslerAttractor.DEFAULT_A_VALUE, RosslerAttractor.DEFAULT_B_VALUE,
      RosslerAttractor.DEFAULT_C_VALUE, RosslerAttractor.DEFAULT_PITCH_VALUE]
  refine ⟨?_, by norm_num, ?_, ?_, hz, ?_⟩
  · norm_num [RosslerAttractor.ParamsInRange, rosslerAtOrigin, RosslerAttractor.ctor,
      RosslerAttractor.DEFAULT_A_VALUE, RosslerAttractor.DEFAULT_B_VALUE,
      RosslerAttractor.DEFAULT_C_VALUE, RosslerAttractor.DEFAULT_PITCH_VALUE]
  · exact ⟨rfl, rfl, rfl⟩
  · norm_num [rosslerAtOrigin, RosslerAttractor.ctor, RosslerAttractor.DEFAULT_B_VALUE]
  · rintro ⟨-, -, h⟩
    rw [hz] at h
    norm_num at h

/-- Claim C16, amended.  The Rössler system is not degenerate at the origin in
the way the Lorenz system is: for every parameter setting inside the valid
ranges and every `dt > 0`, `process` applied to the state `(0, 0, 0)` leaves
`x = 0` and `y = 0` (their derivatives are zero there) but moves `z` to
`b * dt * pitch * 2910 > 0` (the derivative of `z` there is `b ≥ 0.1`). -/
theorem rossler_origin_moves_along_z (s : RosslerAttractor) (dt : ℚ)
    (hr : s.ParamsInRange) (hdt : 0 < dt) (hx : s.x = 0) (hy : s.y = 0) (hz : s.z = 0) :
    (-s.y - s.z = 0 ∧ s.x + s.a * s.y = 0 ∧ s.b + s.z * (s.x - s.c) = s.b ∧ 0.1 ≤ s.b) ∧
    (s.process dt).x = 0 ∧ (s.process dt).y = 0 ∧
    (s.process dt).z = s.b * dt * s.pitch * 2910 ∧ 0 < (s.process dt).z := by
  obtain ⟨-, ⟨hb, -⟩, -, ⟨hp, -⟩⟩ := hr
  have hb0 : 0 < s.b := lt_of_lt_of_le (by norm_num) hb
  have hp0 : 0 < s.pitch := lt_of_lt_of_le (by norm_num) hp
  have hzv : (s.process dt).z = s.b * dt * s.pitch * 2910 := by
    simp only [RosslerAttractor.process, hx, hy, hz]
    norm_num
  refine ⟨⟨by simp [hy, hz], by simp [hx, hy], by simp [hz], hb⟩, ?_, ?_, hzv, ?_⟩
  · simp [RosslerAttractor.process, hx, hy, hz]
  · simp [RosslerAttractor.process, hx, hy, hz]
  · rw [hzv]
    positivity

/-- Witness for claim C16 (amended): the default parameters at the origin,
stepped with `dt = 1/44100`. -/
theorem rossler_origin_moves_along_z_witness :
    rosslerAtOrigin.ParamsInRange ∧ (0 : ℚ) < 1 / 44100 ∧
    (rosslerAtOrigin.process (1 / 44100)).x = 0 ∧
    (rosslerAtOrigin.process (1 / 44100)).y = 0 ∧
    0 < (rosslerAtOrigin.process (1 / 44100)).z :=
  have hr : rosslerAtOrigin.ParamsInRange := by
    norm_num [RosslerAttractor.ParamsInRange, rosslerAtOrigin, RosslerAttractor.ctor,
      RosslerAttractor.DEFAULT_A_VALUE, RosslerAttractor.DEFAULT_B_VALUE,
      RosslerAttractor.DEFAULT_C_VALUE, RosslerAttractor.DEFAULT_PITCH_VALUE]
  have hdt : (0 : ℚ) < 1 / 44100 := by norm_num
  have t := rossler_origin_moves_along_z rosslerAtOrigin (1 / 44100) hr hdt rfl rfl rfl
  ⟨hr, hdt, t.2.1, t.2.2.1, t.2.2.2.2⟩

theorem lorenz_seed_y_increases (l : LorenzAttractor) (dt : ℚ) (hr : l.ParamsInRange)
    (hdt : 0 < dt) (hx : l.x = 1) (hy : l.y = 1) (hz : l.z = 1) :
    l.x * (l.rho - l.z) - l.y = l.rho - 2 ∧ 11 ≤ l.rho - 2 ∧ l.y < (l.process dt).y := by
  obtain ⟨-, -, ⟨hrho, -⟩, ⟨hp, -⟩⟩ := hr
  have hp0 : 0 < l.pitch := lt_of_lt_of_le (by norm_num) hp
  have hd : l.x * (l.rho - l.z) - l.y = l.rho - 2 := by rw [hx, hy, hz]; ring
  have h11 : 11 ≤ l.rho - 2 := by linarith
  refine ⟨hd, h11, ?_⟩
  have hy' : (l.process dt).y = l.y + (l.rho - 2) * dt * l.pitch * 375 := by
    simp only [LorenzAttractor.process, hd]
    norm_num
  rw [hy']
  have : 0 < (l.rho - 2) * dt * l.pitch * 375 := by
    have h0 : 0 < l.rho - 2 := by linarith
    positivity
  linarith

theorem rossler_seed_x_decreases (r : RosslerAttractor) (dt : ℚ) (hr : r.ParamsInRange)
    (hdt : 0 < dt) (_hx : r.x = 1) (hy : r.y = 1) (hz : r.z = 1) :
    -r.y - r.z = -2 ∧ (r.process dt).x < r.x := by
  obtain ⟨-, -, -, ⟨hp, -⟩⟩ := hr
  have hp0 : 0 < r.pitch := lt_of_lt_of_le (by norm_num) hp
  have hd : -r.y - r.z = -2 := by rw [hy, hz]; ring
  refine ⟨hd, ?_⟩
  have hx' : (r.process dt).x = r.x - 2 * dt * r.pitch * 2910 := by
    simp only [RosslerAttractor.process, hd]
    norm_num
    ring
  rw [hx']
  have : 0 < 2 * dt * r.pitch * 2910 := by positivity
  linarith

/-- The seed in exact arithmetic.  For every parameter setting inside the valid
ranges and every `dt > 0`, one Lorenz step from the seed `(1, 1, 1)` strictly
increases `y` (the derivative there is `rho - 2 ≥ 11`) and one Rössler step
from the seed strictly decreases `x` (the derivative there is `-2`); hence an
active controller tick at a positive sample rate moves an attractor that sits
at the seed.  In single precision a small increment can be absorbed by the
rounding of the sum; that statement is proved further down. -/
theorem seed_is_not_a_fixed_point_exact (l : LorenzAttractor) (r : RosslerAttractor) (dt : ℚ)
    (m : StrangeAttractors) (args : ProcessArgs) :
    (l.ParamsInRange → 0 < dt → (l.x = 1 ∧ l.y = 1 ∧ l.z = 1) →
      l.x * (l.rho - l.z) - l.y = l.rho - 2 ∧ 11 ≤ l.rho - 2 ∧ l.y < (l.process dt).y) ∧
    (r.ParamsInRange → 0 < dt → (r.x = 1 ∧ r.y = 1 ∧ r.z = 1) →
      -r.y - r.z = -2 ∧ (r.process dt).x < r.x) ∧
    (m.lorenzActive = true → 0 < args.sampleRate →
      (m.lorenz.x = 1 ∧ m.lorenz.y = 1 ∧ m.lorenz.z = 1) →
      m.lorenz.y < (m.process args).lorenz.y) ∧
    (m.rosslerActive = true → 0 < args.sampleRate →
      (m.rossler.x = 1 ∧ m.rossler.y = 1 ∧ m.rossler.z = 1) →
      (m.process args).rossler.x < m.rossler.x) := by
  refine ⟨?_, ?_, ?_, ?_⟩
  · rintro hr hdt ⟨hx, hy, hz⟩
    exact lorenz_seed_y_increases l dt hr hdt hx hy hz
  · rintro hr hdt ⟨hx, hy, hz⟩
    exact rossler_seed_x_decreases r dt hr hdt hx hy hz
  · rintro ha hsr ⟨hx, hy, hz⟩
    rw [StrangeAttractors.process_lorenz, if_pos ha]
    have hdt : 0 < 1 / args.sampleRate := by positivity
    exact (lorenz_seed_y_increases m.lorenzWriteParams.lorenz (1 / args.sampleRate)
      (StrangeAttractors.lorenzWriteParams_inRange m) hdt hx hy hz).2.2
  · rintro ha hsr ⟨hx, hy, hz⟩
    rw [StrangeAttractors.process_rossler, if_pos ha]
    have hdt : 0 < 1 / args.sampleRate := by positivity
    exact (rossler_seed_x_decreases m.rosslerWriteParams.rossler (1 / args.sampleRate)
      (StrangeAttractors.rosslerWriteParams_inRange m) hdt hx hy hz).2

/-- An instance of the exact statement about the seed: the freshly constructed
attractors stepped with `dt = 1/44100`, and the freshly constructed module
ticked at 44.1 kHz. -/
theorem seed_is_not_a_fixed_point_exact_witness :
    LorenzAttractor.ctor.ParamsInRange ∧ RosslerAttractor.ctor.ParamsInRange ∧
    (0 : ℚ) < 1 / 44100 ∧
    freshModule.lorenzActive = true ∧ freshModule.rosslerActive = true ∧
    0 < sampleArgs.sampleRate ∧
    LorenzAttractor.ctor.y < (LorenzAttractor.ctor.process (1 / 44100)).y ∧
    (RosslerAttractor.ctor.process (1 / 44100)).x < RosslerAttractor.ctor.x ∧
    freshModule.lorenz.y < (freshModule.process sampleArgs).lorenz.y ∧
    (freshModule.process sampleArgs).rossler.x < freshModule.rossler.x :=
  have hl : LorenzAttractor.ctor.ParamsInRange := by
    norm_num [LorenzAttractor.ParamsInRange, LorenzAttractor.ctor,
      LorenzAttractor.DEFAULT_SIGNMA_VALUE, LorenzAttractor.DEFAULT_BETA_VALUE,
      LorenzAttractor.DEFAULT_RHO_VALUE, LorenzAttractor.DEFAULT_PITCH_VALUE]
  have hr : RosslerAttractor.ctor.ParamsInRange := by
    norm_num [RosslerAttractor.ParamsInRange, RosslerAttractor.ctor,
      RosslerAttractor.DEFAULT_A_VALUE, RosslerAttractor.DEFAULT_B_VALUE,
      RosslerAttractor.DEFAULT_C_VALUE, RosslerAttractor.DEFAULT_PITCH_VALUE]
  have hdt : (0 : ℚ) < 1 / 44100 := by norm_num
  have hsr : 0 < sampleArgs.sampleRate := by norm_num [sampleArgs]
  have hls : LorenzAttractor.ctor.x = 1 ∧ LorenzAttractor.ctor.y = 1 ∧
      LorenzAttractor.ctor.z = 1 := by
    norm_num [LorenzAttractor.ctor]
  have hrs : RosslerAttractor.ctor.x = 1 ∧ RosslerAttractor.ctor.y = 1 ∧
      RosslerAttractor.ctor.z = 1 := by
    norm_num [RosslerAttractor.ctor]
  have t := seed_is_not_a_fixed_point_exact LorenzAttractor.ctor RosslerAttractor.ctor (1 / 44100)
    freshModule sampleArgs
  ⟨hl, hr, hdt, rfl, rfl, hsr, (t.1 hl hdt hls).2.2, (t.2.1 hr hdt hrs).2,
    t.2.2.1 rfl hsr hls, t.2.2.2 rfl hsr hrs⟩

/-! ### Claims C12 and C14: independence of the two sides, derivation of parameters -/

namespace StrangeAttractors

theorem lorenzBranch_outputs_rossler (m : StrangeAttractors) (args : ProcessArgs) :
    (m.lorenzBranch args).outputs .ROSSLER_X_OUTPUT = m.outputs .ROSSLER_X_OUTPUT ∧
    (m.lorenzBranch args).outputs .ROSSLER_Y_OUTPUT = m.outputs .ROSSLER_Y_OUTPUT := by
  simp [lorenzBranch, lorenzWriteParams, setVoltage]

theorem lorenzBranch_outputs_eq (m : StrangeAttractors) (args : ProcessArgs) :
    (m.lorenzBranch args).outputs .LORENZ_X_OUTPUT
      = { m.outputs .LORENZ_X_OUTPUT with
          voltage := 5 * 0.044 * (m.lorenzWriteParams.lorenz.process (1 / args.sampleRate)).x } ∧
    (m.lorenzBranch args).outputs .LORENZ_Y_OUTPUT
      = { m.outputs .LORENZ_Y_OUTPUT with
          voltage := 5 * 0.0328 * (m.lorenzWriteParams.lorenz.process (1 / args.sampleRate)).y } := by
  have h5 : (5.0 : ℚ) = 5 := by norm_num
  have h1 : (1.0 : ℚ) = 1 := by norm_num
  simp [lorenzBranch, lorenzWriteParams, setVoltage, h5, h1]

theorem rosslerBranch_outputs_eq (m : StrangeAttractors) (args : ProcessArgs) :
    (m.rosslerBranch args).outputs .ROSSLER_X_OUTPUT
      = { m.outputs .ROSSLER_X_OUTPUT with
          voltage := 5 * 0.054 * (m.rosslerWriteParams.rossler.process (1 / args.sampleRate)).x } ∧
    (m.rosslerBranch args).outputs .ROSSLER_Y_OUTPUT
      = { m.outputs .ROSSLER_Y_OUTPUT with
          voltage :=
            5 * 0.0569 * (m.rosslerWriteParams.rossler.process (1 / args.sampleRate)).y } := by
  have h5 : (5.0 : ℚ) = 5 := by norm_num
  have h1 : (1.0 : ℚ) = 1 := by norm_num
  simp [rosslerBranch, rosslerWriteParams, setVoltage, h5, h1]

/-- The two Lorenz output ports after a tick. -/
theorem process_outputs_lorenz (m : StrangeAttractors) (args : ProcessArgs) :
    (m.process args).outputs .LORENZ_X_OUTPUT
      = (if m.lorenzActive then
          { m.outputs .LORENZ_X_OUTPUT with
            voltage := 5 * 0.044 * (m.lorenzWriteParams.lorenz.process (1 / args.sampleRate)).x }
        else m.outputs .LORENZ_X_OUTPUT) ∧
    (m.process args).outputs .LORENZ_Y_OUTPUT
      = (if m.lorenzActive then
          { m.outputs .LORENZ_Y_OUTPUT with
            voltage := 5 * 0.0328 * (m.lorenzWriteParams.lorenz.process (1 / args.sampleRate)).y }
        else m.outputs .LORENZ_Y_OUTPUT) := by
  unfold process
  by_cases hl : m.lorenzActive = true
  · by_cases hr : (m.lorenzBranch args).rosslerActive = true
    · simp only [hl, hr, if_true, (rosslerBranch_outputs_lorenz _ _).1,
        (rosslerBranch_outputs_lorenz _ _).2]
      exact lorenzBranch_outputs_eq m args
    · simp only [hl, hr, if_true, Bool.false_eq_true, if_false]
      exact lorenzBranch_outputs_eq m args
  · have hl2 : m.lorenzActive = false := by simpa using hl
    by_cases hr : m.rosslerActive = true
    · simp only [hl2, hr, if_true, Bool.false_eq_true, if_false,
        (rosslerBranch_outputs_lorenz _ _).1, (rosslerBranch_outputs_lorenz _ _).2]
      exact ⟨trivial, trivial⟩
    · simp only [hl2, hr, Bool.false_eq_true, if_false]
      exact ⟨trivial, trivial⟩

/-- The two Rössler output ports after a tick. -/
theorem process_outputs_rossler (m : StrangeAttractors) (args : ProcessArgs) :
    (m.process args).outputs .ROSSLER_X_OUTPUT
      = (if m.rosslerActive then
          { m.outputs .ROSSLER_X_OUTPUT with
            voltage := 5 * 0.054 * (m.rosslerWriteParams.rossler.process (1 / args.sampleRate)).x }
        else m.outputs .ROSSLER_X_OUTPUT) ∧
    (m.process args).outputs .ROSSLER_Y_OUTPUT
      = (if m.rosslerActive then
          { m.outputs .ROSSLER_Y_OUTPUT with
            voltage :=
              5 * 0.0569 * (m.rosslerWriteParams.rossler.process (1 / args.sampleRate)).y }
        else m.outputs .ROSSLER_Y_OUTPUT) := by
  unfold process
  by_cases hl : m.lorenzActive = true
  · by_cases hr : m.rosslerActive = true
    · have hr2 : (m.lorenzBranch args).rosslerActive = true := by
        rw [lorenzBranch_rosslerActive]; exact hr
      simp only [hl, hr, hr2, if_true]
      have h := rosslerBranch_outputs_eq (m.lorenzBranch args) args
      rw [lorenzBranch_rosslerWriteParams, (lorenzBranch_outputs_rossler m args).1,
        (lorenzBranch_outputs_rossler m args).2] at h
      exact h
    · have hr2 : ¬ (m.lorenzBranch args).rosslerActive = true := by
        rw [lorenzBranch_rosslerActive]; exact hr
      simp only [hl, hr, hr2, if_true, Bool.false_eq_true, if_false]
      exact lorenzBranch_outputs_rossler m args
  · have hl2 : m.lorenzActive = false := by simpa using hl
    by_cases hr : m.rosslerActive = true
    · simp only [hl2, hr, if_true, Bool.false_eq_true, if_false]
      exact rosslerBranch_outputs_eq m args
    · simp only [hl2, hr, Bool.false_eq_true, if_false]
      exact ⟨trivial, trivial⟩

theorem lorenzSideEq_active {m m' : StrangeAttractors} (h : m.LorenzSideEq m') :
    m.lorenzActive = m'.lorenzActive := by
  obtain ⟨-, hx, hy⟩ := h
  simp only [lorenzActive, hx, hy]

theorem rosslerSideEq_active {m m' : StrangeAttractors} (h : m.RosslerSideEq m') :
    m.rosslerActive = m'.rosslerActive := by
  obtain ⟨-, hx, hy⟩ := h
  simp only [rosslerActive, hx, hy]

theorem lorenzDriveEq_writeParams {m m' : StrangeAttractors} (h : m.LorenzDriveEq m') :
    m.lorenzWriteParams.lorenz = m'.lorenzWriteParams.lorenz := by
  obtain ⟨hl, ⟨p1, p2, p3, p4⟩, ⟨i1, i2, i3, i4⟩⟩ := h
  simp only [lorenzWriteParams, hl, p1, p2, p3, p4, i1, i2, i3, i4]

theorem rosslerDriveEq_writeParams {m m' : StrangeAttractors} (h : m.RosslerDriveEq m') :
    m.rosslerWriteParams.rossler = m'.rosslerWriteParams.rossler := by
  obtain ⟨hl, ⟨p1, p2, p3, p4⟩, ⟨i1, i2, i3, i4⟩⟩ := h
  simp only [rosslerWriteParams, hl, p1, p2, p3, p4, i1, i2, i3, i4]

end StrangeAttractors

/-- Claim C12. The two attractors never interact.  Two modules that agree on
the Lorenz side (record, knobs, modulation inputs, output ports) and are ticked
with the same arguments end with the same Lorenz record and the same two Lorenz
output ports, whatever their Rössler sides are; and when the Lorenz attractor
is active in both, the agreement of record, knobs and modulation inputs alone
gives the same Lorenz record and the same two Lorenz output voltages.
Symmetrically with the roles of Lorenz and Rössler exchanged. -/
theorem attractors_do_not_interact (m m' : StrangeAttractors) (args : ProcessArgs) :
    (m.LorenzSideEq m' →
      (m.process args).lorenz = (m'.process args).lorenz ∧
      (m.process args).outputs .LORENZ_X_OUTPUT = (m'.process args).outputs .LORENZ_X_OUTPUT ∧
      (m.process args).outputs .LORENZ_Y_OUTPUT = (m'.process args).outputs .LORENZ_Y_OUTPUT) ∧
    (m.RosslerSideEq m' →
      (m.process args).rossler = (m'.process args).rossler ∧
      (m.process args).outputs .ROSSLER_X_OUTPUT = (m'.process args).outputs .ROSSLER_X_OUTPUT ∧
      (m.process args).outputs .ROSSLER_Y_OUTPUT
        = (m'.process args).outputs .ROSSLER_Y_OUTPUT) ∧
    (m.LorenzDriveEq m' → m.lorenzActive = true → m'.lorenzActive = true →
      (m.process args).lorenz = (m'.process args).lorenz ∧
      ((m.process args).outputs .LORENZ_X_OUTPUT).voltage
        = ((m'.process args).outputs .LORENZ_X_OUTPUT).voltage ∧
      ((m.process args).outputs .LORENZ_Y_OUTPUT).voltage
        = ((m'.process args).outputs .LORENZ_Y_OUTPUT).voltage) ∧
    (m.RosslerDriveEq m' → m.rosslerActive = true → m'.rosslerActive = true →
      (m.process args).rossler = (m'.process args).rossler ∧
      ((m.process args).outputs .ROSSLER_X_OUTPUT).voltage
        = ((m'.process args).outputs .ROSSLER_X_OUTPUT).voltage ∧
      ((m.process args).outputs .ROSSLER_Y_OUTPUT).voltage
        = ((m'.process args).outputs .ROSSLER_Y_OUTPUT).voltage) := by
  refine ⟨?_, ?_, ?_, ?_⟩
  · intro h
    have ha := StrangeAttractors.lorenzSideEq_active h
    obtain ⟨hd, hx, hy⟩ := h
    have hw := StrangeAttractors.lorenzDriveEq_writeParams hd
    refine ⟨?_, ?_, ?_⟩
    · rw [StrangeAttractors.process_lorenz, StrangeAttractors.process_lorenz, ha, hw, hd.1]
    · rw [(StrangeAttractors.process_outputs_lorenz m args).1,
        (StrangeAttractors.process_outputs_lorenz m' args).1, ha, hw, hx]
    · rw [(StrangeAttractors.process_outputs_lorenz m args).2,
        (StrangeAttractors.process_outputs_lorenz m' args).2, ha, hw, hy]
  · intro h
    have ha := StrangeAttractors.rosslerSideEq_active h
    obtain ⟨hd, hx, hy⟩ := h
    have hw := StrangeAttractors.rosslerDriveEq_writeParams hd
    refine ⟨?_, ?_, ?_⟩
    · rw [StrangeAttractors.process_rossler, StrangeAttractors.process_rossler, ha, hw, hd.1]
    · rw [(StrangeAttractors.process_outputs_rossler m args).1,
        (StrangeAttractors.process_outputs_rossler m' args).1, ha, hw, hx]
    · rw [(StrangeAttractors.process_outputs_rossler m args).2,
        (StrangeAttractors.process_outputs_rossler m' args).2, ha, hw, hy]
  · intro hd ha ha'
    have hw := StrangeAttractors.lorenzDriveEq_writeParams hd
    refine ⟨?_, ?_, ?_⟩
    · rw [StrangeAttractors.process_lorenz, StrangeAttractors.process_lorenz, if_pos ha,
        if_pos ha', hw]
    · rw [(StrangeAttractors.process_outputs_lorenz m args).1,
        (StrangeAttractors.process_outputs_lorenz m' args).1, if_pos ha, if_pos ha', hw]
    · rw [(StrangeAttractors.process_outputs_lorenz m args).2,
        (StrangeAttractors.process_outputs_lorenz m' args).2, if_pos ha, if_pos ha', hw]
  · intro hd ha ha'
    have hw := StrangeAttractors.rosslerDriveEq_writeParams hd
    refine ⟨?_, ?_, ?_⟩
    · rw [StrangeAttractors.process_rossler, StrangeAttractors.process_rossler, if_pos ha,
        if_pos ha', hw]
    · rw [(StrangeAttractors.process_outputs_rossler m args).1,
        (StrangeAttractors.process_outputs_rossler m' args).1, if_pos ha, if_pos ha', hw]
    · rw [(StrangeAttractors.process_outputs_rossler m args).2,
        (StrangeAttractors.process_outputs_rossler m' args).2, if_pos ha, if_pos ha', hw]

/-- Witness for claim C12: the freshly constructed module against the same
module with the whole Rössler side changed, and against the same module with
the whole Lorenz side changed; and, for the active case, the module with all
knobs at 100 against the same module with other voltages on its ports. -/
theorem attractors_do_not_interact_witness :
    (freshModule.LorenzSideEq freshModuleOtherRossler ∧
      freshModule.rossler ≠ freshModuleOtherRossler.rossler ∧
      (freshModule.process sampleArgs).lorenz
        = (freshModuleOtherRossler.process sampleArgs).lorenz ∧
      (freshModule.process sampleArgs).outputs .LORENZ_X_OUTPUT
        = (freshModuleOtherRossler.process sampleArgs).outputs .LORENZ_X_OUTPUT ∧
      (freshModule.process sampleArgs).outputs .LORENZ_Y_OUTPUT
        = (freshModuleOtherRossler.process sampleArgs).outputs .LORENZ_Y_OUTPUT) ∧
    (freshModule.RosslerSideEq freshModuleOtherLorenz ∧
      freshModule.lorenz ≠ freshModuleOtherLorenz.lorenz ∧
      (freshModule.process sampleArgs).rossler
        = (freshModuleOtherLorenz.process sampleArgs).rossler ∧
      (freshModule.process sampleArgs).outputs .ROSSLER_X_OUTPUT
        = (freshModuleOtherLorenz.process sampleArgs).outputs .ROSSLER_X_OUTPUT ∧
      (freshModule.process sampleArgs).outputs .ROSSLER_Y_OUTPUT
        = (freshModuleOtherLorenz.process sampleArgs).outputs .ROSSLER_Y_OUTPUT) ∧
    (sampleModule.LorenzDriveEq sampleModuleOtherPorts ∧
      sampleModule.RosslerDriveEq sampleModuleOtherPorts ∧
      sampleModule.lorenzActive = true ∧ sampleModuleOtherPorts.lorenzActive = true ∧
      sampleModule.rosslerActive = true ∧ sampleModuleOtherPorts.rosslerActive = true ∧
      ((sampleModule.process sampleArgs).outputs .LORENZ_X_OUTPUT).voltage
        = ((sampleModuleOtherPorts.process sampleArgs).outputs .LORENZ_X_OUTPUT).voltage ∧
      ((sampleModule.process sampleArgs).outputs .ROSSLER_Y_OUTPUT).voltage
        = ((sampleModuleOtherPorts.process sampleArgs).outputs .ROSSLER_Y_OUTPUT).voltage) :=
  have hL : freshModule.LorenzSideEq freshModuleOtherRossler := by
    simp [StrangeAttractors.LorenzSideEq, StrangeAttractors.LorenzDriveEq, freshModule,
      freshModuleOtherRossler]
  have hR : freshModule.RosslerSideEq freshModuleOtherLorenz := by
    simp [StrangeAttractors.RosslerSideEq, StrangeAttractors.RosslerDriveEq, freshModule,
      freshModuleOtherLorenz]
  have dR : freshModule.rossler ≠ freshModuleOtherRossler.rossler := by
    norm_num [freshModule, freshModuleOtherRossler, RosslerAttractor.ctor]
  have dL : freshModule.lorenz ≠ freshModuleOtherLorenz.lorenz := by
    norm_num [freshModule, freshModuleOtherLorenz, LorenzAttractor.ctor]
  have hDL : sampleModule.LorenzDriveEq sampleModuleOtherPorts := by
    simp [StrangeAttractors.LorenzDriveEq, sampleModule, sampleModuleOtherPorts]
  have hDR : sampleModule.RosslerDriveEq sampleModuleOtherPorts := by
    simp [StrangeAttractors.RosslerDriveEq, sampleModule, sampleModuleOtherPorts]
  have tL := (attractors_do_not_interact freshModule freshModuleOtherRossler sampleArgs).1 hL
  have tR := (attractors_do_not_interact freshModule freshModuleOtherLorenz sampleArgs).2.1 hR
  have aL := (attractors_do_not_interact sampleModule sampleModuleOtherPorts sampleArgs).2.2.1
    hDL rfl rfl
  have aR := (attractors_do_not_interact sampleModule sampleModuleOtherPorts sampleArgs).2.2.2
    hDR rfl rfl
  ⟨⟨hL, dR, tL.1, tL.2.1, tL.2.2⟩, ⟨hR, dL, tR.1, tR.2.1, tR.2.2⟩,
    ⟨hDL, hDR, rfl, rfl, rfl, rfl, aL.2.1, aR.2.2⟩⟩

theorem clamp_derivedFrom (knob cv : ℚ) {lo hi : ℚ} (h : lo ≤ hi) :
    DerivedFrom knob cv lo hi (clamp (knob + cv * 0.1) lo hi) := by
  have hc : knob + cv * 0.1 = knob + 0.1 * cv := by ring
  rw [hc]
  unfold DerivedFrom clamp
  refine ⟨?_, ?_, ?_, ?_⟩
  · rintro ⟨h1, h2⟩
    rw [min_eq_left h2, max_eq_left h1]
  · rintro ⟨h0, h1, h2⟩
    subst h0
    have e : knob + 0.1 * (0 : ℚ) = knob := by ring
    rw [e, min_eq_left h2, max_eq_left h1]
  · intro h1
    have h2 : knob + 0.1 * cv ≤ hi := le_trans (le_of_lt h1) h
    rw [min_eq_left h2, max_eq_right (le_of_lt h1)]
  · intro h1
    rw [min_eq_right (le_of_lt h1), max_eq_left h]

/-- Claim C14. On an active tick every parameter is derived from its knob and
modulation voltage as follows: it is exactly `knob + 0.1 * cv` when that sum
lies in the parameter's valid interval (hence the knob value when the
modulation voltage is 0 and the knob is inside), the minimum of the interval
when the sum is below it and the maximum when the sum is above it. -/
theorem parameters_derived_by_clamping (m : StrangeAttractors) (args : ProcessArgs) :
    (m.lorenzActive = true →
      DerivedFrom (m.params .LORENZ_SIGMA_PARAM) (m.inputs .LORENZ_SIGMA_INPUT) 3 30
        (m.process args).lorenz.sigma ∧
      DerivedFrom (m.params .LORENZ_BETA_PARAM) (m.inputs .LORENZ_BETA_INPUT) 0.5 3
        (m.process args).lorenz.beta ∧
      DerivedFrom (m.params .LORENZ_RHO_PARAM) (m.inputs .LORENZ_RHO_INPUT) 13 80
        (m.process args).lorenz.rho ∧
      DerivedFrom (m.params .LORENZ_PITCH_PARAM) (m.inputs .LORENZ_PITCH_INPUT) 0.001 1
        (m.process args).lorenz.pitch) ∧
    (m.rosslerActive = true →
      DerivedFrom (m.params .ROSSLER_A_PARAM) (m.inputs .ROSSLER_A_INPUT) 0 0.2
        (m.process args).rossler.a ∧
      DerivedFrom (m.params .ROSSLER_B_PARAM) (m.inputs .ROSSLER_B_INPUT) 0.1 1
        (m.process args).rossler.b ∧
      DerivedFrom (m.params .ROSSLER_C_PARAM) (m.inputs .ROSSLER_C_INPUT) 3 12
        (m.process args).rossler.c ∧
      DerivedFrom (m.params .ROSSLER_PITCH_PARAM) (m.inputs .ROSSLER_PITCH_INPUT) 0.001 1
        (m.process args).rossler.pitch) := by
  constructor
  · intro h
    rw [StrangeAttractors.process_lorenz, if_pos h]
    have e1 : (m.lorenzWriteParams.lorenz.process (1 / args.sampleRate)).sigma
        = clamp (m.params .LORENZ_SIGMA_PARAM + m.inputs .LORENZ_SIGMA_INPUT * 0.1) 3 30 := by
      norm_num [LorenzAttractor.process, StrangeAttractors.lorenzWriteParams,
        StrangeAttractors.LORENZ_SIGMA_PARAM_MIN, StrangeAttractors.LORENZ_SIGMA_PARAM_MAX]
    have e2 : (m.lorenzWriteParams.lorenz.process (1 / args.sampleRate)).beta
        = clamp (m.params .LORENZ_BETA_PARAM + m.inputs .LORENZ_BETA_INPUT * 0.1) 0.5 3 := by
      norm_num [LorenzAttractor.process, StrangeAttractors.lorenzWriteParams,
        StrangeAttractors.LORENZ_BETA_PARAM_MIN, StrangeAttractors.LORENZ_BETA_PARAM_MAX]
    have e3 : (m.lorenzWriteParams.lorenz.process (1 / args.sampleRate)).rho
        = clamp (m.params .LORENZ_RHO_PARAM + m.inputs .LORENZ_RHO_INPUT * 0.1) 13 80 := by
      norm_num [LorenzAttractor.process, StrangeAttractors.lorenzWriteParams,
        StrangeAttractors.LORENZ_RHO_PARAM_MIN, StrangeAttractors.LORENZ_RHO_PARAM_MAX]
    have e4 : (m.lorenzWriteParams.lorenz.process (1 / args.sampleRate)).pitch
        = clamp (m.params .LORENZ_PITCH_PARAM + m.inputs .LORENZ_PITCH_INPUT * 0.1) 0.001 1 := by
      norm_num [LorenzAttractor.process, StrangeAttractors.lorenzWriteParams,
        StrangeAttractors.LORENZ_PITCH_PARAM_MIN, StrangeAttractors.LORENZ_PITCH_PARAM_MAX]
    rw [e1, e2, e3, e4]
    exact ⟨clamp_derivedFrom _ _ (by norm_num), clamp_derivedFrom _ _ (by norm_num),
      clamp_derivedFrom _ _ (by norm_num), clamp_derivedFrom _ _ (by norm_num)⟩
  · intro h
    rw [StrangeAttractors.process_rossler, if_pos h]
    have e1 : (m.rosslerWriteParams.rossler.process (1 / args.sampleRate)).a
        = clamp (m.params .ROSSLER_A_PARAM + m.inputs .ROSSLER_A_INPUT * 0.1) 0 0.2 := by
      norm_num [RosslerAttractor.process, StrangeAttractors.rosslerWriteParams,
        StrangeAttractors.ROSSLER_A_PARAM_MIN, StrangeAttractors.ROSSLER_A_PARAM_MAX]
    have e2 : (m.rosslerWriteParams.rossler.process (1 / args.sampleRate)).b
        = clamp (m.params .ROSSLER_B_PARAM + m.inputs .ROSSLER_B_INPUT * 0.1) 0.1 1 := by
      norm_num [RosslerAttractor.process, StrangeAttractors.rosslerWriteParams,
        StrangeAttractors.ROSSLER_B_PARAM_MIN, StrangeAttractors.ROSSLER_B_PARAM_MAX]
    have e3 : (m.rosslerWriteParams.rossler.process (1 / args.sampleRate)).c
        = clamp (m.params .ROSSLER_C_PARAM + m.inputs .ROSSLER_C_INPUT * 0.1) 3 12 := by
      norm_num [RosslerAttractor.process, StrangeAttractors.rosslerWriteParams,
        StrangeAttractors.ROSSLER_C_PARAM_MIN, StrangeAttractors.ROSSLER_C_PARAM_MAX]
    have e4 : (m.rosslerWriteParams.rossler.process (1 / args.sampleRate)).pitch
        = clamp (m.params .ROSSLER_PITCH_PARAM + m.inputs .ROSSLER_PITCH_INPUT * 0.1)
            0.001 1 := by
      norm_num [RosslerAttractor.process, StrangeAttractors.rosslerWriteParams,
        StrangeAttractors.ROSSLER_PITCH_PARAM_MIN, StrangeAttractors.ROSSLER_PITCH_PARAM_MAX]
    rw [e1, e2, e3, e4]
    exact ⟨clamp_derivedFrom _ _ (by norm_num), clamp_derivedFrom _ _ (by norm_num),
      clamp_derivedFrom _ _ (by norm_num), clamp_derivedFrom _ _ (by norm_num)⟩

/-- Witness for claim C14: the freshly constructed module (knobs at their
defaults, no modulation) keeps `sigma = 10` and `c = 5.7`; the module with all
knobs at 100 and all modulation voltages at -5000 V gets `sigma = 3`. -/
theorem parameters_derived_by_clamping_witness :
    freshModule.lorenzActive = true ∧ freshModule.rosslerActive = true ∧
    sampleModule.lorenzActive = true ∧
    (freshModule.process sampleArgs).lorenz.sigma = freshModule.params .LORENZ_SIGMA_PARAM ∧
    (freshModule.process sampleArgs).rossler.c = freshModule.params .ROSSLER_C_PARAM ∧
    (sampleModule.process sampleArgs).lorenz.sigma = 3 :=
  have h1 : freshModule.inputs .LORENZ_SIGMA_INPUT = 0 ∧
      3 ≤ freshModule.params .LORENZ_SIGMA_PARAM ∧
      freshModule.params .LORENZ_SIGMA_PARAM ≤ 30 := by
    norm_num [freshModule, defaultKnobs, LorenzAttractor.DEFAULT_SIGNMA_VALUE]
  have h2 : freshModule.inputs .ROSSLER_C_INPUT = 0 ∧
      3 ≤ freshModule.params .ROSSLER_C_PARAM ∧
      freshModule.params .ROSSLER_C_PARAM ≤ 12 := by
    norm_num [freshModule, defaultKnobs, RosslerAttractor.DEFAULT_C_VALUE]
  have h3 : sampleModule.params .LORENZ_SIGMA_PARAM
      + 0.1 * sampleModule.inputs .LORENZ_SIGMA_INPUT < 3 := by
    norm_num [sampleModule]
  ⟨rfl, rfl, rfl,
    ((parameters_derived_by_clamping freshModule sampleArgs).1 rfl).1.2.1 h1,
    ((parameters_derived_by_clamping freshModule sampleArgs).2 rfl).2.2.1.2.1 h2,
    ((parameters_derived_by_clamping sampleModule sampleArgs).1 rfl).1.2.2.1 h3⟩

/-! ## Single precision -/

/-! ### The single-precision model: rounding -/

namespace Float32

theorem pick_true {α : Type} (a b : α) : pick true a b = a := rfl

theorem pick_false {α : Type} (a b : α) : pick false a b = b := rfl

theorem pick_eq_cond {α : Type} (c : Bool) (a b : α) : pick c a b = bif c then a else b := by
  cases c <;> rfl

theorem natDiv_eq (a b : Nat) : Nat.div a b = a / b := rfl

theorem natMod_eq (a b : Nat) : Nat.mod a b = a % b := rfl

theorem bitLength2_eq (n : Nat) : bitLength2 n = bitLengthAux 1 n := by
  simp only [bitLength2, bitLengthAux, pick_eq_cond, Nat.pow_eq, Nat.add_eq, natDiv_eq]

theorem bitLength4_eq (n : Nat) : bitLength4 n = bitLengthAux 2 n := by
  rw [bitLengthAux]
  simp only [bitLength4, bitLength2_eq, pick_eq_cond, Nat.pow_eq, Nat.add_eq, natDiv_eq]

theorem bitLength8_eq (n : Nat) : bitLength8 n = bitLengthAux 3 n := by
  rw [bitLengthAux]
  simp only [bitLength8, bitLength4_eq, pick_eq_cond, Nat.pow_eq, Nat.add_eq, natDiv_eq]

theorem bitLength16_eq (n : Nat) : bitLength16 n = bitLengthAux 4 n := by
  rw [bitLengthAux]
  simp only [bitLength16, bitLength8_eq, pick_eq_cond, Nat.pow_eq, Nat.add_eq, natDiv_eq]

theorem bitLength32_eq (n : Nat) : bitLength32 n = bitLengthAux 5 n := by
  rw [bitLengthAux]
  simp only [bitLength32, bitLength16_eq, pick_eq_cond, Nat.pow_eq, Nat.add_eq, natDiv_eq]

theorem bitLength64_eq (n : Nat) : bitLength64 n = bitLengthAux 6 n := by
  rw [bitLengthAux]
  simp only [bitLength64, bitLength32_eq, pick_eq_cond, Nat.pow_eq, Nat.add_eq, natDiv_eq]

/-- The binary search `bitLengthAux k` returns the number of binary digits of
every `n < 2 ^ 2 ^ k`. -/
theorem bitLengthAux_spec (k : Nat) :
    ∀ n, n < 2 ^ 2 ^ k →
      n < 2 ^ bitLengthAux k n ∧ (n ≠ 0 → 2 ^ (bitLengthAux k n - 1) ≤ n) := by
  induction k with
  | zero =>
    intro n hn
    have h2 : n < 2 := by simpa using hn
    interval_cases n <;> simp [bitLengthAux]
  | succ k ih =>
    intro n hn
    simp only [bitLengthAux, Nat.pow_eq]
    cases hb : Nat.ble (2 ^ 2 ^ k) n
    · have hlt : n < 2 ^ 2 ^ k := by
        apply Nat.lt_of_not_le
        intro hle
        rw [Nat.ble_eq_true_of_le hle] at hb
        exact Bool.noConfusion hb
      simpa using ih n hlt
    · have hle : 2 ^ 2 ^ k ≤ n := Nat.le_of_ble_eq_true hb
      have hpos : 0 < 2 ^ 2 ^ k := Nat.pow_pos (by norm_num)
      have hm : n / 2 ^ 2 ^ k < 2 ^ 2 ^ k := by
        rw [Nat.div_lt_iff_lt_mul hpos]
        calc n < 2 ^ 2 ^ (k + 1) := hn
          _ = 2 ^ 2 ^ k * 2 ^ 2 ^ k := by rw [pow_succ, pow_mul, sq]
      have hm0 : n / 2 ^ 2 ^ k ≠ 0 := by
        have := Nat.div_pos hle hpos
        omega
      obtain ⟨h1, h2⟩ := ih _ hm
      have h2' := h2 hm0
      simp only [cond_true]
      set m := n / 2 ^ 2 ^ k with hmdef
      set L := bitLengthAux k m with hL
      have hLpos : 0 < L := by
        by_contra h0
        have : L = 0 := by omega
        rw [this] at h1
        simp at h1
        exact hm0 h1
      constructor
      · have hn1 : n < (m + 1) * 2 ^ 2 ^ k := by
          have := Nat.lt_succ_self m
          exact (Nat.div_lt_iff_lt_mul hpos).1 this
        calc n < (m + 1) * 2 ^ 2 ^ k := hn1
          _ ≤ 2 ^ L * 2 ^ 2 ^ k := Nat.mul_le_mul_right _ h1
          _ = 2 ^ (2 ^ k + L) := by rw [← pow_add, add_comm]
      · intro _
        have hn2 : m * 2 ^ 2 ^ k ≤ n := Nat.div_mul_le_self n _
        have hexp : 2 ^ k + L - 1 = L - 1 + 2 ^ k := by
          have : 0 < 2 ^ k := Nat.pow_pos (by norm_num)
          generalize 2 ^ k = w at *
          omega
        calc 2 ^ (2 ^ k + L - 1) = 2 ^ (L - 1) * 2 ^ 2 ^ k := by
              rw [hexp, pow_add]
          _ ≤ m * 2 ^ 2 ^ k := Nat.mul_le_mul_right _ h2'
          _ ≤ n := hn2

/-- The search `levels fuel n k` ends at a level that covers `n`, provided the
search bound `fuel` reaches such a level. -/
theorem levels_spec (fuel : Nat) :
    ∀ n k, n < 2 ^ 2 ^ (k + fuel) → n < 2 ^ 2 ^ levels fuel n k := by
  induction fuel with
  | zero =>
    intro n k h
    simpa [levels] using h
  | succ f ih =>
    intro n k h
    simp only [levels, Nat.pow_eq]
    cases hb : Nat.ble (2 ^ 2 ^ k) n
    · simp only [cond_false]
      apply Nat.lt_of_not_le
      intro hle
      rw [Nat.ble_eq_true_of_le hle] at hb
      exact Bool.noConfusion hb
    · simp only [cond_true]
      apply ih
      have e : k + 1 + f = k + (f + 1) := by omega
      rw [e]
      exact h

/-- The function `bitLength` is the number of binary digits. -/
theorem bitLength_spec (n : Nat) :
    n < 2 ^ bitLength n ∧ (n ≠ 0 → 2 ^ (bitLength n - 1) ≤ n) := by
  unfold bitLength
  cases hb : Nat.ble 18446744073709551616 n
  · rw [pick_false, bitLength64_eq]
    apply bitLengthAux_spec
    have hlt : n < 18446744073709551616 := by
      apply Nat.lt_of_not_le
      intro hle
      rw [Nat.ble_eq_true_of_le hle] at hb
      exact Bool.noConfusion hb
    calc n < 18446744073709551616 := hlt
      _ = 2 ^ 2 ^ 6 := by norm_num
  · rw [pick_true]
    apply bitLengthAux_spec
    apply levels_spec
    calc n < 2 ^ n := Nat.lt_two_pow n
      _ ≤ 2 ^ 2 ^ (6 + n) := by
        apply Nat.pow_le_pow_right (by norm_num)
        calc n ≤ 6 + n := Nat.le_add_left _ _
          _ ≤ 2 ^ (6 + n) := le_of_lt (Nat.lt_two_pow _)

end Float32

namespace Float32

/-- Rounding of a positive magnitude, spelled out.  With `T` the exponent of the
last place and `q` the rounded significand before the carry: `q ≤ 2^24`; above
the subnormal range `q` has 24 bits; when the last place is at or below the
exponent of `p` the value is kept exactly; otherwise `q` is a nearest
multiple, even at a tie, and is `p / 2^(T - E)` or the next number. -/
theorem roundPos_core (s p E : Nat) (hp : 0 < p) :
    ∃ q T : Nat,
      149 ≤ T ∧ q ≤ 2 ^ 24 ∧ p * 2 ^ E < 2 ^ (24 + T) ∧
      (149 < T → 2 ^ 23 ≤ q ∧ 2 ^ (23 + T) ≤ p * 2 ^ E) ∧
      roundPos s p E = finish s q T (1 - (16777216 - q)) ∧
      (T ≤ E → q * 2 ^ T = p * 2 ^ E) ∧
      (E < T →
        2 * (q * 2 ^ (T - E)) ≤ 2 * p + 2 ^ (T - E) ∧
        2 * p ≤ 2 * (q * 2 ^ (T - E)) + 2 ^ (T - E) ∧
        ((2 * (q * 2 ^ (T - E)) = 2 * p + 2 ^ (T - E) ∨
          2 * p = 2 * (q * 2 ^ (T - E)) + 2 ^ (T - E)) → q % 2 = 0) ∧
        (q = p / 2 ^ (T - E) ∨ (q = p / 2 ^ (T - E) + 1 ∧ p % 2 ^ (T - E) ≠ 0))) := by
  obtain ⟨hL1, hL2⟩ := bitLength_spec p
  have hL2 := hL2 (by omega)
  simp only [roundPos, roundAt, roundShift, Nat.add_eq, Nat.sub_eq, Nat.mul_eq, Nat.pow_eq,
    natDiv_eq, natMod_eq]
  generalize bitLength p = L at *
  have hLpos : 1 ≤ L := by
    by_contra h0
    have : L = 0 := by omega
    rw [this] at hL1
    simp at hL1
    omega
  generalize hT : 149 + (E + L - 173) = T
  have hT149 : 149 ≤ T := by omega
  have hTge : E + L ≤ T + 24 := by omega
  have hTeq : 149 < T → T + 24 = E + L := by omega
  have hPlt : p * 2 ^ E < 2 ^ (24 + T) := by
    calc p * 2 ^ E < 2 ^ L * 2 ^ E := Nat.mul_lt_mul_of_pos_right hL1 (Nat.pow_pos (by norm_num))
      _ = 2 ^ (L + E) := by rw [pow_add]
      _ ≤ 2 ^ (24 + T) := Nat.pow_le_pow_right (by norm_num) (by omega)
  by_cases hTE : T ≤ E
  · -- the last place is not above the exponent of `p`: nothing is discarded
    have e1 : T - E = 0 := by omega
    have hL24 : L + (E - T) ≤ 24 := by omega
    have hq : p * 2 ^ (E - T) < 2 ^ 24 := by
      calc p * 2 ^ (E - T) < 2 ^ L * 2 ^ (E - T) :=
            Nat.mul_lt_mul_of_pos_right hL1 (Nat.pow_pos (by norm_num))
        _ = 2 ^ (L + (E - T)) := by rw [pow_add]
        _ ≤ 2 ^ 24 := Nat.pow_le_pow_right (by norm_num) hL24
    have hval : p * 2 ^ (E - T) * 2 ^ T = p * 2 ^ E := by
      rw [mul_assoc, ← pow_add, show E - T + T = E from by omega]
    have hup : 1 - (2 ^ (T - E) + 1 - (2 * (p % 2 ^ (T - E)) +
        p * 2 ^ (E - T) / 2 ^ (T - E) % 2)) = 0 := by
      rw [e1]
      simp only [pow_zero, Nat.mod_one, Nat.div_one]
      omega
    refine ⟨p * 2 ^ (E - T), T, hT149, le_of_lt hq, hPlt, ?_, ?_, fun _ => hval,
      fun h => absurd h (by omega)⟩
    · intro h149
      have e2 : E - T = 24 - L := by have := hTeq h149; omega
      have hge : 2 ^ 23 ≤ p * 2 ^ (E - T) := by
        rw [e2]
        calc 2 ^ 23 = 2 ^ (L - 1) * 2 ^ (24 - L) := by
              rw [← pow_add, show L - 1 + (24 - L) = 23 from by omega]
          _ ≤ p * 2 ^ (24 - L) := Nat.mul_le_mul_right _ hL2
      refine ⟨hge, ?_⟩
      rw [← hval, pow_add]
      exact Nat.mul_le_mul_right _ hge
    · rw [hup]
      simp only [e1, pow_zero, Nat.div_one, Nat.add_zero]
  · -- the last place is above the exponent of `p`: round to nearest, ties to even
    have hTE : E < T := by omega
    have e1 : E - T = 0 := by omega
    have hk : T - E = (T - E - 1) + 1 := by omega
    have hwpos : 0 < 2 ^ (T - E) := Nat.pow_pos (by norm_num)
    have hw : 2 ^ (T - E) = 2 * 2 ^ (T - E - 1) := by
      conv_lhs => rw [hk, pow_succ]
      ring
    have hhpos : 0 < 2 ^ (T - E - 1) := Nat.pow_pos (by norm_num)
    have hdm := Nat.div_add_mod p (2 ^ (T - E))
    have hr : p % 2 ^ (T - E) < 2 ^ (T - E) := Nat.mod_lt _ hwpos
    have hL24 : L ≤ 24 + (T - E) := by omega
    have hq0 : p / 2 ^ (T - E) < 2 ^ 24 := by
      rw [Nat.div_lt_iff_lt_mul hwpos]
      calc p < 2 ^ L := hL1
        _ ≤ 2 ^ (24 + (T - E)) := Nat.pow_le_pow_right (by norm_num) hL24
        _ = 2 ^ 24 * 2 ^ (T - E) := by rw [pow_add]
    have h149 : 149 < T → 2 ^ 23 ≤ p / 2 ^ (T - E) ∧ 2 ^ (23 + T) ≤ p * 2 ^ E := by
      intro h149
      have e2 : T - E = L - 24 := by have := hTeq h149; omega
      have hL25 : 25 ≤ L := by have := hTeq h149; omega
      have hle : 2 ^ 23 * 2 ^ (T - E) ≤ p := by
        rw [e2]
        calc 2 ^ 23 * 2 ^ (L - 24) = 2 ^ (L - 1) := by
              rw [← pow_add, show 23 + (L - 24) = L - 1 from by omega]
          _ ≤ p := hL2
      refine ⟨(Nat.le_div_iff_mul_le hwpos).2 hle, ?_⟩
      calc 2 ^ (23 + T) = 2 ^ 23 * 2 ^ (T - E) * 2 ^ E := by
            rw [← pow_add, ← pow_add, show 23 + (T - E) + E = 23 + T from by omega]
        _ ≤ p * 2 ^ E := Nat.mul_le_mul_right _ hle
    simp only [e1, pow_zero, Nat.mul_one]
    generalize hq0def : p / 2 ^ (T - E) = q0 at *
    generalize hrdef : p % 2 ^ (T - E) = r at *
    generalize hhdef : 2 ^ (T - E - 1) = hf at *
    rw [hw] at hdm hr ⊢
    have hmul : 2 * hf * q0 = 2 * (hf * q0) := by ring
    rw [hmul] at hdm
    have e24 : (2 : Nat) ^ 24 = 16777216 := by norm_num
    have e23 : (2 : Nat) ^ 23 = 8388608 := by norm_num
    rw [e24] at hq0 ⊢
    rw [e23] at h149 ⊢
    by_cases c1 : 2 * hf + 1 ≤ 2 * r + q0 % 2
    · -- rounding up
      have hup : 1 - (2 * hf + 1 - (2 * r + q0 % 2)) = 1 := by omega
      have hA : (q0 + 1) * (2 * hf) = 2 * (hf * q0) + 2 * hf := by ring
      refine ⟨q0 + 1, T, hT149, by omega, hPlt, ?_, ?_, fun h => absurd h (by omega),
        fun _ => ?_⟩
      · intro h
        obtain ⟨h1, h2⟩ := h149 h
        exact ⟨by omega, h2⟩
      · rw [hup]
      · rw [hq0def, hrdef, hw, hA]
        refine ⟨by omega, by omega, fun _ => by omega, Or.inr ⟨rfl, by omega⟩⟩
    · -- rounding down
      have hup : 1 - (2 * hf + 1 - (2 * r + q0 % 2)) = 0 := by omega
      have hA : q0 * (2 * hf) = 2 * (hf * q0) := by ring
      refine ⟨q0, T, hT149, by omega, hPlt, h149, ?_, fun h => absurd h (by omega),
        fun _ => ?_⟩
      · rw [hup]
        simp only [Nat.add_zero]
      · rw [hq0def, hrdef, hw, hA]
        refine ⟨by omega, by omega, fun _ => by omega, Or.inl rfl⟩

end Float32

namespace Float32

theorem two_pow_split {a b : Nat} (h : a ≤ b) : 2 ^ b = 2 ^ (b - a) * 2 ^ a := by
  rw [← pow_add, Nat.sub_add_cancel h]

/-- Rounding is monotone against single-precision bounds.  The rounded
magnitude `M * 2^X` (in units of `2^(-298)`) of `p * 2^E` is not below any
24-bit bound `mb * 2^xb ≤ p * 2^E` and not above any 24-bit bound
`mb * 2^xb ≥ p * 2^E`; the result is the infinity exactly when `X ≥ 403`. -/
theorem roundPos_value (s p E : Nat) (hp : 0 < p) :
    ∃ M X : Nat,
      149 ≤ X ∧ M < 2 ^ 24 ∧ (149 < X → 2 ^ 23 ≤ M) ∧
      roundPos s p E = pick (Nat.ble 403 X) (inf s) ⟨s, M, X - 149⟩ ∧
      (∀ mb xb, mb < 2 ^ 24 → 149 ≤ xb → mb * 2 ^ xb ≤ p * 2 ^ E → mb * 2 ^ xb ≤ M * 2 ^ X) ∧
      (∀ mb xb, mb < 2 ^ 24 → 149 ≤ xb → p * 2 ^ E ≤ mb * 2 ^ xb → M * 2 ^ X ≤ mb * 2 ^ xb) ∧
      (∀ mb xb, 2 ^ 23 < mb → 149 ≤ xb → (2 * mb - 1) * 2 ^ xb < 2 * (p * 2 ^ E) →
        p * 2 ^ E < 2 ^ 24 * 2 ^ xb → mb * 2 ^ xb ≤ M * 2 ^ X) := by
  obtain ⟨q, T, hT, hq, hPlt, h149, hres, hexact, hround⟩ := roundPos_core s p E hp
  have e24 : (2 : Nat) ^ 24 = 16777216 := by norm_num
  have e23 : (2 : Nat) ^ 23 = 8388608 := by norm_num
  -- the carry
  have hcarry : ∃ M X, 149 ≤ X ∧ M < 2 ^ 24 ∧ (149 < X → 2 ^ 23 ≤ M) ∧
      finish s q T (1 - (16777216 - q)) = pick (Nat.ble 403 X) (inf s) ⟨s, M, X - 149⟩ ∧
      M * 2 ^ X = q * 2 ^ T := by
    by_cases hc : q < 16777216
    · have c0 : 1 - (16777216 - q) = 0 := by omega
      refine ⟨q, T, hT, by omega, fun h => (h149 h).1, ?_, rfl⟩
      rw [c0]
      simp only [finish, Nat.add_eq, Nat.sub_eq, Nat.pow_eq, natDiv_eq, Nat.add_zero, pow_zero,
        Nat.div_one]
    · have hq' : q = 16777216 := by omega
      have c1 : 1 - (16777216 - q) = 1 := by omega
      refine ⟨8388608, T + 1, by omega, by omega, fun _ => by omega, ?_, ?_⟩
      · rw [c1, hq']
        simp only [finish, Nat.add_eq, Nat.sub_eq, Nat.pow_eq, natDiv_eq]
      · rw [hq', pow_succ]
        ring
  obtain ⟨M, X, hX, hM, hMX, hfin, hval⟩ := hcarry
  refine ⟨M, X, hX, hM, hMX, hres.trans hfin, ?_, ?_, ?_⟩
  · -- lower bounds
    intro mb xb hmb hxb hle
    rw [hval]
    by_cases hTE : T ≤ E
    · rw [hexact hTE]
      exact hle
    · have hTE : E < T := by omega
      obtain ⟨_, _, _, hq0⟩ := hround hTE
      have hwpos : 0 < 2 ^ (T - E) := Nat.pow_pos (by norm_num)
      have hqge : p / 2 ^ (T - E) ≤ q := by
        rcases hq0 with h | ⟨h, _⟩ <;> omega
      by_cases hxT : T ≤ xb
      · -- the bound is a multiple of the last place
        have h1 : mb * 2 ^ (xb - T) * 2 ^ (T - E) * 2 ^ E ≤ p * 2 ^ E := by
          calc mb * 2 ^ (xb - T) * 2 ^ (T - E) * 2 ^ E
              = mb * (2 ^ (xb - T) * (2 ^ (T - E) * 2 ^ E)) := by ring
            _ = mb * 2 ^ xb := by
              rw [← pow_add, ← pow_add, show xb - T + (T - E + E) = xb from by omega]
            _ ≤ p * 2 ^ E := hle
        have h2 : mb * 2 ^ (xb - T) * 2 ^ (T - E) ≤ p :=
          Nat.le_of_mul_le_mul_right h1 (Nat.pow_pos (by norm_num))
        have h3 : mb * 2 ^ (xb - T) ≤ p / 2 ^ (T - E) := (Nat.le_div_iff_mul_le hwpos).2 h2
        calc mb * 2 ^ xb = mb * 2 ^ (xb - T) * 2 ^ T := by
              rw [mul_assoc, ← pow_add, show xb - T + T = xb from by omega]
          _ ≤ q * 2 ^ T := Nat.mul_le_mul_right _ (le_trans h3 hqge)
      · -- the bound is below the 24-bit range of the result
        have hxT : xb < T := by omega
        have hq23 := (h149 (by omega)).1
        calc mb * 2 ^ xb ≤ 2 ^ 24 * 2 ^ xb := Nat.mul_le_mul_right _ (le_of_lt hmb)
          _ = 2 ^ (24 + xb) := by rw [pow_add]
          _ ≤ 2 ^ (23 + T) := Nat.pow_le_pow_right (by norm_num) (by omega)
          _ = 2 ^ 23 * 2 ^ T := by rw [pow_add]
          _ ≤ q * 2 ^ T := Nat.mul_le_mul_right _ hq23
  · -- upper bounds
    intro mb xb hmb hxb hle
    rw [hval]
    by_cases hTE : T ≤ E
    · rw [hexact hTE]
      exact hle
    · have hTE : E < T := by omega
      obtain ⟨_, _, _, hq0⟩ := hround hTE
      have hwpos : 0 < 2 ^ (T - E) := Nat.pow_pos (by norm_num)
      by_cases hxT : T ≤ xb
      · have h1 : p * 2 ^ E ≤ mb * 2 ^ (xb - T) * 2 ^ (T - E) * 2 ^ E := by
          calc p * 2 ^ E ≤ mb * 2 ^ xb := hle
            _ = mb * (2 ^ (xb - T) * (2 ^ (T - E) * 2 ^ E)) := by
              rw [← pow_add, ← pow_add, show xb - T + (T - E + E) = xb from by omega]
            _ = mb * 2 ^ (xb - T) * 2 ^ (T - E) * 2 ^ E := by ring
        have h2 : p ≤ mb * 2 ^ (xb - T) * 2 ^ (T - E) :=
          Nat.le_of_mul_le_mul_right h1 (Nat.pow_pos (by norm_num))
        have hdm := Nat.div_add_mod p (2 ^ (T - E))
        have hqle : q ≤ mb * 2 ^ (xb - T) := by
          rcases hq0 with h | ⟨h, hr⟩
          · rw [h]
            exact Nat.div_le_of_le_mul (by rw [mul_comm]; exact h2)
          · rw [h]
            have hlt : p / 2 ^ (T - E) * 2 ^ (T - E) < mb * 2 ^ (xb - T) * 2 ^ (T - E) := by
              have hr' : 0 < p % 2 ^ (T - E) := Nat.pos_of_ne_zero hr
              have : 2 ^ (T - E) * (p / 2 ^ (T - E)) < p := by omega
              calc p / 2 ^ (T - E) * 2 ^ (T - E) = 2 ^ (T - E) * (p / 2 ^ (T - E)) := by ring
                _ < p := this
                _ ≤ mb * 2 ^ (xb - T) * 2 ^ (T - E) := h2
            have := Nat.lt_of_mul_lt_mul_right hlt
            omega
        calc q * 2 ^ T ≤ mb * 2 ^ (xb - T) * 2 ^ T := Nat.mul_le_mul_right _ hqle
          _ = mb * 2 ^ xb := by
            rw [mul_assoc, ← pow_add, show xb - T + T = xb from by omega]
      · have hxT : xb < T := by omega
        have hP := (h149 (by omega)).2
        exfalso
        have : mb * 2 ^ xb < 2 ^ (23 + T) := by
          calc mb * 2 ^ xb < 2 ^ 24 * 2 ^ xb :=
                Nat.mul_lt_mul_of_pos_right hmb (Nat.pow_pos (by norm_num))
            _ = 2 ^ (24 + xb) := by rw [pow_add]
            _ ≤ 2 ^ (23 + T) := Nat.pow_le_pow_right (by norm_num) (by omega)
        omega
  · -- a value above the midpoint below a bound rounds up to the bound
    intro mb xb hmb hxb hmid hPup
    rw [hval]
    have h2pos : 0 < 2 ^ xb := Nat.pow_pos (by norm_num)
    have hlow : 2 ^ (23 + xb) < p * 2 ^ E := by
      have h1 : 2 * (2 ^ 23 * 2 ^ xb) ≤ (2 * mb - 1) * 2 ^ xb := by
        rw [← mul_assoc]
        exact Nat.mul_le_mul_right _ (by omega)
      rw [pow_add]
      omega
    have hxT : xb = T := by
      have h1 : 23 + xb < 24 + T :=
        (Nat.pow_lt_pow_iff_right (by norm_num)).1 (lt_trans hlow hPlt)
      by_cases hT' : 149 < T
      · have h2 : 2 ^ (23 + T) < 2 ^ (24 + xb) := by
          calc 2 ^ (23 + T) ≤ p * 2 ^ E := (h149 hT').2
            _ < 2 ^ 24 * 2 ^ xb := hPup
            _ = 2 ^ (24 + xb) := by rw [pow_add]
        have h3 : 23 + T < 24 + xb := (Nat.pow_lt_pow_iff_right (by norm_num)).1 h2
        omega
      · omega
    subst hxT
    apply Nat.mul_le_mul_right
    by_cases hTE : xb ≤ E
    · have hex := hexact hTE
      rw [← hex] at hmid
      have h1 : (2 * mb - 1) * 2 ^ xb < 2 * q * 2 ^ xb := by rw [mul_assoc]; exact hmid
      have h2 := Nat.lt_of_mul_lt_mul_right h1
      omega
    · have hTE : E < xb := by omega
      obtain ⟨_, hhi, _, _⟩ := hround hTE
      have hsplit : 2 ^ xb = 2 ^ (xb - E) * 2 ^ E := two_pow_split (le_of_lt hTE)
      have h1 : (2 * mb - 1) * 2 ^ (xb - E) * 2 ^ E < 2 * p * 2 ^ E := by
        calc (2 * mb - 1) * 2 ^ (xb - E) * 2 ^ E = (2 * mb - 1) * 2 ^ xb := by
              rw [mul_assoc, ← hsplit]
          _ < 2 * (p * 2 ^ E) := hmid
          _ = 2 * p * 2 ^ E := by ring
      have h2 : (2 * mb - 1) * 2 ^ (xb - E) < 2 * p := Nat.lt_of_mul_lt_mul_right h1
      have h3 : (2 * mb - 1) * 2 ^ (xb - E) < (2 * q + 1) * 2 ^ (xb - E) := by
        calc (2 * mb - 1) * 2 ^ (xb - E) < 2 * p := h2
          _ ≤ 2 * (q * 2 ^ (xb - E)) + 2 ^ (xb - E) := hhi
          _ = (2 * q + 1) * 2 ^ (xb - E) := by ring
      have h4 := Nat.lt_of_mul_lt_mul_right h3
      omega

end Float32

namespace Float32

theorem round_zero (s E : Nat) : round s 0 E = ⟨s, 0, 0⟩ := rfl

theorem round_of_pos (s p E : Nat) (hp : 0 < p) : round s p E = roundPos s p E := by
  have h : Nat.beq p 0 = false := by
    cases hb : Nat.beq p 0
    · rfl
    · have := Nat.eq_of_beq_eq_true hb
      omega
  unfold round
  rw [h, pick_false]

/-- The result of `round` is the infinity of the given sign, or a finite value
of that sign with a significand below `2^24`. -/
theorem round_shape (s p E : Nat) :
    round s p E = inf s ∨
      ((round s p E).sign = s ∧ (round s p E).e ≤ 253 ∧ (round s p E).m < 2 ^ 24) := by
  rcases Nat.eq_zero_or_pos p with h0 | hp
  · right
    rw [h0, round_zero]
    exact ⟨rfl, by norm_num, by norm_num⟩
  · rw [round_of_pos s p E hp]
    obtain ⟨M, X, hX, hM, _, hres, _, _⟩ := roundPos_value s p E hp
    rw [hres]
    cases hb : Nat.ble 403 X
    · right
      have hlt : X < 403 := by
        apply Nat.lt_of_not_le
        intro hle
        rw [Nat.ble_eq_true_of_le hle] at hb
        exact Bool.noConfusion hb
      rw [pick_false]
      exact ⟨rfl, by show X - 149 ≤ 253; omega, hM⟩
    · left
      rw [pick_true]

theorem round_sign (s p E : Nat) : (round s p E).sign = s := by
  rcases round_shape s p E with h | h
  · rw [h]; rfl
  · exact h.1

theorem round_valid (s p E : Nat) (hs : s ≤ 1) : (round s p E).Valid := by
  rcases round_shape s p E with h | ⟨h1, h2, h3⟩
  · rw [h]
    exact ⟨hs, by norm_num [inf], by norm_num [inf]⟩
  · exact ⟨by rw [h1]; exact hs, h3, by omega⟩

/-- A lower bound survives rounding: when `mb * 2^xb` is a positive 24-bit
bound with `mb * 2^xb ≤ p * 2^E`, the result is the infinity or a finite value
not below the bound. -/
theorem round_lower (s p E mb xb : Nat) (hmb : mb < 2 ^ 24) (hxb : 149 ≤ xb) (hpos : 0 < mb)
    (h : mb * 2 ^ xb ≤ p * 2 ^ E) :
    round s p E = inf s ∨
      ((round s p E).sign = s ∧ (round s p E).e ≤ 253 ∧
        mb * 2 ^ xb ≤ (round s p E).m * 2 ^ ((round s p E).e + 149)) := by
  have hp : 0 < p := by
    rcases Nat.eq_zero_or_pos p with h0 | hp
    · rw [h0, Nat.zero_mul] at h
      have : 0 < mb * 2 ^ xb := Nat.mul_pos hpos (Nat.pow_pos (by norm_num))
      omega
    · exact hp
  rw [round_of_pos s p E hp]
  obtain ⟨M, X, hX, hM, _, hres, hlow, _⟩ := roundPos_value s p E hp
  rw [hres]
  cases hb : Nat.ble 403 X
  · right
    rw [pick_false]
    have hlt : X < 403 := by
      apply Nat.lt_of_not_le
      intro hle
      rw [Nat.ble_eq_true_of_le hle] at hb
      exact Bool.noConfusion hb
    refine ⟨rfl, by show X - 149 ≤ 253; omega, ?_⟩
    show mb * 2 ^ xb ≤ M * 2 ^ (X - 149 + 149)
    rw [show X - 149 + 149 = X from by omega]
    exact hlow mb xb hmb hxb h
  · left
    rw [pick_true]

/-- An upper bound survives rounding: when `mb * 2^xb` is a finite 24-bit bound
with `p * 2^E ≤ mb * 2^xb`, the result is finite and not above the bound. -/
theorem round_upper (s p E mb xb : Nat) (hmb : mb < 2 ^ 24) (hxb : 149 ≤ xb) (hxb' : xb ≤ 402)
    (h : p * 2 ^ E ≤ mb * 2 ^ xb) :
    (round s p E).sign = s ∧ (round s p E).e ≤ 253 ∧ (round s p E).m < 2 ^ 24 ∧
      (round s p E).m * 2 ^ ((round s p E).e + 149) ≤ mb * 2 ^ xb := by
  rcases Nat.eq_zero_or_pos p with h0 | hp
  · rw [h0, round_zero]
    exact ⟨rfl, by norm_num, by norm_num, by simp⟩
  · rw [round_of_pos s p E hp]
    obtain ⟨M, X, hX, hM, hM23, hres, _, hup, _⟩ := roundPos_value s p E hp
    rw [hres]
    have hUB := hup mb xb hmb hxb h
    have hlt : X < 403 := by
      by_contra hge
      have hge : 403 ≤ X := by omega
      have h1 : mb * 2 ^ xb < mb * 2 ^ xb :=
        calc mb * 2 ^ xb < 2 ^ 24 * 2 ^ xb :=
              Nat.mul_lt_mul_of_pos_right hmb (Nat.pow_pos (by norm_num))
          _ = 2 ^ (24 + xb) := by rw [pow_add]
          _ ≤ 2 ^ (23 + X) := Nat.pow_le_pow_right (by norm_num) (by omega)
          _ = 2 ^ 23 * 2 ^ X := by rw [pow_add]
          _ ≤ M * 2 ^ X := Nat.mul_le_mul_right _ (hM23 (by omega))
          _ ≤ mb * 2 ^ xb := hUB
      exact lt_irrefl _ h1
    have hb : Nat.ble 403 X = false := by
      cases hb : Nat.ble 403 X
      · rfl
      · have := Nat.le_of_ble_eq_true hb
        omega
    rw [hb, pick_false]
    refine ⟨rfl, by show X - 149 ≤ 253; omega, hM, ?_⟩
    show M * 2 ^ (X - 149 + 149) ≤ mb * 2 ^ xb
    rw [show X - 149 + 149 = X from by omega]
    exact hUB

/-- Rounding keeps a single-precision value: when `p * 2^E` is itself a finite
24-bit magnitude `mb * 2^xb`, the result is finite with exactly that magnitude. -/
theorem round_exact (s p E mb xb : Nat) (hmb : mb < 2 ^ 24) (hxb : 149 ≤ xb) (hxb' : xb ≤ 402)
    (h : p * 2 ^ E = mb * 2 ^ xb) :
    (round s p E).sign = s ∧ (round s p E).e ≤ 253 ∧ (round s p E).m < 2 ^ 24 ∧
      (round s p E).m * 2 ^ ((round s p E).e + 149) = p * 2 ^ E := by
  obtain ⟨h1, h2, h3, h4⟩ := round_upper s p E mb xb hmb hxb hxb' (le_of_eq h)
  refine ⟨h1, h2, h3, ?_⟩
  rcases Nat.eq_zero_or_pos mb with h0 | hpos
  · rw [h0, Nat.zero_mul] at h h4
    omega
  · rcases round_lower s p E mb xb hmb hxb hpos (le_of_eq h.symm) with hinf | ⟨_, _, h5⟩
    · rw [hinf] at h2
      exact absurd h2 (by norm_num [inf])
    · omega

/-- Round to nearest: a value above the midpoint below the single-precision
bound `mb * 2^xb`, in the binade of that bound, is rounded to the bound or
above. -/
theorem round_lower_mid (s p E mb xb : Nat) (hmb : 2 ^ 23 < mb) (hxb : 149 ≤ xb)
    (hmid : (2 * mb - 1) * 2 ^ xb < 2 * (p * 2 ^ E)) (hup : p * 2 ^ E < 2 ^ 24 * 2 ^ xb) :
    round s p E = inf s ∨
      ((round s p E).sign = s ∧ (round s p E).e ≤ 253 ∧
        mb * 2 ^ xb ≤ (round s p E).m * 2 ^ ((round s p E).e + 149)) := by
  have hp : 0 < p := by
    rcases Nat.eq_zero_or_pos p with h0 | hp
    · rw [h0, Nat.zero_mul] at hmid
      omega
    · exact hp
  rw [round_of_pos s p E hp]
  obtain ⟨M, X, hX, hM, _, hres, _, _, hmidv⟩ := roundPos_value s p E hp
  rw [hres]
  cases hb : Nat.ble 403 X
  · right
    rw [pick_false]
    have hlt : X < 403 := by
      apply Nat.lt_of_not_le
      intro hle
      rw [Nat.ble_eq_true_of_le hle] at hb
      exact Bool.noConfusion hb
    refine ⟨rfl, by show X - 149 ≤ 253; omega, ?_⟩
    show mb * 2 ^ xb ≤ M * 2 ^ (X - 149 + 149)
    rw [show X - 149 + 149 = X from by omega]
    exact hmidv mb xb hmb hxb hmid hup
  · left
    rw [pick_true]

end Float32

namespace Float32

/-! ### The single-precision model: the operations -/

theorem ble_false_of_lt {a b : Nat} (h : b < a) : Nat.ble a b = false := by
  cases hb : Nat.ble a b
  · rfl
  · have := Nat.le_of_ble_eq_true hb
    omega

theorem beq_false_of_ne {a b : Nat} (h : a ≠ b) : Nat.beq a b = false := by
  cases hb : Nat.beq a b
  · rfl
  · exact absurd (Nat.eq_of_beq_eq_true hb) h

theorem beq_self (a : Nat) : Nat.beq a a = true := by
  induction a with
  | zero => rfl
  | succ n ih => exact ih

theorem mul_of_finite (a b : Float32) (ha : a.e ≤ 253) (hb : b.e ≤ 253) :
    mul a b = round ((a.sign + b.sign) % 2) (a.m * b.m) (a.e + b.e) := by
  have h : Nat.ble (Nat.add a.e (Nat.sub b.e a.e)) 253 = true :=
    Nat.ble_eq_true_of_le (by show a.e + (b.e - a.e) ≤ 253; omega)
  unfold mul
  rw [h, pick_true]
  rfl

theorem add_of_finite (a b : Float32) (ha : a.e ≤ 253) (hb : b.e ≤ 253) :
    add a b = addFinite a b := by
  have h : Nat.ble (Nat.add a.e (Nat.sub b.e a.e)) 253 = true :=
    Nat.ble_eq_true_of_le (by show a.e + (b.e - a.e) ≤ 253; omega)
  unfold add
  rw [h, pick_true]

theorem mul_of_not_finite (a b : Float32) (h : 254 ≤ a.e ∨ 254 ≤ b.e) :
    mul a b = mulSpecial a b := by
  have h' : Nat.ble (Nat.add a.e (Nat.sub b.e a.e)) 253 = false :=
    ble_false_of_lt (by show 253 < a.e + (b.e - a.e); omega)
  unfold mul
  rw [h', pick_false]

theorem add_of_not_finite (a b : Float32) (h : 254 ≤ a.e ∨ 254 ≤ b.e) :
    add a b = addSpecial a b := by
  have h' : Nat.ble (Nat.add a.e (Nat.sub b.e a.e)) 253 = false :=
    ble_false_of_lt (by show 253 < a.e + (b.e - a.e); omega)
  unfold add
  rw [h', pick_false]

theorem isFinite_eq_true_iff (a : Float32) : a.isFinite = true ↔ a.e ≤ 253 := by
  unfold isFinite
  constructor
  · exact Nat.le_of_ble_eq_true
  · exact Nat.ble_eq_true_of_le

theorem isNaN_of_finite (a : Float32) (h : a.e ≤ 253) : a.isNaN = false := by
  unfold isNaN
  rw [ble_false_of_lt (by omega)]
  rfl

theorem isNaN_inf (s : Nat) : (inf s).isNaN = false := rfl

theorem isFinite_inf (s : Nat) : (inf s).isFinite = false := rfl

theorem isFinite_of_le (a : Float32) (h : a.e ≤ 253) : a.isFinite = true :=
  (isFinite_eq_true_iff a).2 h

/-- Infinity times a finite nonzero value is the infinity of the product sign. -/
theorem mul_inf_left (s : Nat) (b : Float32) (hb : b.e ≤ 253) (hm : b.m ≠ 0) :
    mul (inf s) b = inf ((s + b.sign) % 2) := by
  rw [mul_of_not_finite _ _ (Or.inl (by show 254 ≤ 254; omega))]
  unfold mulSpecial
  rw [isNaN_inf, isNaN_of_finite b hb, isFinite_inf, isFinite_of_le b hb, beq_false_of_ne hm]
  rfl

theorem mul_inf_right (a : Float32) (s : Nat) (ha : a.e ≤ 253) (hm : a.m ≠ 0) :
    mul a (inf s) = inf ((a.sign + s) % 2) := by
  rw [mul_of_not_finite _ _ (Or.inr (by show 254 ≤ 254; omega))]
  unfold mulSpecial
  rw [isNaN_inf, isNaN_of_finite a ha, isFinite_inf, isFinite_of_le a ha, beq_false_of_ne hm]
  rfl

theorem mul_inf_inf (s t : Nat) : mul (inf s) (inf t) = inf ((s + t) % 2) := by
  rw [mul_of_not_finite _ _ (Or.inl (by show 254 ≤ 254; omega))]
  unfold mulSpecial
  rw [isNaN_inf, isNaN_inf, isFinite_inf, isFinite_inf]
  rfl

/-- Infinity plus a finite value is that infinity. -/
theorem add_inf_left (s : Nat) (b : Float32) (hb : b.e ≤ 253) : add (inf s) b = inf s := by
  rw [add_of_not_finite _ _ (Or.inl (by show 254 ≤ 254; omega))]
  unfold addSpecial
  rw [isNaN_inf, isNaN_of_finite b hb, isFinite_inf, isFinite_of_le b hb]
  rfl

theorem add_inf_right (a : Float32) (s : Nat) (ha : a.e ≤ 253) : add a (inf s) = inf s := by
  rw [add_of_not_finite _ _ (Or.inr (by show 254 ≤ 254; omega))]
  unfold addSpecial
  rw [isNaN_inf, isNaN_of_finite a ha, isFinite_of_le a ha]
  rfl

/-- Lower bounds multiply: the product of two values of magnitude at least
`m1 * 2^(e1 - 149)` and `m2 * 2^(e2 - 149)` has the product sign and magnitude
at least `m1 * m2 * 2^(e1 + e2 - 298)`, when that bound is a positive
single-precision number. -/
theorem mul_atLeast {a b : Float32} {s1 m1 e1 s2 m2 e2 : Nat}
    (ha : AtLeast s1 m1 e1 a) (hb : AtLeast s2 m2 e2 b)
    (h1 : 0 < m1) (h2 : 0 < m2) (h24 : m1 * m2 < 2 ^ 24) (he : 149 ≤ e1 + e2) :
    AtLeast ((s1 + s2) % 2) (m1 * m2) (e1 + e2 - 149) (mul a b) := by
  have hnz : ∀ {x : Float32} {m e : Nat}, 0 < m → m * 2 ^ e ≤ x.m * 2 ^ x.e → x.m ≠ 0 := by
    intro x m e hm hle h0
    rw [h0, Nat.zero_mul] at hle
    have : 0 < m * 2 ^ e := Nat.mul_pos hm (Nat.pow_pos (by norm_num))
    omega
  rcases ha with ha | ⟨has, hae, hale⟩ <;> rcases hb with hb | ⟨hbs, hbe, hble⟩
  · left
    rw [ha, hb, mul_inf_inf]
  · left
    rw [ha, mul_inf_left s1 b hbe (hnz h2 hble), hbs]
  · left
    rw [hb, mul_inf_right a s2 hae (hnz h1 hale), has]
  · rw [mul_of_finite a b hae hbe, has, hbs]
    have hP : m1 * m2 * 2 ^ (e1 + e2) ≤ a.m * b.m * 2 ^ (a.e + b.e) := by
      calc m1 * m2 * 2 ^ (e1 + e2) = m1 * 2 ^ e1 * (m2 * 2 ^ e2) := by rw [pow_add]; ring
        _ ≤ a.m * 2 ^ a.e * (b.m * 2 ^ b.e) := Nat.mul_le_mul hale hble
        _ = a.m * b.m * 2 ^ (a.e + b.e) := by rw [pow_add]; ring
    rcases round_lower ((s1 + s2) % 2) (a.m * b.m) (a.e + b.e) (m1 * m2) (e1 + e2) h24 he
        (Nat.mul_pos h1 h2) hP with h | ⟨hs, hfin, hle⟩
    · left; exact h
    · right
      refine ⟨hs, hfin, ?_⟩
      have h149 : (2 : Nat) ^ (e1 + e2) = 2 ^ (e1 + e2 - 149) * 2 ^ 149 := two_pow_split he
      rw [h149, pow_add, ← mul_assoc, ← mul_assoc] at hle
      exact Nat.le_of_mul_le_mul_right hle (Nat.pow_pos (by norm_num))

end Float32

namespace Float32

/-- Alignment in `addFinite`: the significand of `a` at the smaller exponent
carries the magnitude of `a`. -/
theorem align_left (a b : Float32) :
    a.m * 2 ^ (a.e - (a.e - (a.e - b.e))) * 2 ^ (a.e - (a.e - b.e)) = a.m * 2 ^ a.e := by
  rw [mul_assoc, ← pow_add, show a.e - (a.e - (a.e - b.e)) + (a.e - (a.e - b.e)) = a.e from by omega]

theorem align_right (a b : Float32) :
    b.m * 2 ^ (b.e - (a.e - (a.e - b.e))) * 2 ^ (a.e - (a.e - b.e)) = b.m * 2 ^ b.e := by
  rw [mul_assoc, ← pow_add, show b.e - (a.e - (a.e - b.e)) + (a.e - (a.e - b.e)) = b.e from by omega]

theorem addFinite_same (a b : Float32) (h : a.sign = b.sign) :
    addFinite a b =
      round a.sign (a.m * 2 ^ (a.e - (a.e - (a.e - b.e))) + b.m * 2 ^ (b.e - (a.e - (a.e - b.e))))
        (a.e - (a.e - b.e) + 149) := by
  unfold addFinite
  simp only [Nat.add_eq, Nat.sub_eq, Nat.mul_eq, Nat.pow_eq]
  rw [h, beq_self, pick_true]

theorem addFinite_diff_ge (a b : Float32) (h : a.sign ≠ b.sign)
    (hle : b.m * 2 ^ (b.e - (a.e - (a.e - b.e))) ≤ a.m * 2 ^ (a.e - (a.e - (a.e - b.e)))) :
    addFinite a b =
      round (a.sign * (1 - (1 - (a.m * 2 ^ (a.e - (a.e - (a.e - b.e))) -
          b.m * 2 ^ (b.e - (a.e - (a.e - b.e)))))))
        (a.m * 2 ^ (a.e - (a.e - (a.e - b.e))) - b.m * 2 ^ (b.e - (a.e - (a.e - b.e))))
        (a.e - (a.e - b.e) + 149) := by
  unfold addFinite
  simp only [Nat.add_eq, Nat.sub_eq, Nat.mul_eq, Nat.pow_eq]
  rw [beq_false_of_ne h, pick_false, Nat.ble_eq_true_of_le hle, pick_true]

theorem addFinite_diff_lt (a b : Float32) (h : a.sign ≠ b.sign)
    (hlt : a.m * 2 ^ (a.e - (a.e - (a.e - b.e))) < b.m * 2 ^ (b.e - (a.e - (a.e - b.e)))) :
    addFinite a b =
      round b.sign
        (b.m * 2 ^ (b.e - (a.e - (a.e - b.e))) - a.m * 2 ^ (a.e - (a.e - (a.e - b.e))))
        (a.e - (a.e - b.e) + 149) := by
  unfold addFinite
  simp only [Nat.add_eq, Nat.sub_eq, Nat.mul_eq, Nat.pow_eq]
  rw [beq_false_of_ne h, pick_false, ble_false_of_lt hlt, pick_false]

/-- Lower bounds add: a finite non-negative value plus a value of magnitude at
least `m2 * 2^(e2 - 149)` is at least any single-precision bound below the sum
of the two. -/
theorem add_atLeast {a b : Float32} {m2 e2 mb eb : Nat}
    (hae : a.e ≤ 253) (has : a.sign = 0) (hb : AtLeast 0 m2 e2 b)
    (hmb : mb < 2 ^ 24) (hpos : 0 < mb) (h : mb * 2 ^ eb ≤ a.m * 2 ^ a.e + m2 * 2 ^ e2) :
    AtLeast 0 mb eb (add a b) := by
  rcases hb with hb | ⟨hbs, hbe, hble⟩
  · left
    rw [hb, add_inf_right a 0 hae]
  · rw [add_of_finite a b hae hbe, addFinite_same a b (by rw [has, hbs]), has]
    generalize hx : a.m * 2 ^ (a.e - (a.e - (a.e - b.e))) = x
    generalize hy : b.m * 2 ^ (b.e - (a.e - (a.e - b.e))) = y
    have hxe := align_left a b
    have hye := align_right a b
    rw [hx] at hxe
    rw [hy] at hye
    generalize a.e - (a.e - b.e) = e at *
    have hP : mb * 2 ^ (eb + 149) ≤ (x + y) * 2 ^ (e + 149) := by
      calc mb * 2 ^ (eb + 149) = mb * 2 ^ eb * 2 ^ 149 := by rw [pow_add]; ring
        _ ≤ (a.m * 2 ^ a.e + b.m * 2 ^ b.e) * 2 ^ 149 :=
            Nat.mul_le_mul_right _ (le_trans h (Nat.add_le_add_left hble _))
        _ = (x + y) * 2 ^ (e + 149) := by rw [← hxe, ← hye, pow_add]; ring
    rcases round_lower 0 (x + y) (e + 149) mb (eb + 149) hmb (by omega) hpos hP with
      h | ⟨hs, hfin, hle⟩
    · left; exact h
    · right
      refine ⟨hs, hfin, ?_⟩
      rw [pow_add, pow_add, ← mul_assoc, ← mul_assoc] at hle
      exact Nat.le_of_mul_le_mul_right hle (Nat.pow_pos (by norm_num))

/-- Round to nearest in a sum: a finite non-negative value plus a value of
magnitude at least `m2 * 2^(e2 - 149)` is at least the single-precision bound
`mb * 2^(eb - 149)` as soon as the sum of the two is above the midpoint below
that bound. -/
theorem add_atLeast_mid {a b : Float32} {m2 e2 mb eb : Nat}
    (hae : a.e ≤ 253) (has : a.sign = 0) (hb : AtLeast 0 m2 e2 b)
    (hmb : 2 ^ 23 < mb) (hmb' : mb < 2 ^ 24)
    (h : (2 * mb - 1) * 2 ^ eb < 2 * (a.m * 2 ^ a.e + m2 * 2 ^ e2)) :
    AtLeast 0 mb eb (add a b) := by
  rcases hb with hb | ⟨hbs, hbe, hble⟩
  · left
    rw [hb, add_inf_right a 0 hae]
  · by_cases hbig : mb * 2 ^ eb ≤ a.m * 2 ^ a.e + b.m * 2 ^ b.e
    · have hb' : AtLeast 0 b.m b.e b := Or.inr ⟨hbs, hbe, le_refl _⟩
      exact add_atLeast hae has hb' hmb' (by omega) hbig
    · rw [add_of_finite a b hae hbe, addFinite_same a b (by rw [has, hbs]), has]
      generalize hx : a.m * 2 ^ (a.e - (a.e - (a.e - b.e))) = x
      generalize hy : b.m * 2 ^ (b.e - (a.e - (a.e - b.e))) = y
      have hxe := align_left a b
      have hye := align_right a b
      rw [hx] at hxe
      rw [hy] at hye
      generalize a.e - (a.e - b.e) = e at *
      have hS : (x + y) * 2 ^ (e + 149) = (a.m * 2 ^ a.e + b.m * 2 ^ b.e) * 2 ^ 149 := by
        rw [← hxe, ← hye, pow_add]; ring
      have h149 : 0 < 2 ^ 149 := Nat.pow_pos (by norm_num)
      have hmid : (2 * mb - 1) * 2 ^ (eb + 149) < 2 * ((x + y) * 2 ^ (e + 149)) := by
        rw [hS]
        calc (2 * mb - 1) * 2 ^ (eb + 149) = (2 * mb - 1) * 2 ^ eb * 2 ^ 149 := by
              rw [pow_add]; ring
          _ < 2 * (a.m * 2 ^ a.e + b.m * 2 ^ b.e) * 2 ^ 149 :=
              Nat.mul_lt_mul_of_pos_right (by omega) h149
          _ = 2 * ((a.m * 2 ^ a.e + b.m * 2 ^ b.e) * 2 ^ 149) := by ring
      have hup : (x + y) * 2 ^ (e + 149) < 2 ^ 24 * 2 ^ (eb + 149) := by
        rw [hS]
        calc (a.m * 2 ^ a.e + b.m * 2 ^ b.e) * 2 ^ 149 < mb * 2 ^ eb * 2 ^ 149 :=
              Nat.mul_lt_mul_of_pos_right (by omega) h149
          _ ≤ 2 ^ 24 * 2 ^ eb * 2 ^ 149 :=
              Nat.mul_le_mul_right _ (Nat.mul_le_mul_right _ (le_of_lt hmb'))
          _ = 2 ^ 24 * 2 ^ (eb + 149) := by rw [pow_add]; ring
      rcases round_lower_mid 0 (x + y) (e + 149) mb (eb + 149) hmb (by omega) hmid hup with
        h | ⟨hs, hfin, hle⟩
      · left; exact h
      · right
        refine ⟨hs, hfin, ?_⟩
        rw [pow_add, pow_add, ← mul_assoc, ← mul_assoc] at hle
        exact Nat.le_of_mul_le_mul_right hle h149

/-- Lower bounds subtract: a value of magnitude at least `m1 * 2^(e1 - 149)`
minus a finite non-negative value is at least any positive single-precision
bound that, added to the subtrahend, stays below `m1 * 2^(e1 - 149)`. -/
theorem sub_atLeast {a b : Float32} {m1 e1 mb eb : Nat}
    (ha : AtLeast 0 m1 e1 a) (hbe : b.e ≤ 253) (hbs : b.sign = 0)
    (hmb : mb < 2 ^ 24) (hpos : 0 < mb) (h : b.m * 2 ^ b.e + mb * 2 ^ eb ≤ m1 * 2 ^ e1) :
    AtLeast 0 mb eb (sub a b) := by
  have hne : (neg b).e ≤ 253 := hbe
  rcases ha with ha | ⟨has, hae, hale⟩
  · left
    unfold sub
    rw [ha, add_inf_left 0 (neg b) hne]
  · unfold sub
    have hsign : a.sign ≠ (neg b).sign := by
      rw [has]
      show 0 ≠ 1 - b.sign
      omega
    have hxe := align_left a b
    have hye := align_right a b
    have hnm : (neg b).m = b.m := rfl
    have hnee : (neg b).e = b.e := rfl
    have hposB : 0 < mb * 2 ^ eb := Nat.mul_pos hpos (Nat.pow_pos (by norm_num))
    have hlt : b.m * 2 ^ (b.e - (a.e - (a.e - b.e))) <
        a.m * 2 ^ (a.e - (a.e - (a.e - b.e))) := by
      apply Nat.lt_of_mul_lt_mul_right (a := 2 ^ (a.e - (a.e - b.e)))
      rw [hxe, hye]
      omega
    rw [add_of_finite a (neg b) hae hne,
      addFinite_diff_ge a (neg b) hsign (by rw [hnm, hnee]; exact le_of_lt hlt), has,
      Nat.zero_mul, hnm, hnee]
    generalize hx : a.m * 2 ^ (a.e - (a.e - (a.e - b.e))) = x at *
    generalize hy : b.m * 2 ^ (b.e - (a.e - (a.e - b.e))) = y at *
    generalize a.e - (a.e - b.e) = e at *
    have hP : mb * 2 ^ (eb + 149) ≤ (x - y) * 2 ^ (e + 149) := by
      have hxy : (x - y) * 2 ^ e = a.m * 2 ^ a.e - b.m * 2 ^ b.e := by
        rw [Nat.sub_mul, hxe, hye]
      calc mb * 2 ^ (eb + 149) = mb * 2 ^ eb * 2 ^ 149 := by rw [pow_add]; ring
        _ ≤ (a.m * 2 ^ a.e - b.m * 2 ^ b.e) * 2 ^ 149 := Nat.mul_le_mul_right _ (by omega)
        _ = (x - y) * 2 ^ (e + 149) := by rw [← hxy, pow_add]; ring
    rcases round_lower 0 (x - y) (e + 149) mb (eb + 149) hmb (by omega) hpos hP with
      h | ⟨hs, hfin, hle⟩
    · left; exact h
    · right
      refine ⟨hs, hfin, ?_⟩
      rw [pow_add, pow_add, ← mul_assoc, ← mul_assoc] at hle
      exact Nat.le_of_mul_le_mul_right hle (Nat.pow_pos (by norm_num))

/-- A finite non-negative value plus a negative value of magnitude at least
`mb * 2^(eb - 149)` is negative, or non-negative and at most any
single-precision bound that, with the magnitude added, reaches the first
summand. -/
theorem add_neg_upper {a b : Float32} {mb eb : Nat} (mu eu : Nat)
    (hae : a.e ≤ 253) (has : a.sign = 0) (hb : AtLeast 1 mb eb b)
    (hmu : mu < 2 ^ 24) (heu : eu ≤ 253) (h : a.m * 2 ^ a.e ≤ mu * 2 ^ eu + mb * 2 ^ eb) :
    add a b = inf 1 ∨
      ((add a b).e ≤ 253 ∧ ((add a b).sign = 1 ∨
        ((add a b).sign = 0 ∧ (add a b).m * 2 ^ (add a b).e ≤ mu * 2 ^ eu))) := by
  rcases hb with hb | ⟨hbs, hbe, hble⟩
  · left
    rw [hb, add_inf_right a 1 hae]
  · have hsign : a.sign ≠ b.sign := by rw [has, hbs]; omega
    have hxe := align_left a b
    have hye := align_right a b
    rw [add_of_finite a b hae hbe]
    by_cases hxy : b.m * 2 ^ (b.e - (a.e - (a.e - b.e))) ≤ a.m * 2 ^ (a.e - (a.e - (a.e - b.e)))
    · rw [addFinite_diff_ge a b hsign hxy, has, Nat.zero_mul]
      generalize hx : a.m * 2 ^ (a.e - (a.e - (a.e - b.e))) = x at *
      generalize hy : b.m * 2 ^ (b.e - (a.e - (a.e - b.e))) = y at *
      generalize a.e - (a.e - b.e) = e at *
      have hP : (x - y) * 2 ^ (e + 149) ≤ mu * 2 ^ (eu + 149) := by
        have hxy' : (x - y) * 2 ^ e = a.m * 2 ^ a.e - b.m * 2 ^ b.e := by
          rw [Nat.sub_mul, hxe, hye]
        calc (x - y) * 2 ^ (e + 149) = (a.m * 2 ^ a.e - b.m * 2 ^ b.e) * 2 ^ 149 := by
              rw [← hxy', pow_add]; ring
          _ ≤ mu * 2 ^ eu * 2 ^ 149 := Nat.mul_le_mul_right _ (by omega)
          _ = mu * 2 ^ (eu + 149) := by rw [pow_add]; ring
      obtain ⟨hs, hfin, _, hle⟩ :=
        round_upper 0 (x - y) (e + 149) mu (eu + 149) hmu (by omega) (by omega) hP
      right
      refine ⟨hfin, Or.inr ⟨hs, ?_⟩⟩
      rw [pow_add, pow_add, ← mul_assoc, ← mul_assoc] at hle
      exact Nat.le_of_mul_le_mul_right hle (Nat.pow_pos (by norm_num))
    · rw [addFinite_diff_lt a b hsign (by omega), hbs]
      rcases round_shape 1 (b.m * 2 ^ (b.e - (a.e - (a.e - b.e))) -
          a.m * 2 ^ (a.e - (a.e - (a.e - b.e)))) (a.e - (a.e - b.e) + 149) with h | ⟨h1, h2, _⟩
      · left; exact h
      · right
        exact ⟨h2, Or.inl h1⟩

end Float32

namespace Float32

/-! ### The single-precision model: values and comparison -/

theorem toRat_of_finite (a : Float32) (h : a.e ≤ 253) :
    a.toRat = (if a.sign = 0 then 1 else -1) * ((a.m * 2 ^ a.e : Nat) : ℚ) / 2 ^ 149 := by
  unfold toRat
  rw [if_pos h]
  push_cast
  ring

/-- A finite value whose rational value is at least a positive bound is
non-negative with at least that magnitude. -/
theorem atLeast_of_toRat (a : Float32) (mb eb : Nat) (hfin : a.isFinite = true) (hpos : 0 < mb)
    (h : ((mb * 2 ^ eb : Nat) : ℚ) / 2 ^ 149 ≤ a.toRat) : AtLeast 0 mb eb a := by
  have hae : a.e ≤ 253 := (isFinite_eq_true_iff a).1 hfin
  rw [toRat_of_finite a hae] at h
  have hB : (0 : ℚ) < ((mb * 2 ^ eb : Nat) : ℚ) / 2 ^ 149 := by
    apply div_pos
    · exact_mod_cast Nat.mul_pos hpos (Nat.pow_pos (by norm_num))
    · positivity
  have hden : (0 : ℚ) < 2 ^ 149 := by positivity
  by_cases hs : a.sign = 0
  · right
    refine ⟨hs, hae, ?_⟩
    rw [if_pos hs, one_mul, div_le_div_iff_of_pos_right hden] at h
    exact_mod_cast h
  · exfalso
    rw [if_neg hs] at h
    have hnonneg : (0 : ℚ) ≤ ((a.m * 2 ^ a.e : Nat) : ℚ) / 2 ^ 149 :=
      div_nonneg (Nat.cast_nonneg _) (le_of_lt hden)
    have : (-1 : ℚ) * ((a.m * 2 ^ a.e : Nat) : ℚ) / 2 ^ 149 ≤ 0 := by
      rw [neg_one_mul, neg_div]
      linarith
    linarith

/-- A finite non-negative value is below every value of larger magnitude
bound, the positive infinity included. -/
theorem lt_of_atLeast {a r : Float32} {mb eb : Nat} (hae : a.e ≤ 253) (has : a.sign = 0)
    (hr : AtLeast 0 mb eb r) (h : a.m * 2 ^ a.e < mb * 2 ^ eb) : lt a r = true := by
  rcases hr with hr | ⟨hrs, hre, hrle⟩
  · rw [hr]
    unfold lt
    rw [isNaN_of_finite a hae, isNaN_inf, isFinite_of_le a hae, isFinite_inf]
    simp only [Bool.not_false, Bool.true_and, cond_true, cond_false]
    rfl
  · unfold lt
    rw [isNaN_of_finite a hae, isNaN_of_finite r hre, isFinite_of_le a hae, isFinite_of_le r hre,
      toRat_of_finite a hae, toRat_of_finite r hre, if_pos has, if_pos hrs]
    have hden : (0 : ℚ) < 2 ^ 149 := by positivity
    have hlt : ((a.m * 2 ^ a.e : Nat) : ℚ) < ((r.m * 2 ^ r.e : Nat) : ℚ) := by
      exact_mod_cast lt_of_lt_of_le h hrle
    have : (1 : ℚ) * ((a.m * 2 ^ a.e : Nat) : ℚ) / 2 ^ 149 <
        1 * ((r.m * 2 ^ r.e : Nat) : ℚ) / 2 ^ 149 := by
      rw [one_mul, one_mul]
      exact div_lt_div_of_pos_right hlt hden
    simp only [Bool.not_false, Bool.true_and, cond_true, decide_eq_true_eq]
    exact this

/-- The negative infinity, every finite negative value and every finite
non-negative value of smaller magnitude is below a finite positive value. -/
theorem lt_of_neg_or_below {r b : Float32} {mu eu : Nat} (hbe : b.e ≤ 253) (hbs : b.sign = 0)
    (hr : r = inf 1 ∨ (r.e ≤ 253 ∧ (r.sign = 1 ∨ (r.sign = 0 ∧ r.m * 2 ^ r.e ≤ mu * 2 ^ eu))))
    (h : mu * 2 ^ eu < b.m * 2 ^ b.e) : lt r b = true := by
  have hden : (0 : ℚ) < 2 ^ 149 := by positivity
  have hbpos : (0 : ℚ) < ((b.m * 2 ^ b.e : Nat) : ℚ) := by
    exact_mod_cast lt_of_le_of_lt (Nat.zero_le _) h
  rcases hr with hr | ⟨hre, hr⟩
  · rw [hr]
    unfold lt
    rw [isNaN_of_finite b hbe, isNaN_inf, isFinite_of_le b hbe, isFinite_inf]
    simp only [Bool.not_false, Bool.true_and, cond_false, Bool.true_or, Bool.and_true]
    rfl
  · unfold lt
    rw [isNaN_of_finite r hre, isNaN_of_finite b hbe, isFinite_of_le r hre, isFinite_of_le b hbe,
      toRat_of_finite r hre, toRat_of_finite b hbe, if_pos hbs]
    rcases hr with hrs | ⟨hrs, hrle⟩
    · rw [if_neg (by omega)]
      have h1 : (-1 : ℚ) * ((r.m * 2 ^ r.e : Nat) : ℚ) / 2 ^ 149 ≤ 0 := by
        have : (0 : ℚ) ≤ ((r.m * 2 ^ r.e : Nat) : ℚ) / 2 ^ 149 :=
          div_nonneg (Nat.cast_nonneg _) (le_of_lt hden)
        rw [neg_one_mul, neg_div]
        linarith
      have h2 : (0 : ℚ) < 1 * ((b.m * 2 ^ b.e : Nat) : ℚ) / 2 ^ 149 := by
        rw [one_mul]
        exact div_pos hbpos hden
      have : (-1 : ℚ) * ((r.m * 2 ^ r.e : Nat) : ℚ) / 2 ^ 149 <
          1 * ((b.m * 2 ^ b.e : Nat) : ℚ) / 2 ^ 149 := lt_of_le_of_lt h1 h2
      simp only [Bool.not_false, Bool.true_and, cond_true, decide_eq_true_eq]
      exact this
    · rw [if_pos hrs]
      have hlt : ((r.m * 2 ^ r.e : Nat) : ℚ) < ((b.m * 2 ^ b.e : Nat) : ℚ) := by
        exact_mod_cast lt_of_le_of_lt hrle h
      have : (1 : ℚ) * ((r.m * 2 ^ r.e : Nat) : ℚ) / 2 ^ 149 <
          1 * ((b.m * 2 ^ b.e : Nat) : ℚ) / 2 ^ 149 := by
        rw [one_mul, one_mul]
        exact div_lt_div_of_pos_right hlt hden
      simp only [Bool.not_false, Bool.true_and, cond_true, decide_eq_true_eq]
      exact this

/-- A finite non-negative value is at most every value of at least its
magnitude, the positive infinity included. -/
theorem le_of_atLeast {a r : Float32} {mb eb : Nat} (hae : a.e ≤ 253) (has : a.sign = 0)
    (hr : AtLeast 0 mb eb r) (h : a.m * 2 ^ a.e ≤ mb * 2 ^ eb) : le a r = true := by
  rcases hr with hr | ⟨hrs, hre, hrle⟩
  · rw [hr]
    unfold le
    rw [isNaN_of_finite a hae, isNaN_inf, isFinite_of_le a hae, isFinite_inf]
    simp only [Bool.not_false, Bool.true_and, cond_true, cond_false]
    rfl
  · unfold le
    rw [isNaN_of_finite a hae, isNaN_of_finite r hre, isFinite_of_le a hae, isFinite_of_le r hre,
      toRat_of_finite a hae, toRat_of_finite r hre, if_pos has, if_pos hrs]
    have hden : (0 : ℚ) < 2 ^ 149 := by positivity
    have hle : ((a.m * 2 ^ a.e : Nat) : ℚ) ≤ ((r.m * 2 ^ r.e : Nat) : ℚ) := by
      exact_mod_cast le_trans h hrle
    have : (1 : ℚ) * ((a.m * 2 ^ a.e : Nat) : ℚ) / 2 ^ 149 ≤
        1 * ((r.m * 2 ^ r.e : Nat) : ℚ) / 2 ^ 149 := by
      rw [one_mul, one_mul]
      exact div_le_div_of_nonneg_right hle (le_of_lt hden)
    simp only [Bool.not_false, Bool.true_and, cond_true, decide_eq_true_eq]
    exact this

/-- A single-precision value that a finite positive value is at most, in the
comparison of the format, is non-negative with at least that magnitude: it is
finite and at least as large, or the positive infinity. -/
theorem atLeast_of_le {a b : Float32} (mb eb : Nat) (hae : a.e ≤ 253) (has : a.sign = 0)
    (hpos : 0 < mb) (h : mb * 2 ^ eb ≤ a.m * 2 ^ a.e) (hb : b.Valid) (hle : le a b = true) :
    AtLeast 0 mb eb b := by
  unfold le at hle
  rw [isNaN_of_finite a hae, isFinite_of_le a hae] at hle
  simp only [Bool.not_false, Bool.true_and, cond_true, Bool.and_eq_true,
    Bool.not_eq_true'] at hle
  obtain ⟨hnan, hcmp⟩ := hle
  by_cases hbe : b.e ≤ 253
  · rw [isFinite_of_le b hbe] at hcmp
    simp only [cond_true, decide_eq_true_eq] at hcmp
    apply atLeast_of_toRat b mb eb (isFinite_of_le b hbe) hpos
    refine le_trans ?_ hcmp
    rw [toRat_of_finite a hae, if_pos has, one_mul]
    have hden : (0 : ℚ) < 2 ^ 149 := by positivity
    apply div_le_div_of_nonneg_right _ (le_of_lt hden)
    exact_mod_cast h
  · have hfin : b.isFinite = false := by
      unfold isFinite
      exact ble_false_of_lt (by omega)
    rw [hfin] at hcmp
    simp only [cond_false] at hcmp
    have hs : b.sign = 0 := Nat.eq_of_beq_eq_true hcmp
    have he : b.e = 254 := by
      have := hb.2.2
      omega
    have hm : b.m = 0 := by
      unfold isNaN at hnan
      rw [Nat.ble_eq_true_of_le (by omega)] at hnan
      simp only [Bool.true_and, Bool.not_eq_false'] at hnan
      exact Nat.eq_of_beq_eq_true hnan
    left
    cases b with
    | mk s m e =>
      simp only at hs he hm
      rw [hs, he, hm]
      rfl

end Float32

/-! ### The parameter ranges in single precision -/

theorem float32_toRat_mk (s m e : Nat) (h : e ≤ 253) :
    (⟨s, m, e⟩ : Float32).toRat = (if s = 0 then 1 else -1) * m * 2 ^ e / 2 ^ 149 := by
  unfold Float32.toRat
  rw [if_pos h]

/-- The sixteen range constants, evaluated. -/
theorem float32_range_constants_eval :
    (StrangeAttractors32.LORENZ_SIGMA_PARAM_MIN = ⟨0, 12582912, 127⟩ ∧
      StrangeAttractors32.LORENZ_SIGMA_PARAM_MAX = ⟨0, 15728640, 130⟩ ∧
      StrangeAttractors32.LORENZ_BETA_PARAM_MIN = ⟨0, 8388608, 125⟩ ∧
      StrangeAttractors32.LORENZ_BETA_PARAM_MAX = ⟨0, 12582912, 127⟩ ∧
      StrangeAttractors32.LORENZ_RHO_PARAM_MIN = ⟨0, 13631488, 129⟩ ∧
      StrangeAttractors32.LORENZ_RHO_PARAM_MAX = ⟨0, 10485760, 132⟩ ∧
      StrangeAttractors32.LORENZ_PITCH_PARAM_MIN = ⟨0, 8589935, 116⟩ ∧
      StrangeAttractors32.LORENZ_PITCH_PARAM_MAX = ⟨0, 8388608, 126⟩) ∧
    (StrangeAttractors32.ROSSLER_A_PARAM_MIN = ⟨0, 0, 0⟩ ∧
      StrangeAttractors32.ROSSLER_A_PARAM_MAX = ⟨0, 13421773, 123⟩ ∧
      StrangeAttractors32.ROSSLER_B_PARAM_MIN = ⟨0, 13421773, 122⟩ ∧
      StrangeAttractors32.ROSSLER_B_PARAM_MAX = ⟨0, 8388608, 126⟩ ∧
      StrangeAttractors32.ROSSLER_C_PARAM_MIN = ⟨0, 12582912, 127⟩ ∧
      StrangeAttractors32.ROSSLER_C_PARAM_MAX = ⟨0, 12582912, 129⟩ ∧
      StrangeAttractors32.ROSSLER_PITCH_PARAM_MIN = ⟨0, 8589935, 116⟩ ∧
      StrangeAttractors32.ROSSLER_PITCH_PARAM_MAX = ⟨0, 8388608, 126⟩) := by
  decide!

/-- The values of the sixteen range constants: the integers and `0.5f` are
exact, `0.001f`, `0.2f` and `0.1f` are the nearest single-precision values to
`1/1000`, `1/5` and `1/10`. -/
theorem float32_range_constants :
    (StrangeAttractors32.LORENZ_SIGMA_PARAM_MIN.toRat = 3 ∧
      StrangeAttractors32.LORENZ_SIGMA_PARAM_MAX.toRat = 30 ∧
      StrangeAttractors32.LORENZ_BETA_PARAM_MIN.toRat = 1 / 2 ∧
      StrangeAttractors32.LORENZ_BETA_PARAM_MAX.toRat = 3 ∧
      StrangeAttractors32.LORENZ_RHO_PARAM_MIN.toRat = 13 ∧
      StrangeAttractors32.LORENZ_RHO_PARAM_MAX.toRat = 80 ∧
      StrangeAttractors32.LORENZ_PITCH_PARAM_MIN.toRat = 8589935 / 2 ^ 33 ∧
      StrangeAttractors32.LORENZ_PITCH_PARAM_MAX.toRat = 1) ∧
    (StrangeAttractors32.ROSSLER_A_PARAM_MIN.toRat = 0 ∧
      StrangeAttractors32.ROSSLER_A_PARAM_MAX.toRat = 13421773 / 2 ^ 26 ∧
      StrangeAttractors32.ROSSLER_B_PARAM_MIN.toRat = 13421773 / 2 ^ 27 ∧
      StrangeAttractors32.ROSSLER_B_PARAM_MAX.toRat = 1 ∧
      StrangeAttractors32.ROSSLER_C_PARAM_MIN.toRat = 3 ∧
      StrangeAttractors32.ROSSLER_C_PARAM_MAX.toRat = 12 ∧
      StrangeAttractors32.ROSSLER_PITCH_PARAM_MIN.toRat = 8589935 / 2 ^ 33 ∧
      StrangeAttractors32.ROSSLER_PITCH_PARAM_MAX.toRat = 1) ∧
    (|(8589935 / 2 ^ 33 : ℚ) - 1 / 1000| ≤ 1 / 2 ^ 34 ∧
      |(13421773 / 2 ^ 26 : ℚ) - 1 / 5| ≤ 1 / 2 ^ 27 ∧
      |(13421773 / 2 ^ 27 : ℚ) - 1 / 10| ≤ 1 / 2 ^ 28) := by
  obtain ⟨⟨l1, l2, l3, l4, l5, l6, l7, l8⟩, ⟨r1, r2, r3, r4, r5, r6, r7, r8⟩⟩ :=
    float32_range_constants_eval
  rw [l1, l2, l3, l4, l5, l6, l7, l8, r1, r2, r3, r4, r5, r6, r7, r8]
  refine ⟨⟨?_, ?_, ?_, ?_, ?_, ?_, ?_, ?_⟩, ⟨?_, ?_, ?_, ?_, ?_, ?_, ?_, ?_⟩, ?_, ?_, ?_⟩
  all_goals first
    | (rw [float32_toRat_mk _ _ _ (by norm_num)]; norm_num)
    | (rw [abs_le]; constructor <;> norm_num)

/-- What the Lorenz ranges give a proof: `rho ≥ 13` and `pitch ≥ 2^(-10)`. -/
theorem lorenz32_range_bounds (l : LorenzAttractor32) (hl : l.ParamsInRange) :
    (l.rho.isFinite = true ∧ 13 ≤ l.rho.toRat) ∧
    (l.pitch.isFinite = true ∧ 1 / 2 ^ 10 ≤ l.pitch.toRat) := by
  obtain ⟨_, _, ⟨hrf, _, hr, _⟩, ⟨hpf, _, hp, _⟩⟩ := hl
  rw [float32_range_constants.1.2.2.2.2.1] at hr
  rw [float32_range_constants.1.2.2.2.2.2.2.1] at hp
  exact ⟨⟨hrf, hr⟩, ⟨hpf, le_trans (by norm_num) hp⟩⟩

/-- What the Rössler ranges give a proof: `pitch ≥ 2^(-10)`. -/
theorem rossler32_range_bounds (r : RosslerAttractor32) (hr : r.ParamsInRange) :
    r.pitch.isFinite = true ∧ 1 / 2 ^ 10 ≤ r.pitch.toRat := by
  obtain ⟨_, _, _, ⟨hpf, _, hp, _⟩⟩ := hr
  rw [float32_range_constants.2.1.2.2.2.2.2.2.1] at hp
  exact ⟨hpf, le_trans (by norm_num) hp⟩

/-! ### Evaluations of the single-precision model -/

theorem float32_ofNat_one : Float32.ofNat 1 = ⟨0, 8388608, 126⟩ := by decide!

theorem float32_ofNat_375 : Float32.ofNat 375 = ⟨0, 12288000, 134⟩ := by decide!

theorem float32_ofNat_2910 : Float32.ofNat 2910 = ⟨0, 11919360, 137⟩ := by decide!

theorem rossler32_process_x (r : RosslerAttractor32) (dt : Float32) :
    (r.process dt).x = Float32.add r.x (Float32.mul (Float32.mul (Float32.mul
      (Float32.sub (Float32.neg r.y) r.z) dt) r.pitch) (Float32.ofNat 2910)) := rfl

theorem lorenz32_process_y_dy (l : LorenzAttractor32) (dt : Float32) :
    (l.process dt).y = Float32.add l.y (Float32.mul (Float32.mul (Float32.mul l.dy dt) l.pitch)
      (Float32.ofNat 375)) := rfl

theorem lorenz32_dy_eq (l : LorenzAttractor32) :
    l.dy = Float32.sub (Float32.mul l.x (Float32.sub l.rho l.z)) l.y := rfl

theorem lorenz32_process_fields (l : LorenzAttractor32) (dt : Float32) :
    (l.process dt).x = Float32.add l.x
      (Float32.mul (Float32.mul (Float32.mul l.dx dt) l.pitch) (Float32.ofNat 375)) ∧
    (l.process dt).y = Float32.add l.y
      (Float32.mul (Float32.mul (Float32.mul l.dy dt) l.pitch) (Float32.ofNat 375)) ∧
    (l.process dt).z = Float32.add l.z
      (Float32.mul (Float32.mul (Float32.mul l.dz dt) l.pitch) (Float32.ofNat 375)) :=
  ⟨rfl, rfl, rfl⟩

theorem rossler32_process_fields (r : RosslerAttractor32) (dt : Float32) :
    (r.process dt).x = Float32.add r.x
      (Float32.mul (Float32.mul (Float32.mul r.dx dt) r.pitch) (Float32.ofNat 2910)) ∧
    (r.process dt).y = Float32.add r.y
      (Float32.mul (Float32.mul (Float32.mul r.dy dt) r.pitch) (Float32.ofNat 2910)) ∧
    (r.process dt).z = Float32.add r.z
      (Float32.mul (Float32.mul (Float32.mul r.dz dt) r.pitch) (Float32.ofNat 2910)) :=
  ⟨rfl, rfl, rfl⟩

/-- The comparison `<` is irreflexive. -/
theorem float32_lt_irrefl (a : Float32) : Float32.lt a a = false := by
  unfold Float32.lt
  cases h1 : a.isNaN
  · cases h2 : a.isFinite
    · cases h3 : Nat.beq a.sign 0 <;> simp
    · simp
  · simp

theorem lorenz32_ctor_eval :
    LorenzAttractor32.ctor =
      { sigma := ⟨0, 10485760, 129⟩, beta := ⟨0, 11184811, 127⟩, rho := ⟨0, 14680064, 130⟩,
        pitch := ⟨0, 8388608, 125⟩,
        x := ⟨0, 8388608, 126⟩, y := ⟨0, 8388608, 126⟩, z := ⟨0, 8388608, 126⟩ } := by
  decide!

theorem rossler32_ctor_eval :
    RosslerAttractor32.ctor =
      { a := ⟨0, 13421773, 123⟩, b := ⟨0, 13421773, 123⟩, c := ⟨0, 11953766, 128⟩,
        pitch := ⟨0, 8388608, 125⟩,
        x := ⟨0, 8388608, 126⟩, y := ⟨0, 8388608, 126⟩, z := ⟨0, 8388608, 126⟩ } := by
  decide!

/-- A finite value given by its fields lies in a range when its rational value
lies between the rational values of the bounds. -/
theorem float32_inRange_mk (s m e : Nat) (lo hi : Float32) (ql qh : ℚ)
    (hlo : lo.toRat = ql) (hhi : hi.toRat = qh) (hs : s ≤ 1) (hm : m < 2 ^ 24) (he : e ≤ 253)
    (h1 : ql ≤ (if s = 0 then 1 else -1) * m * 2 ^ e / 2 ^ 149)
    (h2 : (if s = 0 then 1 else -1) * m * 2 ^ e / 2 ^ 149 ≤ qh) :
    Float32.InRange ⟨s, m, e⟩ lo hi := by
  refine ⟨(Float32.isFinite_eq_true_iff _).2 he, ⟨hs, hm, by show e ≤ 254; omega⟩, ?_, ?_⟩
  · rw [hlo, float32_toRat_mk _ _ _ he]; exact h1
  · rw [hhi, float32_toRat_mk _ _ _ he]; exact h2

/-- The default parameters of both constructors are single-precision values
inside the valid ranges. -/
theorem ctor32_paramsInRange :
    LorenzAttractor32.ctor.ParamsInRange ∧ RosslerAttractor32.ctor.ParamsInRange := by
  obtain ⟨⟨l1, l2, l3, l4, l5, l6, l7, l8⟩, ⟨r1, r2, r3, r4, r5, r6, r7, r8⟩, _⟩ :=
    float32_range_constants
  rw [lorenz32_ctor_eval, rossler32_ctor_eval]
  exact ⟨⟨float32_inRange_mk _ _ _ _ _ _ _ l1 l2 (by norm_num) (by norm_num) (by norm_num)
        (by norm_num) (by norm_num),
      float32_inRange_mk _ _ _ _ _ _ _ l3 l4 (by norm_num) (by norm_num) (by norm_num)
        (by norm_num) (by norm_num),
      float32_inRange_mk _ _ _ _ _ _ _ l5 l6 (by norm_num) (by norm_num) (by norm_num)
        (by norm_num) (by norm_num),
      float32_inRange_mk _ _ _ _ _ _ _ l7 l8 (by norm_num) (by norm_num) (by norm_num)
        (by norm_num) (by norm_num)⟩,
    ⟨float32_inRange_mk _ _ _ _ _ _ _ r1 r2 (by norm_num) (by norm_num) (by norm_num)
        (by norm_num) (by norm_num),
      float32_inRange_mk _ _ _ _ _ _ _ r3 r4 (by norm_num) (by norm_num) (by norm_num)
        (by norm_num) (by norm_num),
      float32_inRange_mk _ _ _ _ _ _ _ r5 r6 (by norm_num) (by norm_num) (by norm_num)
        (by norm_num) (by norm_num),
      float32_inRange_mk _ _ _ _ _ _ _ r7 r8 (by norm_num) (by norm_num) (by norm_num)
        (by norm_num) (by norm_num)⟩⟩

/-- The time step `1.0f / 44100.0f` lies between `1/192000` and `1/44100`, and
the time step `2^(-40)` is positive. -/
theorem float32_steps_eval :
    dt44100.StepInRange ∧ |dt44100.toRat - 1 / 44100| ≤ 1 / 2 ^ 40 ∧
    (dtTiny.isFinite = true ∧ dtTiny.Valid ∧ dtTiny.toRat = 1 / 2 ^ 40) := by
  have e1 : dt44100.toRat = 12466118 / 2 ^ 39 := by
    unfold dt44100
    rw [float32_toRat_mk _ _ _ (by norm_num)]
    norm_num
  have e2 : dtTiny.toRat = 1 / 2 ^ 40 := by
    unfold dtTiny
    rw [float32_toRat_mk _ _ _ (by norm_num)]
    norm_num
  refine ⟨⟨rfl, by decide, ?_, ?_⟩, ?_, rfl, by decide, e2⟩
  · rw [e1]; norm_num
  · rw [e1]; norm_num
  · rw [e1, abs_le]; constructor <;> norm_num

/-- Sample evaluations of the single-precision model: `0.1f + 0.2f` is `0.3f`
and so is `3 * 0.1f`; `2^24 + 1` is `2^24` (tie to even) and `2^24 + 3` is
`2^24 + 4`; the largest finite value doubled, or increased by half a unit in
the last place, overflows, and increased by a quarter of it does not;
`inf - inf` and `0 * inf` are NaN; halving `2^(-149)` gives `0` and halving
`-3 * 2^(-149)` gives `-2 * 2^(-149)` (ties to even); `1 - 1` is `+0`;
`2^70 * 2^70` is `+inf`; `1 + 2^(-24)` is `1` and `1 + 3 * 2^(-25)` is the
next value above `1`. -/
theorem float32_arithmetic_samples :
    Float32.add ⟨0, 13421773, 122⟩ ⟨0, 13421773, 123⟩ = ⟨0, 10066330, 124⟩ ∧
    Float32.mul (Float32.ofNat 3) ⟨0, 13421773, 122⟩ = ⟨0, 10066330, 124⟩ ∧
    Float32.add (Float32.ofNat 16777216) (Float32.ofNat 1) = ⟨0, 8388608, 150⟩ ∧
    Float32.add (Float32.ofNat 16777216) (Float32.ofNat 3) = ⟨0, 8388610, 150⟩ ∧
    Float32.mul ⟨0, 16777215, 253⟩ (Float32.ofNat 2) = Float32.inf 0 ∧
    Float32.add ⟨0, 16777215, 253⟩ ⟨0, 8388608, 229⟩ = Float32.inf 0 ∧
    Float32.add ⟨0, 16777215, 253⟩ ⟨0, 8388608, 228⟩ = ⟨0, 16777215, 253⟩ ∧
    (Float32.sub (Float32.inf 0) (Float32.inf 0)).isNaN = true ∧
    (Float32.mul (Float32.ofNat 0) (Float32.inf 1)).isNaN = true ∧
    Float32.mul ⟨0, 1, 0⟩ ⟨0, 8388608, 125⟩ = ⟨0, 0, 0⟩ ∧
    Float32.mul ⟨1, 3, 0⟩ ⟨0, 8388608, 125⟩ = ⟨1, 2, 0⟩ ∧
    Float32.sub (Float32.ofNat 1) (Float32.ofNat 1) = ⟨0, 0, 0⟩ ∧
    Float32.mul ⟨0, 8388608, 196⟩ ⟨0, 8388608, 196⟩ = Float32.inf 0 ∧
    Float32.add (Float32.ofNat 1) ⟨0, 8388608, 102⟩ = Float32.ofNat 1 ∧
    Float32.add (Float32.ofNat 1) ⟨0, 12582912, 102⟩ = ⟨0, 8388609, 126⟩ := by
  decide!

/-- The single-precision constants of the constructors are the nearest values
to the numbers written in the source: `8.0f / 3.0f`, `0.2f`, `5.7f`, `0.5f`,
`10.0f` and `28.0f`. -/
theorem float32_literals_nearest :
    |LorenzAttractor32.ctor.beta.toRat - 8 / 3| ≤ 1 / 2 ^ 23 ∧
    |RosslerAttractor32.ctor.a.toRat - 0.2| ≤ 1 / 2 ^ 27 ∧
    |RosslerAttractor32.ctor.b.toRat - 0.2| ≤ 1 / 2 ^ 27 ∧
    |RosslerAttractor32.ctor.c.toRat - 5.7| ≤ 1 / 2 ^ 22 ∧
    (LorenzAttractor32.ctor.pitch.toRat = 0.5 ∧ RosslerAttractor32.ctor.pitch.toRat = 0.5) ∧
    LorenzAttractor32.ctor.sigma.toRat = 10 ∧ LorenzAttractor32.ctor.rho.toRat = 28 := by
  rw [lorenz32_ctor_eval, rossler32_ctor_eval]
  refine ⟨?_, ?_, ?_, ?_, ⟨?_, ?_⟩, ?_, ?_⟩
  · show |Float32.toRat ⟨0, 11184811, 127⟩ - 8 / 3| ≤ 1 / 2 ^ 23
    rw [float32_toRat_mk _ _ _ (by norm_num), abs_le]
    constructor <;> norm_num
  · show |Float32.toRat ⟨0, 13421773, 123⟩ - 0.2| ≤ 1 / 2 ^ 27
    rw [float32_toRat_mk _ _ _ (by norm_num), abs_le]
    constructor <;> norm_num
  · show |Float32.toRat ⟨0, 13421773, 123⟩ - 0.2| ≤ 1 / 2 ^ 27
    rw [float32_toRat_mk _ _ _ (by norm_num), abs_le]
    constructor <;> norm_num
  · show |Float32.toRat ⟨0, 11953766, 128⟩ - 5.7| ≤ 1 / 2 ^ 22
    rw [float32_toRat_mk _ _ _ (by norm_num), abs_le]
    constructor <;> norm_num
  · show Float32.toRat ⟨0, 8388608, 125⟩ = 0.5
    rw [float32_toRat_mk _ _ _ (by norm_num)]
    norm_num
  · show Float32.toRat ⟨0, 8388608, 125⟩ = 0.5
    rw [float32_toRat_mk _ _ _ (by norm_num)]
    norm_num
  · show Float32.toRat ⟨0, 10485760, 129⟩ = 10
    rw [float32_toRat_mk _ _ _ (by norm_num)]
    norm_num
  · show Float32.toRat ⟨0, 14680064, 130⟩ = 28
    rw [float32_toRat_mk _ _ _ (by norm_num)]
    norm_num

/-- The first single-precision step from the freshly constructed attractors
agrees with the exact step to four decimals: `x = 1` exactly and `y = 1.1105`
for Lorenz, `z = 0.8515` for Rössler. -/
theorem float32_first_step_rounded :
    (LorenzAttractor32.ctor.process dt44100).x.toRat = 1 ∧
    (LorenzAttractor32.ctor.process dt44100).y = ⟨0, 9315920, 126⟩ ∧
    (RosslerAttractor32.ctor.process dt44100).z = ⟨0, 14286313, 125⟩ ∧
    roundTo4 (LorenzAttractor32.ctor.process dt44100).y.toRat = 1.1105 ∧
    roundTo4 (RosslerAttractor32.ctor.process dt44100).z.toRat = 0.8515 := by
  have hx : (LorenzAttractor32.ctor.process dt44100).x.toRat = 1 := by
    have e : (LorenzAttractor32.ctor.process dt44100).x = ⟨0, 8388608, 126⟩ := by
      decide!
    rw [e, float32_toRat_mk _ _ _ (by norm_num)]
    norm_num
  have hy : (LorenzAttractor32.ctor.process dt44100).y = ⟨0, 9315920, 126⟩ := by
    decide!
  have hz : (RosslerAttractor32.ctor.process dt44100).z = ⟨0, 14286313, 125⟩ := by
    decide!
  refine ⟨hx, hy, hz, ?_, ?_⟩
  · rw [hy]
    have e : Float32.toRat ⟨0, 9315920, 126⟩ = 9315920 / 2 ^ 23 := by
      rw [float32_toRat_mk _ _ _ (by norm_num)]
      norm_num
    rw [e, (roundTo4_eq_iff (9315920 / 2 ^ 23) 11105).2 (by norm_num)]
    norm_num
  · rw [hz]
    have e : Float32.toRat ⟨0, 14286313, 125⟩ = 14286313 / 2 ^ 24 := by
      rw [float32_toRat_mk _ _ _ (by norm_num)]
      norm_num
    rw [e, (roundTo4_eq_iff (14286313 / 2 ^ 24) 8515).2 (by norm_num)]
    norm_num

/-! ### Claim C5: a zero time step in single precision -/

namespace Float32

/-- A finite value times a finite zero is a zero. -/
theorem mul_zero_right (a z : Float32) (ha : a.e ≤ 253) (hz : z.e ≤ 253) (hm : z.m = 0) :
    mul a z = ⟨(a.sign + z.sign) % 2, 0, 0⟩ := by
  rw [mul_of_finite a z ha hz, hm, Nat.mul_zero, round_zero]

/-- A finite zero times a finite value is a zero. -/
theorem mul_zero_left (z b : Float32) (hz : z.e ≤ 253) (hb : b.e ≤ 253) (hm : z.m = 0) :
    mul z b = ⟨(z.sign + b.sign) % 2, 0, 0⟩ := by
  rw [mul_of_finite z b hz hb, hm, Nat.zero_mul, round_zero]

/-- Adding a zero to a finite single-precision value gives a finite value with
the same rational value (a negative zero may become a positive zero). -/
theorem add_zero_right (a : Float32) (sz : Nat) (ha : a.e ≤ 253) (hm : a.m < 2 ^ 24) :
    (add a ⟨sz, 0, 0⟩).e ≤ 253 ∧ (add a ⟨sz, 0, 0⟩).toRat = a.toRat := by
  have hze : (⟨sz, 0, 0⟩ : Float32).e ≤ 253 := by show 0 ≤ 253; omega
  have hmag : a.m * 2 ^ (a.e - (a.e - (a.e - 0))) = a.m * 2 ^ a.e := by
    rw [show a.e - (a.e - (a.e - 0)) = a.e from by omega]
  have hE : a.e - (a.e - 0) + 149 = 149 := by omega
  have hval : ∀ s : Nat, (s = a.sign ∨ a.m = 0) →
      (round s (a.m * 2 ^ a.e) 149).e ≤ 253 ∧ (round s (a.m * 2 ^ a.e) 149).toRat = a.toRat := by
    intro s hs
    obtain ⟨h1, h2, _, h4⟩ := round_exact s (a.m * 2 ^ a.e) 149 a.m (a.e + 149) hm (by omega)
      (by omega) (by rw [pow_add]; ring)
    refine ⟨h2, ?_⟩
    have hmag' : (round s (a.m * 2 ^ a.e) 149).m * 2 ^ (round s (a.m * 2 ^ a.e) 149).e =
        a.m * 2 ^ a.e := by
      rw [pow_add, ← mul_assoc] at h4
      exact Nat.eq_of_mul_eq_mul_right (Nat.pow_pos (by norm_num)) h4
    rw [toRat_of_finite _ h2, toRat_of_finite a ha, hmag', h1]
    rcases hs with hs | hs
    · rw [hs]
    · rw [hs, Nat.zero_mul]
      simp
  rw [add_of_finite a ⟨sz, 0, 0⟩ ha hze]
  by_cases hs : a.sign = sz
  · rw [addFinite_same a ⟨sz, 0, 0⟩ hs]
    show (round a.sign (a.m * 2 ^ (a.e - (a.e - (a.e - 0))) + 0 * 2 ^ (0 - (a.e - (a.e - 0))))
        (a.e - (a.e - 0) + 149)).e ≤ 253 ∧
      (round a.sign (a.m * 2 ^ (a.e - (a.e - (a.e - 0))) + 0 * 2 ^ (0 - (a.e - (a.e - 0))))
        (a.e - (a.e - 0) + 149)).toRat = a.toRat
    rw [hmag, hE, Nat.zero_mul, Nat.add_zero]
    exact hval a.sign (Or.inl rfl)
  · rw [addFinite_diff_ge a ⟨sz, 0, 0⟩ hs (by show 0 * _ ≤ _; rw [Nat.zero_mul]; exact Nat.zero_le _)]
    show (round (a.sign * (1 - (1 - (a.m * 2 ^ (a.e - (a.e - (a.e - 0))) -
          0 * 2 ^ (0 - (a.e - (a.e - 0)))))))
        (a.m * 2 ^ (a.e - (a.e - (a.e - 0))) - 0 * 2 ^ (0 - (a.e - (a.e - 0))))
        (a.e - (a.e - 0) + 149)).e ≤ 253 ∧
      (round (a.sign * (1 - (1 - (a.m * 2 ^ (a.e - (a.e - (a.e - 0))) -
          0 * 2 ^ (0 - (a.e - (a.e - 0)))))))
        (a.m * 2 ^ (a.e - (a.e - (a.e - 0))) - 0 * 2 ^ (0 - (a.e - (a.e - 0))))
        (a.e - (a.e - 0) + 149)).toRat = a.toRat
    rw [hmag, hE, Nat.zero_mul, Nat.sub_zero]
    apply hval
    rcases Nat.eq_zero_or_pos a.m with h0 | hpos
    · right; exact h0
    · left
      have : 0 < a.m * 2 ^ a.e := Nat.mul_pos hpos (Nat.pow_pos (by norm_num))
      rw [show 1 - (1 - a.m * 2 ^ a.e) = 1 from by omega, Nat.mul_one]

theorem mulSpecial_not_finite (a b : Float32) : (mulSpecial a b).isFinite = false := by
  unfold mulSpecial
  generalize (a.isNaN || b.isNaN) = c1
  generalize ((a.isFinite && Nat.beq a.m 0) || (b.isFinite && Nat.beq b.m 0)) = c2
  cases c1 <;> cases c2 <;> rfl

theorem addSpecial_not_finite (a b : Float32) : (addSpecial a b).isFinite = false := by
  unfold addSpecial
  generalize (a.isNaN || b.isNaN) = c1
  generalize a.isFinite = c2
  generalize b.isFinite = c3
  generalize Nat.beq a.sign b.sign = c4
  cases c1 <;> cases c2 <;> cases c3 <;> cases c4 <;> rfl

/-- A finite product has finite factors. -/
theorem finite_of_mul_finite (a b : Float32) (h : (mul a b).isFinite = true) :
    a.e ≤ 253 ∧ b.e ≤ 253 := by
  by_contra hc
  rw [mul_of_not_finite a b (by omega), mulSpecial_not_finite] at h
  exact Bool.noConfusion h

/-- A finite sum has finite summands. -/
theorem finite_of_add_finite (a b : Float32) (h : (add a b).isFinite = true) :
    a.e ≤ 253 ∧ b.e ≤ 253 := by
  by_contra hc
  rw [add_of_not_finite a b (by omega), addSpecial_not_finite] at h
  exact Bool.noConfusion h

end Float32

theorem float32_ofNat_zero : Float32.ofNat 0 = ⟨0, 0, 0⟩ := rfl

/-- One coordinate under a zero time step: when the derivative `d` and the
pitch are finite, the increment `d * 0 * pitch * k` is a zero and the
coordinate keeps its value. -/
theorem float32_zero_increment (x d pitch k : Float32) (hx : x.e ≤ 253) (hxm : x.m < 2 ^ 24)
    (hd : d.isFinite = true) (hp : pitch.isFinite = true) (hk : k.e ≤ 253) :
    (Float32.add x (Float32.mul (Float32.mul (Float32.mul d (Float32.ofNat 0)) pitch) k)).isFinite
        = true ∧
      (Float32.add x (Float32.mul (Float32.mul (Float32.mul d (Float32.ofNat 0)) pitch) k)).toRat
        = x.toRat := by
  have hde := (Float32.isFinite_eq_true_iff d).1 hd
  have hpe := (Float32.isFinite_eq_true_iff pitch).1 hp
  rw [float32_ofNat_zero, Float32.mul_zero_right d ⟨0, 0, 0⟩ hde (by show 0 ≤ 253; omega) rfl,
    Float32.mul_zero_left _ pitch (by show 0 ≤ 253; omega) hpe rfl,
    Float32.mul_zero_left _ k (by show 0 ≤ 253; omega) hk rfl]
  obtain ⟨h1, h2⟩ := Float32.add_zero_right x _ hx hxm
  exact ⟨(Float32.isFinite_eq_true_iff _).2 h1, h2⟩

/-- Finite Lorenz derivatives come from a finite state. -/
theorem lorenz32_state_finite (l : LorenzAttractor32)
    (hdx : l.dx.isFinite = true) (hdz : l.dz.isFinite = true) :
    l.x.e ≤ 253 ∧ l.y.e ≤ 253 ∧ l.z.e ≤ 253 := by
  have h1 := (Float32.finite_of_mul_finite _ _ hdx).2
  have h2 := Float32.finite_of_add_finite _ _ ((Float32.isFinite_eq_true_iff _).2 h1)
  have h3 := (Float32.finite_of_add_finite _ _ hdz).2
  have h4 := (Float32.finite_of_mul_finite l.beta l.z ((Float32.isFinite_eq_true_iff _).2 h3)).2
  exact ⟨h2.2, h2.1, h4⟩

/-- Finite Rössler derivatives come from a finite state. -/
theorem rossler32_state_finite (r : RosslerAttractor32)
    (hdx : r.dx.isFinite = true) (hdy : r.dy.isFinite = true) :
    r.x.e ≤ 253 ∧ r.y.e ≤ 253 ∧ r.z.e ≤ 253 := by
  have h1 := Float32.finite_of_add_finite _ _ hdx
  have h2 := (Float32.finite_of_add_finite _ _ hdy).1
  exact ⟨h2, h1.1, h1.2⟩

/-- Claim C5, as stated, fails.  In single precision the finite state
`x = y = 2^70`, `z = 1` of a Lorenz attractor with default parameters has an
infinite `dz` (the product `x * y` overflows), and `advance(0)` turns `z` into a
NaN, since `inf * 0` is a NaN; the same happens to `z` for a Rössler attractor
at `x = z = 2^70`, `y = 1`. -/
theorem zero_step_overflow_changes_state :
    ((farLorenz.x.isFinite = true ∧ farLorenz.y.isFinite = true ∧
        farLorenz.z = Float32.ofNat 1) ∧
      farLorenz.dz = Float32.inf 0 ∧
      (farLorenz.process (Float32.ofNat 0)).z.isNaN = true ∧
      (farLorenz.process (Float32.ofNat 0)).z ≠ farLorenz.z) ∧
    ((farRossler.x.isFinite = true ∧ farRossler.y = Float32.ofNat 1 ∧
        farRossler.z.isFinite = true) ∧
      farRossler.dz = Float32.inf 0 ∧
      (farRossler.process (Float32.ofNat 0)).z.isNaN = true ∧
      (farRossler.process (Float32.ofNat 0)).z ≠ farRossler.z) := by
  decide!

/-- Claim C5, amended.  In single precision, for every state of
single-precision values and every parameter setting for which the three
derivatives `dx`, `dy`, `dz` are finite and `pitch` is finite, `advance(0)`
leaves `x`, `y` and `z` finite with the same values (a negative zero may become
a positive zero), for both attractors. -/
theorem zero_step_keeps_finite_state (l : LorenzAttractor32) (r : RosslerAttractor32)
    (hl : (l.x.Valid ∧ l.y.Valid ∧ l.z.Valid) ∧ l.pitch.isFinite = true ∧
      l.dx.isFinite = true ∧ l.dy.isFinite = true ∧ l.dz.isFinite = true)
    (hr : (r.x.Valid ∧ r.y.Valid ∧ r.z.Valid) ∧ r.pitch.isFinite = true ∧
      r.dx.isFinite = true ∧ r.dy.isFinite = true ∧ r.dz.isFinite = true) :
    (((l.process (Float32.ofNat 0)).x.isFinite = true ∧
        (l.process (Float32.ofNat 0)).x.toRat = l.x.toRat) ∧
      ((l.process (Float32.ofNat 0)).y.isFinite = true ∧
        (l.process (Float32.ofNat 0)).y.toRat = l.y.toRat) ∧
      ((l.process (Float32.ofNat 0)).z.isFinite = true ∧
        (l.process (Float32.ofNat 0)).z.toRat = l.z.toRat)) ∧
    (((r.process (Float32.ofNat 0)).x.isFinite = true ∧
        (r.process (Float32.ofNat 0)).x.toRat = r.x.toRat) ∧
      ((r.process (Float32.ofNat 0)).y.isFinite = true ∧
        (r.process (Float32.ofNat 0)).y.toRat = r.y.toRat) ∧
      ((r.process (Float32.ofNat 0)).z.isFinite = true ∧
        (r.process (Float32.ofNat 0)).z.toRat = r.z.toRat)) := by
  obtain ⟨⟨hlx, hly, hlz⟩, hlp, hldx, hldy, hldz⟩ := hl
  obtain ⟨⟨hrx, hry, hrz⟩, hrp, hrdx, hrdy, hrdz⟩ := hr
  obtain ⟨flx, fly, flz⟩ := lorenz32_state_finite l hldx hldz
  obtain ⟨frx, fry, frz⟩ := rossler32_state_finite r hrdx hrdy
  obtain ⟨elx, ely, elz⟩ := lorenz32_process_fields l (Float32.ofNat 0)
  obtain ⟨erx, ery, erz⟩ := rossler32_process_fields r (Float32.ofNat 0)
  have k375 : (Float32.ofNat 375).e ≤ 253 := by rw [float32_ofNat_375]; norm_num
  have k2910 : (Float32.ofNat 2910).e ≤ 253 := by rw [float32_ofNat_2910]; norm_num
  rw [elx, ely, elz, erx, ery, erz]
  exact ⟨⟨float32_zero_increment _ _ _ _ flx hlx.2.1 hldx hlp k375,
      float32_zero_increment _ _ _ _ fly hly.2.1 hldy hlp k375,
      float32_zero_increment _ _ _ _ flz hlz.2.1 hldz hlp k375⟩,
    ⟨float32_zero_increment _ _ _ _ frx hrx.2.1 hrdx hrp k2910,
      float32_zero_increment _ _ _ _ fry hry.2.1 hrdy hrp k2910,
      float32_zero_increment _ _ _ _ frz hrz.2.1 hrdz hrp k2910⟩⟩

/-- Witness for claim C5 (amended): the freshly constructed attractors. -/
theorem zero_step_keeps_finite_state_witness :
    ((LorenzAttractor32.ctor.x.Valid ∧ LorenzAttractor32.ctor.y.Valid ∧
        LorenzAttractor32.ctor.z.Valid) ∧ LorenzAttractor32.ctor.pitch.isFinite = true ∧
      LorenzAttractor32.ctor.dx.isFinite = true ∧ LorenzAttractor32.ctor.dy.isFinite = true ∧
      LorenzAttractor32.ctor.dz.isFinite = true) ∧
    ((RosslerAttractor32.ctor.x.Valid ∧ RosslerAttractor32.ctor.y.Valid ∧
        RosslerAttractor32.ctor.z.Valid) ∧ RosslerAttractor32.ctor.pitch.isFinite = true ∧
      RosslerAttractor32.ctor.dx.isFinite = true ∧ RosslerAttractor32.ctor.dy.isFinite = true ∧
      RosslerAttractor32.ctor.dz.isFinite = true) ∧
    (((LorenzAttractor32.ctor.process (Float32.ofNat 0)).x.isFinite = true ∧
        (LorenzAttractor32.ctor.process (Float32.ofNat 0)).x.toRat =
          LorenzAttractor32.ctor.x.toRat) ∧
      ((LorenzAttractor32.ctor.process (Float32.ofNat 0)).y.isFinite = true ∧
        (LorenzAttractor32.ctor.process (Float32.ofNat 0)).y.toRat =
          LorenzAttractor32.ctor.y.toRat) ∧
      ((LorenzAttractor32.ctor.process (Float32.ofNat 0)).z.isFinite = true ∧
        (LorenzAttractor32.ctor.process (Float32.ofNat 0)).z.toRat =
          LorenzAttractor32.ctor.z.toRat)) ∧
    (((RosslerAttractor32.ctor.process (Float32.ofNat 0)).x.isFinite = true ∧
        (RosslerAttractor32.ctor.process (Float32.ofNat 0)).x.toRat =
          RosslerAttractor32.ctor.x.toRat) ∧
      ((RosslerAttractor32.ctor.process (Float32.ofNat 0)).y.isFinite = true ∧
        (RosslerAttractor32.ctor.process (Float32.ofNat 0)).y.toRat =
          RosslerAttractor32.ctor.y.toRat) ∧
      ((RosslerAttractor32.ctor.process (Float32.ofNat 0)).z.isFinite = true ∧
        (RosslerAttractor32.ctor.process (Float32.ofNat 0)).z.toRat =
          RosslerAttractor32.ctor.z.toRat)) :=
  have hl : (LorenzAttractor32.ctor.x.Valid ∧ LorenzAttractor32.ctor.y.Valid ∧
        LorenzAttractor32.ctor.z.Valid) ∧ LorenzAttractor32.ctor.pitch.isFinite = true ∧
      LorenzAttractor32.ctor.dx.isFinite = true ∧ LorenzAttractor32.ctor.dy.isFinite = true ∧
      LorenzAttractor32.ctor.dz.isFinite = true := by decide!
  have hr : (RosslerAttractor32.ctor.x.Valid ∧ RosslerAttractor32.ctor.y.Valid ∧
        RosslerAttractor32.ctor.z.Valid) ∧ RosslerAttractor32.ctor.pitch.isFinite = true ∧
      RosslerAttractor32.ctor.dx.isFinite = true ∧ RosslerAttractor32.ctor.dy.isFinite = true ∧
      RosslerAttractor32.ctor.dz.isFinite = true := by decide!
  have t := zero_step_keeps_finite_state LorenzAttractor32.ctor RosslerAttractor32.ctor hl hr
  ⟨hl, hr, t.1, t.2⟩

/-! ### Claim C17: the seed in single precision -/

/-- At the seed, with `rho ≥ 13`, the Lorenz derivative `dy`, which is
`rho - 2` in exact arithmetic, is at least `11`. -/
theorem lorenz32_seed_dy_atLeast (l : LorenzAttractor32) (hl : l.ParamsInRange)
    (hs : l.x = Float32.ofNat 1 ∧ l.y = Float32.ofNat 1 ∧ l.z = Float32.ofNat 1) :
    Float32.AtLeast 0 11 149 l.dy := by
  obtain ⟨⟨hrf, hr13⟩, _⟩ := lorenz32_range_bounds l hl
  obtain ⟨hx, hy, hz⟩ := hs
  rw [lorenz32_dy_eq, hx, hy, hz, float32_ofNat_one]
  have hone : Float32.AtLeast 0 1 149 ⟨0, 8388608, 126⟩ :=
    Or.inr ⟨rfl, by norm_num, by show 1 * 2 ^ 149 ≤ 8388608 * 2 ^ 126; norm_num⟩
  have hrho : Float32.AtLeast 0 13 149 l.rho := by
    apply Float32.atLeast_of_toRat l.rho 13 149 hrf (by norm_num)
    refine le_trans (le_of_eq ?_) hr13
    push_cast
    norm_num
  have h1 : Float32.AtLeast 0 12 149 (Float32.sub l.rho ⟨0, 8388608, 126⟩) :=
    Float32.sub_atLeast hrho (by norm_num) rfl (by norm_num) (by norm_num)
      (by show 8388608 * 2 ^ 126 + 12 * 2 ^ 149 ≤ 13 * 2 ^ 149; norm_num)
  have h2 := Float32.mul_atLeast hone h1 (by norm_num) (by norm_num) (by norm_num) (by norm_num)
  exact Float32.sub_atLeast h2 (by norm_num) rfl (by norm_num) (by norm_num)
    (by show 8388608 * 2 ^ 126 + 11 * 2 ^ 149 ≤ 1 * 12 * 2 ^ (149 + 149 - 149); norm_num)

/-- From the seed, with `rho ≥ 13`, `pitch ≥ 0.001f` and a time step of at least
`2^(-26)`, the Lorenz increment of `y` is positive and above `2^(-24)`, half a
unit in the last place of `1.0f`: the new `y` is above `1`. -/
theorem lorenz32_seed_y_increases (l : LorenzAttractor32) (dt : Float32)
    (hl : l.ParamsInRange)
    (hs : l.x = Float32.ofNat 1 ∧ l.y = Float32.ofNat 1 ∧ l.z = Float32.ofNat 1)
    (hdt : dt.Valid ∧ Float32.le dtMin dt = true) :
    Float32.lt (Float32.ofNat 1) (l.process dt).y = true := by
  obtain ⟨_, ⟨hpf, hp⟩⟩ := lorenz32_range_bounds l hl
  have h3 := lorenz32_seed_dy_atLeast l hl hs
  rw [lorenz32_process_y_dy, hs.2.1, float32_ofNat_one, float32_ofNat_375]
  have h375 : Float32.AtLeast 0 375 149 ⟨0, 12288000, 134⟩ :=
    Or.inr ⟨rfl, by norm_num, by show 375 * 2 ^ 149 ≤ 12288000 * 2 ^ 134; norm_num⟩
  have hpitch : Float32.AtLeast 0 1 139 l.pitch := by
    apply Float32.atLeast_of_toRat l.pitch 1 139 hpf (by norm_num)
    refine le_trans ?_ hp
    push_cast
    norm_num
  have hstep : Float32.AtLeast 0 1 123 dt :=
    Float32.atLeast_of_le 1 123 (a := dtMin) (by show 100 ≤ 253; omega) rfl (by norm_num)
      (by show 1 * 2 ^ 123 ≤ 8388608 * 2 ^ 100; norm_num) hdt.1 hdt.2
  have h4 := Float32.mul_atLeast h3 hstep (by norm_num) (by norm_num) (by norm_num) (by norm_num)
  have h5 := Float32.mul_atLeast h4 hpitch (by norm_num) (by norm_num) (by norm_num)
    (by norm_num)
  have h6 := Float32.mul_atLeast h5 h375 (by norm_num) (by norm_num) (by norm_num)
    (by norm_num)
  have h7 : Float32.AtLeast 0 8388609 126
      (Float32.add ⟨0, 8388608, 126⟩
        (Float32.mul (Float32.mul (Float32.mul l.dy dt) l.pitch) ⟨0, 12288000, 134⟩)) :=
    Float32.add_atLeast_mid (by norm_num) rfl h6 (by norm_num) (by norm_num)
      (by show (2 * 8388609 - 1) * 2 ^ 126 < 2 * (8388608 * 2 ^ 126 +
            11 * 1 * 1 * 375 * 2 ^ (149 + 123 - 149 + 139 - 149 + 149 - 149))
          norm_num)
  exact Float32.lt_of_atLeast (by norm_num) rfl h7
    (by show 8388608 * 2 ^ 126 < 8388609 * 2 ^ 126; norm_num)

/-- From the seed, with `pitch ≥ 0.001` and a time step of at least `2^(-26)`,
the Rössler increment of `x` is negative with magnitude at least `2^(-24)`, one
unit in the last place below `1.0f`: the new `x` is below `1`. -/
theorem rossler32_seed_x_decreases (r : RosslerAttractor32) (dt : Float32)
    (hr : r.ParamsInRange)
    (hs : r.x = Float32.ofNat 1 ∧ r.y = Float32.ofNat 1 ∧ r.z = Float32.ofNat 1)
    (hdt : dt.Valid ∧ Float32.le dtMin dt = true) :
    Float32.lt (r.process dt).x (Float32.ofNat 1) = true := by
  obtain ⟨hpf, hp⟩ := rossler32_range_bounds r hr
  obtain ⟨hx, hy, hz⟩ := hs
  rw [rossler32_process_x, hx, hy, hz, float32_ofNat_one, float32_ofNat_2910]
  have hdx : Float32.sub (Float32.neg ⟨0, 8388608, 126⟩) ⟨0, 8388608, 126⟩ =
      ⟨1, 8388608, 127⟩ := by decide!
  rw [hdx]
  have hmtwo : Float32.AtLeast 1 1 150 ⟨1, 8388608, 127⟩ :=
    Or.inr ⟨rfl, by norm_num, by show 1 * 2 ^ 150 ≤ 8388608 * 2 ^ 127; norm_num⟩
  have h2910 : Float32.AtLeast 0 2910 149 ⟨0, 11919360, 137⟩ :=
    Or.inr ⟨rfl, by norm_num, by show 2910 * 2 ^ 149 ≤ 11919360 * 2 ^ 137; norm_num⟩
  have hpitch : Float32.AtLeast 0 1 139 r.pitch := by
    apply Float32.atLeast_of_toRat r.pitch 1 139 hpf (by norm_num)
    refine le_trans ?_ hp
    push_cast
    norm_num
  have hstep : Float32.AtLeast 0 1 123 dt :=
    Float32.atLeast_of_le 1 123 (a := dtMin) (by show 100 ≤ 253; omega) rfl (by norm_num)
      (by show 1 * 2 ^ 123 ≤ 8388608 * 2 ^ 100; norm_num) hdt.1 hdt.2
  have h4 := Float32.mul_atLeast hmtwo hstep (by norm_num) (by norm_num) (by norm_num)
    (by norm_num)
  have h5 := Float32.mul_atLeast h4 hpitch (by norm_num) (by norm_num) (by norm_num)
    (by norm_num)
  have h6 := Float32.mul_atLeast h5 h2910 (by norm_num) (by norm_num) (by norm_num)
    (by norm_num)
  have h7 := Float32.add_neg_upper 16777215 125 (a := ⟨0, 8388608, 126⟩)
    (by norm_num) rfl h6 (by norm_num) (by norm_num)
    (by show 8388608 * 2 ^ 126 ≤ 16777215 * 2 ^ 125 +
            1 * 1 * 1 * 2910 * 2 ^ (150 + 123 - 149 + 139 - 149 + 149 - 149)
        norm_num)
  exact Float32.lt_of_neg_or_below (by norm_num) rfl h7
    (by show 16777215 * 2 ^ 125 < 8388608 * 2 ^ 126; norm_num)

/-- The Rössler derivative `dx` at the seed is `-2`. -/
theorem rossler32_seed_dx (r : RosslerAttractor32)
    (hs : r.x = Float32.ofNat 1 ∧ r.y = Float32.ofNat 1 ∧ r.z = Float32.ofNat 1) :
    r.dx = Float32.neg (Float32.ofNat 2) := by
  have e : Float32.sub (Float32.neg (Float32.ofNat 1)) (Float32.ofNat 1) =
      Float32.neg (Float32.ofNat 2) := by decide!
  show Float32.sub (Float32.neg r.y) r.z = _
  rw [hs.2.1, hs.2.2, e]

theorem coldLorenz_paramsInRange : coldLorenz.ParamsInRange := by
  obtain ⟨⟨l1, l2, l3, l4, l5, l6, l7, l8⟩, _, _⟩ := float32_range_constants
  have e : coldLorenz =
      { sigma := ⟨0, 10485760, 129⟩, beta := ⟨0, 11184811, 127⟩, rho := ⟨0, 13631488, 129⟩,
        pitch := ⟨0, 8589935, 116⟩,
        x := ⟨0, 8388608, 126⟩, y := ⟨0, 8388608, 126⟩, z := ⟨0, 8388608, 126⟩ } := by
    decide!
  rw [e]
  exact ⟨float32_inRange_mk _ _ _ _ _ _ _ l1 l2 (by norm_num) (by norm_num) (by norm_num)
      (by norm_num) (by norm_num),
    float32_inRange_mk _ _ _ _ _ _ _ l3 l4 (by norm_num) (by norm_num) (by norm_num)
      (by norm_num) (by norm_num),
    float32_inRange_mk _ _ _ _ _ _ _ l5 l6 (by norm_num) (by norm_num) (by norm_num)
      (by norm_num) (by norm_num),
    float32_inRange_mk _ _ _ _ _ _ _ l7 l8 (by norm_num) (by norm_num) (by norm_num)
      (by norm_num) (by norm_num)⟩

/-- Claim C17, as stated, fails.  In single precision a positive time step can
be too small to move the seed: with the default parameters, which lie inside
the valid ranges, and `dt = 2^(-40) > 0`, the increments of one advance are
below half a unit in the last place of `1.0f` and the addition returns `1.0f`,
so one advance leaves the whole state at the seed, for both attractors: the
Lorenz `y` does not increase and the Rössler `x` does not decrease.  With
`rho = 13.0f` and `pitch = 0.001f` the same happens to the Lorenz attractor
already at `dt = 2^(-27)`. -/
theorem seed_stays_under_tiny_step :
    (LorenzAttractor32.ctor.ParamsInRange ∧ RosslerAttractor32.ctor.ParamsInRange ∧
      dtTiny.isFinite = true ∧ 0 < dtTiny.toRat) ∧
    (LorenzAttractor32.ctor.process dtTiny = LorenzAttractor32.ctor ∧
      Float32.lt LorenzAttractor32.ctor.y (LorenzAttractor32.ctor.process dtTiny).y = false) ∧
    (RosslerAttractor32.ctor.process dtTiny = RosslerAttractor32.ctor ∧
      Float32.lt (RosslerAttractor32.ctor.process dtTiny).x RosslerAttractor32.ctor.x = false) ∧
    (coldLorenz.ParamsInRange ∧ dtSmall.isFinite = true ∧ 0 < dtSmall.toRat ∧
      coldLorenz.process dtSmall = coldLorenz) := by
  have e1 : LorenzAttractor32.ctor.process dtTiny = LorenzAttractor32.ctor := by decide!
  have e2 : RosslerAttractor32.ctor.process dtTiny = RosslerAttractor32.ctor := by decide!
  have e3 : coldLorenz.process dtSmall = coldLorenz := by decide!
  have p1 : (0 : ℚ) < dtTiny.toRat := by
    rw [float32_steps_eval.2.2.2.2]
    norm_num
  have p2 : (0 : ℚ) < dtSmall.toRat := by
    unfold dtSmall
    rw [float32_toRat_mk _ _ _ (by norm_num)]
    norm_num
  refine ⟨⟨ctor32_paramsInRange.1, ctor32_paramsInRange.2, rfl, p1⟩, ⟨e1, ?_⟩, ⟨e2, ?_⟩,
    coldLorenz_paramsInRange, rfl, p2, e3⟩
  · rw [e1]
    exact float32_lt_irrefl _
  · rw [e2]
    exact float32_lt_irrefl _

/-- Claim C17, amended.  In single precision, for every parameter setting
inside the valid ranges and every time step `dt ≥ 2^(-26)` (every host sample
rate up to `2^26` Hz; the comparison is the one of the format, so `dt` may be
the positive infinity and is not a NaN), one Lorenz advance from the seed
`(1, 1, 1)` strictly increases `y` (the derivative `dy` there, `rho - 2` in
exact arithmetic, is at least `11`), and one Rössler advance from the seed
strictly decreases `x` (the derivative `dx` there is `-2`); hence the advance
moves the state. -/
theorem seed_moves_in_single_precision (l : LorenzAttractor32) (r : RosslerAttractor32)
    (dt : Float32) (hl : l.ParamsInRange) (hr : r.ParamsInRange)
    (hls : l.x = Float32.ofNat 1 ∧ l.y = Float32.ofNat 1 ∧ l.z = Float32.ofNat 1)
    (hrs : r.x = Float32.ofNat 1 ∧ r.y = Float32.ofNat 1 ∧ r.z = Float32.ofNat 1)
    (hdt : dt.Valid ∧ Float32.le dtMin dt = true) :
    (Float32.le (Float32.ofNat 11) l.dy = true ∧
      Float32.lt l.y (l.process dt).y = true ∧ l.process dt ≠ l) ∧
    (r.dx = Float32.neg (Float32.ofNat 2) ∧
      Float32.lt (r.process dt).x r.x = true ∧ r.process dt ≠ r) := by
  have hy : Float32.lt l.y (l.process dt).y = true := by
    rw [hls.2.1]
    exact lorenz32_seed_y_increases l dt hl hls hdt
  have hx : Float32.lt (r.process dt).x r.x = true := by
    rw [hrs.1]
    exact rossler32_seed_x_decreases r dt hr hrs hdt
  have h11 : Float32.ofNat 11 = ⟨0, 11534336, 129⟩ := by decide!
  refine ⟨⟨?_, hy, ?_⟩, rossler32_seed_dx r hrs, hx, ?_⟩
  · rw [h11]
    exact Float32.le_of_atLeast (by norm_num) rfl (lorenz32_seed_dy_atLeast l hl hls)
      (by show 11534336 * 2 ^ 129 ≤ 11 * 2 ^ 149; norm_num)
  · intro h
    rw [h, float32_lt_irrefl] at hy
    exact Bool.false_ne_true hy
  · intro h
    rw [h, float32_lt_irrefl] at hx
    exact Bool.false_ne_true hx

/-- Witness for claim C17 (amended): the freshly constructed attractors advanced
with the time step of a 44.1 kHz host. -/
theorem seed_moves_in_single_precision_witness :
    (LorenzAttractor32.ctor.ParamsInRange ∧ RosslerAttractor32.ctor.ParamsInRange ∧
      (dt44100.Valid ∧ Float32.le dtMin dt44100 = true)) ∧
    (Float32.le (Float32.ofNat 11) LorenzAttractor32.ctor.dy = true ∧
      Float32.lt LorenzAttractor32.ctor.y (LorenzAttractor32.ctor.process dt44100).y = true ∧
      LorenzAttractor32.ctor.process dt44100 ≠ LorenzAttractor32.ctor) ∧
    (RosslerAttractor32.ctor.dx = Float32.neg (Float32.ofNat 2) ∧
      Float32.lt (RosslerAttractor32.ctor.process dt44100).x RosslerAttractor32.ctor.x = true ∧
      RosslerAttractor32.ctor.process dt44100 ≠ RosslerAttractor32.ctor) :=
  have hat : Float32.AtLeast 0 12466118 110 dt44100 :=
    Or.inr ⟨rfl, by show 110 ≤ 253; omega, le_refl _⟩
  have hle : Float32.le dtMin dt44100 = true :=
    Float32.le_of_atLeast (by show 100 ≤ 253; omega) rfl hat
      (by show 8388608 * 2 ^ 100 ≤ 12466118 * 2 ^ 110; norm_num)
  have hdt : dt44100.Valid ∧ Float32.le dtMin dt44100 = true := ⟨by decide, hle⟩
  have t := seed_moves_in_single_precision LorenzAttractor32.ctor RosslerAttractor32.ctor
    dt44100 ctor32_paramsInRange.1 ctor32_paramsInRange.2 ⟨rfl, rfl, rfl⟩ ⟨rfl, rfl, rfl⟩ hdt
  ⟨⟨ctor32_paramsInRange.1, ctor32_paramsInRange.2, hdt⟩, t.1, t.2⟩

/-! ### Claim C11: finiteness of the trajectories -/

